import Mathlib

/-!
# TowerDefense: a verification development of `RaylibC++/src/main.cpp`

The development embeds the path extraction (`FloodFill`) and the per-frame
update of `main` as Lean functions and proves properties of them.

Conventions of the embedding

* `int` values are `Int`.  The `int`s that the frame loop increments,
  `enemyCount` and `Enemy::currentWaypoint`, are bounded by `maxEnemies` and
  by `waypoints.size()`, so no 32-bit wrap-around is modelled; the conversions
  to `size_t` in `waypoints[...]` and in the comparison with
  `waypoints.size() - 1` are written out (`toSizeT`).
* A read or write outside an array or a `std::vector` is undefined behaviour
  in C++; the embedding returns `none` there, so a result `some _` also says
  that every access on the way was in range.
* `float` is an arbitrary type `R` carrying a linear order (comparisons are
  the order's; a NaN-free idealisation).  Arithmetic, `sqrtf`, `FLT_MAX`,
  the literals and the functions of `Math.h` and of raylib, none of which is
  in the translated source file, are the fields of an environment `Env R`, so
  a theorem stated for an arbitrary `E : Env R` holds for every
  interpretation of them.  `exactEnv` is the interpretation by exact rational
  arithmetic; the health values and the first movement step are proved for
  exact scalar arithmetic (`ExactArith`) or in `exactEnv`.  `f32Env` rounds
  the result of every operation to the nearest IEEE 754 binary32 value, the
  `float` of the usual targets; the tile coordinates are proved in it.
* Drawing does not change the state and is left out.
-/

namespace TowerDefense

/-! ## Grid -/

/-- Number of tiles per side, `TILE_COUNT`. -/
def TILE_COUNT : Int := 20

/-- Tile value `GRASS` of `enum TileType` (the spec's Empty). -/
def GRASS : Int := 0
/-- Tile value `DIRT` (the spec's Path). -/
def DIRT : Int := 1
/-- Tile value `WAYPOINT`. -/
def WAYPOINT : Int := 2
/-- Tile value `TURRET` (the spec's TurretSlot). -/
def TURRET : Int := 3
/-- Enumerator `COUNT`, one past the last tile value. -/
def COUNT : Int := 4

/-- The source's `struct Cell`. -/
structure Cell where
  row : Int
  col : Int
deriving DecidableEq, Repr

/-- The four neighbour offsets, in the order of the source's `DIRECTIONS`. -/
def DIRECTIONS : List Cell := [⟨-1, 0⟩, ⟨1, 0⟩, ⟨0, -1⟩, ⟨0, 1⟩]

/-- The source's `InBounds(cell, rows, cols)`. -/
def InBounds (cell : Cell) (rows cols : Int) : Bool :=
  decide (cell.col ≥ 0) && decide (cell.col < cols) && decide (cell.row ≥ 0) &&
    decide (cell.row < rows)

/-- A `T[TILE_COUNT][TILE_COUNT]` array: only the entries with both indices
below 20 are ever read or written. -/
abbrev Arr2 (α : Type) := Nat → Nat → α

/-- Read of `a[cell.row][cell.col]` for a cell known to be in bounds. -/
def Arr2.at {α : Type} (a : Arr2 α) (cell : Cell) : α :=
  a cell.row.toNat cell.col.toNat

/-- Write `a[cell.row][cell.col] = v` for a cell known to be in bounds. -/
def Arr2.set {α : Type} (a : Arr2 α) (cell : Cell) (v : α) : Arr2 α :=
  fun r c => if r = cell.row.toNat ∧ c = cell.col.toNat then v else a r c

/-- The tile array `int tiles[TILE_COUNT][TILE_COUNT]`. -/
abbrev Grid := Arr2 Int

/-- The tile literal of `main`, as rows. -/
def tileRows : List (List Int) :=
  [ [0, 0, 0, 0, 0, 0, 0, 0, 0, 0, 0, 0, 2, 0, 0, 0, 0, 0, 0, 0],
    [0, 0, 0, 0, 0, 0, 0, 0, 0, 0, 0, 0, 1, 0, 0, 0, 0, 0, 0, 0],
    [0, 0, 0, 0, 0, 0, 0, 0, 0, 0, 0, 0, 1, 0, 0, 0, 0, 0, 0, 0],
    [0, 0, 0, 0, 0, 0, 0, 0, 0, 0, 0, 0, 1, 0, 0, 0, 0, 0, 0, 0],
    [0, 0, 0, 0, 0, 0, 0, 0, 0, 0, 0, 0, 1, 0, 0, 0, 0, 0, 0, 0],
    [0, 0, 0, 0, 0, 0, 0, 0, 0, 0, 0, 0, 1, 0, 0, 0, 0, 0, 0, 0],
    [0, 0, 0, 0, 0, 0, 0, 0, 0, 0, 0, 0, 1, 0, 0, 0, 0, 0, 0, 0],
    [0, 3, 0, 2, 1, 1, 1, 1, 1, 1, 1, 1, 2, 0, 0, 0, 0, 0, 0, 0],
    [0, 0, 0, 1, 0, 0, 0, 0, 0, 0, 0, 0, 0, 0, 0, 0, 0, 0, 0, 0],
    [0, 0, 0, 1, 0, 0, 0, 0, 0, 0, 0, 0, 3, 0, 0, 0, 0, 0, 0, 0],
    [0, 0, 0, 1, 0, 3, 0, 0, 0, 0, 0, 0, 0, 0, 0, 0, 0, 0, 0, 0],
    [0, 0, 0, 1, 0, 0, 0, 0, 0, 0, 0, 0, 0, 0, 0, 0, 0, 0, 0, 0],
    [0, 0, 0, 1, 0, 0, 0, 0, 0, 0, 0, 0, 0, 0, 0, 0, 0, 0, 0, 0],
    [0, 0, 0, 2, 1, 1, 1, 1, 1, 1, 1, 1, 1, 1, 1, 1, 2, 0, 3, 0],
    [0, 0, 0, 0, 0, 0, 0, 0, 0, 0, 0, 0, 0, 0, 0, 0, 1, 0, 0, 0],
    [0, 0, 0, 3, 0, 0, 0, 0, 0, 0, 0, 0, 0, 0, 3, 0, 1, 0, 0, 0],
    [0, 0, 0, 0, 0, 0, 0, 0, 0, 0, 0, 0, 0, 0, 0, 0, 1, 0, 0, 0],
    [0, 0, 0, 0, 0, 0, 0, 3, 0, 2, 1, 1, 1, 1, 1, 1, 2, 0, 0, 0],
    [0, 0, 0, 0, 0, 0, 0, 0, 0, 1, 0, 0, 0, 0, 0, 0, 0, 0, 0, 0],
    [0, 0, 0, 0, 0, 0, 0, 0, 0, 2, 0, 0, 0, 0, 0, 0, 3, 0, 0, 0] ]

/-- A grid given by its rows; entries not listed are `GRASS`. -/
def gridOfRows (rows : List (List Int)) : Grid :=
  fun r c => (rows.getD r []).getD c 0

/-- The built-in grid `tiles` of `main`. -/
def tiles : Grid := gridOfRows tileRows

/-! ## FloodFill -/

/-- The local variables of `FloodFill` during its `while` loop.  The stack
`open` is kept with its back at the head of the list.  `trace` is not in the
source: it records, in order, the cells popped so far. -/
structure FillState where
  result : List Cell
  open_ : List Cell
  closed : Arr2 Bool
  trace : List Cell

/-- The initialisation loop of `FloodFill`: `closed[row][col] = tiles[row][col] == 0`. -/
def initClosed (tiles : Grid) : Arr2 Bool :=
  fun r c => decide (tiles r c = 0)

/-- The `for (Cell dir : DIRECTIONS)` loop for the popped `cell`: every
neighbour that is in bounds, not closed and has a positive tile is pushed. -/
def pushNeighbours (tiles : Grid) (closed : Arr2 Bool) (cell : Cell)
    (open_ : List Cell) : List Cell :=
  DIRECTIONS.foldl
    (fun acc dir =>
      let adj : Cell := ⟨cell.row + dir.row, cell.col + dir.col⟩
      if InBounds adj TILE_COUNT TILE_COUNT && !closed.at adj && decide (tiles.at adj > 0)
      then adj :: acc else acc)
    open_

/-- One iteration of the `while` loop after `cell` was popped and `rest` is
what is left of `open`. -/
def fillBody (tiles : Grid) (searchValue : Int) (s : FillState) (cell : Cell)
    (rest : List Cell) : FillState :=
  let closed := s.closed.set cell true
  { result := if tiles.at cell = searchValue then s.result ++ [cell] else s.result
    open_ := pushNeighbours tiles closed cell rest
    closed := closed
    trace := s.trace ++ [cell] }

/-- One iteration of the `while` loop: `none` when `open` is empty (the loop
has ended) or when the popped cell is outside the arrays. -/
def fillStep (tiles : Grid) (searchValue : Int) (s : FillState) : Option FillState :=
  match s.open_ with
  | [] => none
  | cell :: rest =>
    if InBounds cell TILE_COUNT TILE_COUNT then some (fillBody tiles searchValue s cell rest)
    else none

/-- All index pairs of a `[TILE_COUNT][TILE_COUNT]` array. -/
def allIndices : List (Nat × Nat) :=
  (List.range 20).flatMap (fun r => (List.range 20).map (fun c => (r, c)))

/-- Number of array entries of `closed` that are still `false`. -/
def unclosedCount (closed : Arr2 Bool) : Nat :=
  allIndices.countP (fun p => !closed p.1 p.2)

/-- Number of entries of the stack whose cell is already closed. -/
def staleCount (closed : Arr2 Bool) (open_ : List Cell) : Nat :=
  open_.countP (fun c => closed.at c)

/-- The cells next to `cell`, in the order of `DIRECTIONS`. -/
def neighbours (cell : Cell) : List Cell :=
  DIRECTIONS.map (fun dir => ⟨cell.row + dir.row, cell.col + dir.col⟩)

/-- The test of the neighbour loop:
`InBounds(adj) && !closed[adj.row][adj.col] && tiles[adj.row][adj.col] > 0`. -/
def pushable (tiles : Grid) (closed : Arr2 Bool) (adj : Cell) : Bool :=
  InBounds adj TILE_COUNT TILE_COUNT && !closed.at adj && decide (tiles.at adj > 0)

theorem foldl_push_eq {α β : Type} (p : β → Bool) (f : β → α) (l : List β) (rest : List α) :
    l.foldl (fun acc d => if p d then f d :: acc else acc) rest
      = ((l.filter p).map f).reverse ++ rest := by
  induction l generalizing rest with
  | nil => simp
  | cons d l ih =>
    simp only [List.foldl_cons, ih, List.filter_cons]
    by_cases h : p d <;> simp [h]

theorem pushNeighbours_eq (tiles : Grid) (closed : Arr2 Bool) (cell : Cell) (rest : List Cell) :
    pushNeighbours tiles closed cell rest
      = ((neighbours cell).filter (pushable tiles closed)).reverse ++ rest := by
  unfold pushNeighbours neighbours
  have h := foldl_push_eq
    (fun dir : Cell => pushable tiles closed ⟨cell.row + dir.row, cell.col + dir.col⟩)
    (fun dir : Cell => (⟨cell.row + dir.row, cell.col + dir.col⟩ : Cell)) DIRECTIONS rest
  simp only [pushable] at h
  rw [h, List.filter_map]
  rfl

theorem Arr2.set_at_self {α : Type} (a : Arr2 α) (cell : Cell) (v : α) :
    (a.set cell v).at cell = v := by
  simp [Arr2.set, Arr2.at]

theorem Arr2.set_true_of_at (closed : Arr2 Bool) (cell : Cell) (h : closed.at cell = true) :
    closed.set cell true = closed := by
  funext r c
  simp only [Arr2.set]
  split
  · next hrc => rw [hrc.1, hrc.2]; exact h.symm
  · rfl

theorem Arr2.set_true_mono (closed : Arr2 Bool) (cell : Cell) (r c : Nat)
    (h : closed r c = true) : closed.set cell true r c = true := by
  simp only [Arr2.set]
  split <;> simp [h]

theorem mem_allIndices (r c : Nat) : (r, c) ∈ allIndices ↔ r < 20 ∧ c < 20 := by
  simp [allIndices]

theorem InBounds_iff (cell : Cell) :
    InBounds cell TILE_COUNT TILE_COUNT = true
      ↔ 0 ≤ cell.row ∧ cell.row < 20 ∧ 0 ≤ cell.col ∧ cell.col < 20 := by
  simp [InBounds, TILE_COUNT]
  constructor
  · rintro ⟨⟨⟨h1, h2⟩, h3⟩, h4⟩; exact ⟨h3, h4, h1, h2⟩
  · rintro ⟨h1, h2, h3, h4⟩; exact ⟨⟨⟨h3, h4⟩, h1⟩, h2⟩

theorem countP_lt_of_imp {α : Type} (p q : α → Bool) (l : List α)
    (hpq : ∀ x ∈ l, p x = true → q x = true) (a : α) (ha : a ∈ l)
    (hq : q a = true) (hp : p a = false) : l.countP p < l.countP q := by
  induction l with
  | nil => simp at ha
  | cons x l ih =>
    have hle : l.countP p ≤ l.countP q :=
      List.countP_mono_left (fun y hy => hpq y (List.mem_cons_of_mem _ hy))
    rcases List.mem_cons.1 ha with rfl | hmem
    · rw [List.countP_cons_of_neg _ _ (by simp [hp]), List.countP_cons_of_pos _ _ hq]
      omega
    · have ih' := ih (fun y hy => hpq y (List.mem_cons_of_mem _ hy)) hmem
      by_cases hx : p x = true
      · rw [List.countP_cons_of_pos _ _ hx,
          List.countP_cons_of_pos _ _ (hpq x (List.mem_cons_self _ _) hx)]
        omega
      · rw [List.countP_cons_of_neg _ _ hx]
        by_cases hqx : q x = true
        · rw [List.countP_cons_of_pos _ _ hqx]; omega
        · rw [List.countP_cons_of_neg _ _ hqx]; omega

theorem unclosedCount_set_lt (closed : Arr2 Bool) (cell : Cell)
    (hb : InBounds cell TILE_COUNT TILE_COUNT = true) (hc : closed.at cell = false) :
    unclosedCount (closed.set cell true) < unclosedCount closed := by
  unfold unclosedCount
  rw [InBounds_iff] at hb
  apply countP_lt_of_imp _ _ _ _ (cell.row.toNat, cell.col.toNat)
  · rw [mem_allIndices]; omega
  · simpa [Arr2.at] using hc
  · simp [Arr2.set]
  · intro x _ hx
    simp only [Bool.not_eq_true', Bool.not_eq_eq_eq_not, Bool.not_true] at hx ⊢
    by_contra hne
    have := Arr2.set_true_mono closed cell x.1 x.2 (by simpa using hne)
    simp [this] at hx

theorem staleCount_pushNeighbours (tiles : Grid) (closed : Arr2 Bool) (cell : Cell)
    (rest : List Cell) :
    staleCount closed (pushNeighbours tiles closed cell rest) = staleCount closed rest := by
  rw [pushNeighbours_eq]
  unfold staleCount
  rw [List.countP_append, List.countP_reverse]
  have : List.countP (fun c => closed.at c) ((neighbours cell).filter (pushable tiles closed)) = 0 := by
    rw [List.countP_eq_zero]
    intro a ha
    have := (List.mem_filter.1 ha).2
    simp only [pushable, Bool.and_eq_true, Bool.not_eq_true'] at this
    simp [this.1.2]
  omega

set_option linter.unusedVariables false in
/-- The `while (!open.empty())` loop of `FloodFill`, run to its end.  The
result is `none` exactly when a popped cell lies outside the arrays. -/
def fillLoop (tiles : Grid) (searchValue : Int) (s : FillState) : Option FillState :=
  match h : s.open_ with
  | [] => some s
  | cell :: rest =>
    if hb : InBounds cell TILE_COUNT TILE_COUNT then
      fillLoop tiles searchValue (fillBody tiles searchValue s cell rest)
    else none
termination_by (unclosedCount s.closed, staleCount s.closed s.open_)
decreasing_by
  simp only [fillBody]
  by_cases hc : s.closed.at cell = true
  · rw [Arr2.set_true_of_at _ _ hc, staleCount_pushNeighbours, h]
    apply Prod.Lex.right
    simp [staleCount, hc]
  · apply Prod.Lex.left
    exact unclosedCount_set_lt _ _ hb (by simpa using hc)

/-- The source's `FloodFill(start, tiles, searchValue)`, returning the final
loop state (whose `result` is what the source returns). -/
def FloodFillState (start : Cell) (tiles : Grid) (searchValue : Int) : Option FillState :=
  fillLoop tiles searchValue
    { result := [], open_ := [start], closed := initClosed tiles, trace := [] }

/-- The source's `FloodFill(start, tiles, searchValue)`; `none` when an array
access would be out of range. -/
def FloodFill (start : Cell) (tiles : Grid) (searchValue : Int) : Option (List Cell) :=
  (FloodFillState start tiles searchValue).map (fun s => s.result)

/-- The cells popped by `FloodFill(start, tiles, searchValue)`, in order. -/
def FloodFillTrace (start : Cell) (tiles : Grid) (searchValue : Int) : Option (List Cell) :=
  (FloodFillState start tiles searchValue).map (fun s => s.trace)

/-- The loop of `FloodFill` cut off after `fuel` iterations (`none` when the
fuel runs out or an access is out of range); used to evaluate `fillLoop`. -/
def fillLoopFuel (tiles : Grid) (searchValue : Int) : Nat → FillState → Option FillState
  | 0, _ => none
  | fuel + 1, s =>
    match s.open_ with
    | [] => some s
    | cell :: rest =>
      if InBounds cell TILE_COUNT TILE_COUNT then
        fillLoopFuel tiles searchValue fuel (fillBody tiles searchValue s cell rest)
      else none

theorem fillLoop_of_fuel (tiles : Grid) (searchValue : Int) (fuel : Nat) (s r : FillState)
    (h : fillLoopFuel tiles searchValue fuel s = some r) :
    fillLoop tiles searchValue s = some r := by
  induction fuel generalizing s with
  | zero => simp [fillLoopFuel] at h
  | succ n ih =>
    rw [fillLoop]
    simp only [fillLoopFuel] at h
    split
    · next heq => rw [heq] at h; simpa using h
    · next cell rest heq =>
      rw [heq] at h
      simp only at h
      by_cases hb : InBounds cell TILE_COUNT TILE_COUNT = true
      · simp only [hb, if_true, dif_pos] at h ⊢
        exact ih _ h
      · simp [hb] at h

/-! ## Game state and the frame step of `main` -/

/-- The `Vector2` of raylib: two `float`s. -/
structure Vector2 (R : Type) where
  x : R
  y : R

/-- What the translated file takes from outside: `float` arithmetic and
literals, `FLT_MAX` and `sqrtf` of the C library, the `Vector2` operators and
`Normalize` of `Math.h`, and the collision tests of raylib. -/
structure Env (R : Type) where
  add : R → R → R
  sub : R → R → R
  mul : R → R → R
  div : R → R → R
  sqrtf : R → R
  /-- The `float` for an exact value: a `float` literal, or an `int`
  converted to `float`. -/
  lit : ℚ → R
  FLT_MAX : R
  /-- `Vector2 operator+(Vector2, Vector2)` of `Math.h`. -/
  vadd : Vector2 R → Vector2 R → Vector2 R
  /-- `Vector2 operator-(Vector2, Vector2)` of `Math.h`. -/
  vsub : Vector2 R → Vector2 R → Vector2 R
  /-- `Vector2 operator*(Vector2, float)` of `Math.h`. -/
  vscale : Vector2 R → R → Vector2 R
  Normalize : Vector2 R → Vector2 R
  CheckCollisionPointCircle : Vector2 R → Vector2 R → R → Bool
  CheckCollisionCircles : Vector2 R → R → Vector2 R → R → Bool

/-- The source's `struct Enemy`. -/
structure Enemy (R : Type) where
  position : Vector2 R
  speed : R
  currentWaypoint : Int
  health : R
  radius : R
  active : Bool

/-- The source's `struct Turret`. -/
structure Turret (R : Type) where
  position : Vector2 R
  range : R
  fireRate : R
  reloadTime : R
  bulletSpeed : R
  damage : R
  active : Bool

/-- The source's `struct Bullet`. -/
structure Bullet (R : Type) where
  position : Vector2 R
  direction : Vector2 R
  time : R
  enabled : Bool

/-- The variables of `main` that the frame loop changes.  (`shootCurrent` and
`shootTotal` are never read and are left out.) -/
structure GameState (R : Type) where
  enemies : List (Enemy R)
  turrets : List (Turret R)
  bullets : List (Bullet R)
  spawnTimer : R
  enemyCount : Int
  curr : Nat
  next : Nat
  atEnd : Bool
  enemyPosition : Vector2 R

section Game

variable {R : Type} [LinearOrder R] (E : Env R)

/-- `const float SCREEN_SIZE = 800`. -/
def SCREEN_SIZE : R := E.lit 800

/-- `const float TILE_SIZE = SCREEN_SIZE / TILE_COUNT`. -/
def TILE_SIZE : R := E.div (SCREEN_SIZE E) (E.lit TILE_COUNT)

/-- The source's `Vector2Distance`. -/
def Vector2Distance (v1 v2 : Vector2 R) : R :=
  E.sqrtf (E.add (E.mul (E.sub v2.x v1.x) (E.sub v2.x v1.x))
    (E.mul (E.sub v2.y v1.y) (E.sub v2.y v1.y)))

/-- The source's `TileCenter(row, col)`. -/
def TileCenter (row col : Int) : Vector2 R :=
  { x := E.add (E.mul (E.lit col) (TILE_SIZE E)) (E.mul (TILE_SIZE E) (E.lit 0.5))
    y := E.add (E.mul (E.lit row) (TILE_SIZE E)) (E.mul (TILE_SIZE E) (E.lit 0.5)) }

/-- The source's `TileCorner(row, col)`. -/
def TileCorner (row col : Int) : Vector2 R :=
  { x := E.mul (E.lit col) (TILE_SIZE E)
    y := E.mul (E.lit row) (TILE_SIZE E) }

/-- `enemySpeed = 250.0f`. -/
def enemySpeed : R := E.lit 250
/-- `enemyRadius = 20.0f`. -/
def enemyRadius : R := E.lit 20
/-- `bulletTime = 1.0f`, the lifetime cap of a bullet. -/
def bulletTime : R := E.lit 1
/-- `bulletSpeed = 500.0f`. -/
def bulletSpeed : R := E.lit 500
/-- `bulletRadius = 15.0f`. -/
def bulletRadius : R := E.lit 15
/-- `spawnInterval = 1.0f`. -/
def spawnInterval : R := E.lit 1
/-- `maxEnemies = 10`. -/
def maxEnemies : Int := 10

/-- Conversion of an `int` to the 64-bit `size_t`. -/
def toSizeT (i : Int) : Nat := (i % 2 ^ 64).toNat

/-- The turret built for the tile `(row, col)` in the load loop of `main`. -/
def newTurret (row col : Int) : Turret R :=
  { position := TileCenter E row col
    range := E.lit 250
    fireRate := E.lit 0.8
    reloadTime := E.lit 0
    bulletSpeed := E.lit 500
    damage := E.lit 15
    active := true }

/-- The load loop of `main` over all rows and columns that fills `turrets`. -/
def makeTurrets (tiles : Grid) : List (Turret R) :=
  (List.range 20).foldl
    (fun turrets row =>
      (List.range 20).foldl
        (fun turrets col =>
          if tiles row col = TURRET then turrets ++ [newTurret E row col] else turrets)
        turrets)
    []

/-- The state of `main` when the frame loop is entered; `none` when
`waypoints[curr]` does not exist. -/
def initState (tiles : Grid) (waypoints : List Cell) : Option (GameState R) :=
  match waypoints[0]? with
  | none => none
  | some w =>
    some
      { enemies := []
        turrets := makeTurrets E tiles
        bullets := []
        spawnTimer := E.lit 0
        enemyCount := 0
        curr := 0
        next := 0 + 1
        atEnd := false
        enemyPosition := TileCenter E w.row w.col }

/-- The enemy built by the spawn block of `main` from `waypoints[0]`. -/
def newEnemy (w : Cell) : Enemy R :=
  { position := TileCenter E w.row w.col
    speed := enemySpeed E
    currentWaypoint := 0
    health := E.lit 150
    radius := enemyRadius E
    active := true }

/-- The spawn block of the frame loop. -/
def spawnStep (waypoints : List Cell) (dt : R) (s : GameState R) : Option (GameState R) :=
  let spawnTimer := E.add s.spawnTimer dt
  if spawnTimer ≥ spawnInterval E ∧ s.enemyCount < maxEnemies then
    match waypoints[0]? with
    | none => none
    | some w =>
      some { s with
        spawnTimer := E.lit 0
        enemies := s.enemies ++ [newEnemy E w]
        enemyCount := s.enemyCount + 1 }
  else some { s with spawnTimer := spawnTimer }

/-- The body of the enemy-movement loop for one enemy. -/
def moveEnemy (waypoints : List Cell) (dt : R) (enemy : Enemy R) : Option (Enemy R) :=
  if enemy.active then
    match waypoints[toSizeT enemy.currentWaypoint]?,
      waypoints[toSizeT (enemy.currentWaypoint + 1)]? with
    | some wf, some wt =>
      let from_ := TileCenter E wf.row wf.col
      let to_ := TileCenter E wt.row wt.col
      let direction := E.Normalize (E.vsub to_ from_)
      let position := E.vadd enemy.position (E.vscale (E.vscale direction enemy.speed) dt)
      if E.CheckCollisionPointCircle position to_ enemy.radius then
        let currentWaypoint := enemy.currentWaypoint + 1
        if toSizeT currentWaypoint ≥ toSizeT ((waypoints.length : Int) - 1) then
          some { enemy with
            position := position, currentWaypoint := currentWaypoint, active := false }
        else some { enemy with position := position, currentWaypoint := currentWaypoint }
      else some { enemy with position := position }
    | _, _ => none
  else some enemy

/-- The enemy-movement loop `for (Enemy& enemy : enemies)`. -/
def moveEnemies (waypoints : List Cell) (dt : R) : List (Enemy R) → Option (List (Enemy R))
  | [] => some []
  | enemy :: rest =>
    match moveEnemy E waypoints dt enemy with
    | none => none
    | some enemy' =>
      match moveEnemies waypoints dt rest with
      | none => none
      | some rest' => some (enemy' :: rest')

/-- The targeting scan of one turret over the enemies from index `i` on:
the pair `(nearestEnemy, nearestDistance)`, the pointer being the index of
the enemy in the vector. -/
def scanLoop (turret : Turret R) : List (Enemy R) → Nat → Option Nat × R → Option Nat × R
  | [], _, acc => acc
  | enemy :: rest, i, acc =>
    scanLoop turret rest (i + 1)
      (if enemy.active then
        let distance := Vector2Distance E turret.position enemy.position
        if distance < acc.2 ∧ distance ≤ turret.range then (some i, distance) else acc
      else acc)

/-- The targeting scan of one turret: `nearestEnemy` after the inner loop,
starting from `nullptr` and `FLT_MAX`. -/
def findTarget (turret : Turret R) (enemies : List (Enemy R)) : Option Nat :=
  (scanLoop E turret enemies 0 (none, E.FLT_MAX)).1

/-- The bullet a turret fires at `target`. -/
def newBullet (turret : Turret R) (target : Enemy R) : Bullet R :=
  { position := turret.position
    direction := E.Normalize (E.vsub target.position turret.position)
    time := E.lit 0
    enabled := true }

/-- The damage block: `health -= damage`, and `active = false` when the
health is then `<= 0`. -/
def damageEnemy (turret : Turret R) (target : Enemy R) : Enemy R :=
  let health := E.sub target.health turret.damage
  { target with health := health, active := if health ≤ E.lit 0 then false else target.active }

/-- The body of the turret loop for one turret: the new turret, enemies and
bullets. -/
def turretStep (dt : R) (turret : Turret R) (enemies : List (Enemy R))
    (bullets : List (Bullet R)) : Turret R × List (Enemy R) × List (Bullet R) :=
  let turret := { turret with reloadTime := E.add turret.reloadTime dt }
  match findTarget E turret enemies with
  | none => (turret, enemies, bullets)
  | some i =>
    match enemies[i]? with
    | none => (turret, enemies, bullets)
    | some target =>
      if turret.reloadTime ≥ turret.fireRate then
        ({ turret with reloadTime := E.lit 0 },
          enemies.set i (damageEnemy E turret target),
          bullets ++ [newBullet E turret target])
      else (turret, enemies, bullets)

/-- The turret loop `for (Turret& turret : turrets)`. -/
def turretsLoop (dt : R) :
    List (Turret R) → List (Enemy R) → List (Bullet R) →
      List (Turret R) × List (Enemy R) × List (Bullet R)
  | [], enemies, bullets => ([], enemies, bullets)
  | turret :: rest, enemies, bullets =>
    let r := turretStep E dt turret enemies bullets
    let r' := turretsLoop dt rest r.2.1 r.2.2
    (r.1 :: r'.1, r'.2.1, r'.2.2)

/-- The "path following" block of the single tracer. -/
def tracerStep (waypoints : List Cell) (dt : R) (s : GameState R) : Option (GameState R) :=
  if !s.atEnd then
    match waypoints[s.curr]?, waypoints[s.next]? with
    | some wc, some wn =>
      let from_ := TileCenter E wc.row wc.col
      let to_ := TileCenter E wn.row wn.col
      let direction := E.Normalize (E.vsub to_ from_)
      let enemyPosition :=
        E.vadd s.enemyPosition (E.vscale (E.vscale direction (enemySpeed E)) dt)
      if E.CheckCollisionPointCircle enemyPosition to_ (enemyRadius E) then
        let curr := s.curr + 1
        let next := s.next + 1
        match waypoints[curr]? with
        | none => none
        | some w =>
          some { s with
            curr := curr, next := next, atEnd := decide (next = waypoints.length)
            enemyPosition := TileCenter E w.row w.col }
      else some { s with enemyPosition := enemyPosition }
    | _, _ => none
  else some s

/-- The body of the bullet loop for one bullet. -/
def updateBullet (dt : R) (enemyPosition : Vector2 R) (bullet : Bullet R) : Bullet R :=
  let position := E.vadd bullet.position (E.vscale (E.vscale bullet.direction (bulletSpeed E)) dt)
  let time := E.add bullet.time dt
  let expired := decide (time ≥ bulletTime E)
  let collision := E.CheckCollisionCircles enemyPosition (enemyRadius E) position (bulletRadius E)
  { bullet with position := position, time := time, enabled := !expired && !collision }

/-- The bullet loop followed by the removal of the disabled bullets. -/
def bulletsStep (dt : R) (enemyPosition : Vector2 R) (bullets : List (Bullet R)) :
    List (Bullet R) :=
  (bullets.map (updateBullet E dt enemyPosition)).filter (fun bullet => bullet.enabled)

/-- The state after the turret loop of a frame, from the state after the
movement loop. -/
def turretsStep (dt : R) (s : GameState R) : GameState R :=
  let r := turretsLoop E dt s.turrets s.enemies s.bullets
  { s with turrets := r.1, enemies := r.2.1, bullets := r.2.2 }

/-- One pass of the frame loop of `main` with frame time `dt`, up to the
drawing: spawn, enemy movement, turrets, tracer, bullets. -/
def frame (waypoints : List Cell) (dt : R) (s : GameState R) : Option (GameState R) :=
  match spawnStep E waypoints dt s with
  | none => none
  | some s1 =>
    match moveEnemies E waypoints dt s1.enemies with
    | none => none
    | some enemies =>
      let s3 := turretsStep E dt { s1 with enemies := enemies }
      match tracerStep E waypoints dt s3 with
      | none => none
      | some s4 =>
        some { s4 with bullets := bulletsStep E dt s4.enemyPosition s4.bullets }

/-- The frame loop run over the frame times `dts`, in order. -/
def runFrames (waypoints : List Cell) : List R → GameState R → Option (GameState R)
  | [], s => some s
  | dt :: dts, s =>
    match frame E waypoints dt s with
    | none => none
    | some s' => runFrames waypoints dts s'

/-- The game after the frames `dts`, from the state at load. -/
def runGame (tiles : Grid) (waypoints : List Cell) (dts : List R) : Option (GameState R) :=
  match initState E tiles waypoints with
  | none => none
  | some s => runFrames E waypoints dts s

end Game

/-- Modelled from the spec: the `Vector2` operators and `Normalize` of
`Math.h`, which is not in the translated file, together with the raylib
collision tests and the C library's `sqrtf` and `FLT_MAX`, interpreted over
the rationals.  Arithmetic is exact, `sqrtf` is `Rat.sqrt` (exact on
squares), the vector operators work component-wise, `Normalize` divides by
the length to give the spec's unit direction (the zero vector is left as it
is), `CheckCollisionPointCircle` is the spec's Euclidean distance test
against the radius and `CheckCollisionCircles` its circle overlap test
against the radius sum, both on squared distances. -/
def exactEnv : Env ℚ :=
  { add := fun a b => a + b
    sub := fun a b => a - b
    mul := fun a b => a * b
    div := fun a b => a / b
    sqrtf := Rat.sqrt
    lit := fun q => q
    FLT_MAX := 340282346638528859811704183484516925440
    vadd := fun a b => ⟨a.x + b.x, a.y + b.y⟩
    vsub := fun a b => ⟨a.x - b.x, a.y - b.y⟩
    vscale := fun a k => ⟨a.x * k, a.y * k⟩
    Normalize := fun v =>
      let len := Rat.sqrt (v.x * v.x + v.y * v.y)
      if len = 0 then v else ⟨v.x / len, v.y / len⟩
    CheckCollisionPointCircle := fun p c r =>
      decide ((p.x - c.x) * (p.x - c.x) + (p.y - c.y) * (p.y - c.y) ≤ r * r)
    CheckCollisionCircles := fun c1 r1 c2 r2 =>
      decide ((c2.x - c1.x) * (c2.x - c1.x) + (c2.y - c1.y) * (c2.y - c1.y)
        ≤ (r1 + r2) * (r1 + r2)) }

/-- The integer nearest to `x`, a tie going to the even one: the rounding
`roundTiesToEven` of IEEE 754, which is the default rounding of `float`
arithmetic. -/
def roundHalfEven (x : ℚ) : Int :=
  let f := Rat.floor x
  let d := x - f
  if d < 1 / 2 then f else if 1 / 2 < d then f + 1 else if f % 2 = 0 then f else f + 1

/-- The number of halvings that bring `n` below 2, at most `fuel` of them:
the binary logarithm of `n` rounded down, for `1 ≤ n ≤ 2 ^ fuel`. -/
def log2Fuel : Nat → Nat → Nat
  | 0, _ => 0
  | fuel + 1, n => if 2 ≤ n then log2Fuel fuel (n / 2) + 1 else 0

/-- The binary exponent of `q ≠ 0`: the integer `k` with
`2 ^ k ≤ |q| < 2 ^ (k + 1)`. -/
def floorLog2 (q : ℚ) : Int :=
  if 1 ≤ |q| then (log2Fuel (Rat.floor |q|).toNat (Rat.floor |q|).toNat : Int)
  else -((log2Fuel (Rat.ceil (1 / |q|)).toNat ((Rat.ceil (1 / |q|)).toNat - 1) : Int) + 1)

/-- The rational `2 ^ e`. -/
def pow2 (e : Int) : ℚ :=
  if 0 ≤ e then ((2 ^ e.toNat : Nat) : ℚ) else 1 / ((2 ^ (-e).toNat : Nat) : ℚ)

/-- The IEEE 754 binary32 value nearest to `q`, a tie going to the even
significand: `q` is rounded to a multiple of `2 ^ e`, where `e` is the
exponent of the last of 24 significant bits and is not below `-149`
(subnormal values).  Overflow is left out: a value beyond `FLT_MAX` is
rounded to 24 significant bits and not replaced by an infinity. -/
def roundF32 (q : ℚ) : ℚ :=
  if q = 0 then 0
  else
    let e := max (floorLog2 q - 23) (-149)
    (roundHalfEven (q / pow2 e) : ℚ) * pow2 e

/-- Modelled from the spec: `float` as IEEE 754 binary32 with rounding to
nearest, ties to even, each operation rounded on its own.  Every
`float`-valued operation returns the result of `exactEnv` rounded by
`roundF32`; a literal and an `int` converted to `float` are rounded the same
way; the collision tests are those of `exactEnv`.  Infinities and NaN are
left out. -/
def f32Env : Env ℚ :=
  { add := fun a b => roundF32 (a + b)
    sub := fun a b => roundF32 (a - b)
    mul := fun a b => roundF32 (a * b)
    div := fun a b => roundF32 (a / b)
    sqrtf := fun a => roundF32 (exactEnv.sqrtf a)
    lit := roundF32
    FLT_MAX := exactEnv.FLT_MAX
    vadd := fun a b => ⟨roundF32 (a.x + b.x), roundF32 (a.y + b.y)⟩
    vsub := fun a b => ⟨roundF32 (a.x - b.x), roundF32 (a.y - b.y)⟩
    vscale := fun a k => ⟨roundF32 (a.x * k), roundF32 (a.y * k)⟩
    Normalize := fun v =>
      ⟨roundF32 (exactEnv.Normalize v).x, roundF32 (exactEnv.Normalize v).y⟩
    CheckCollisionPointCircle := exactEnv.CheckCollisionPointCircle
    CheckCollisionCircles := exactEnv.CheckCollisionCircles }

/-! ## Definitions used to state the properties -/

/-- The eight waypoints of the built-in grid, in path order. -/
def builtinWaypoints : List Cell :=
  [⟨0, 12⟩, ⟨7, 12⟩, ⟨7, 3⟩, ⟨13, 3⟩, ⟨13, 16⟩, ⟨17, 16⟩, ⟨17, 9⟩, ⟨19, 9⟩]

/-- The `n` cells `a`, `a + d`, `a + 2d`, ... -/
def segment (a d : Cell) : Nat → List Cell
  | 0 => []
  | n + 1 => a :: segment ⟨a.row + d.row, a.col + d.col⟩ d n

/-- The path of the built-in grid. -/
def builtinPath : List Cell :=
  segment ⟨0, 12⟩ ⟨1, 0⟩ 7 ++ segment ⟨7, 12⟩ ⟨0, -1⟩ 9 ++ segment ⟨7, 3⟩ ⟨1, 0⟩ 6 ++
    segment ⟨13, 3⟩ ⟨0, 1⟩ 13 ++ segment ⟨13, 16⟩ ⟨1, 0⟩ 4 ++ segment ⟨17, 16⟩ ⟨0, -1⟩ 7 ++
    segment ⟨17, 9⟩ ⟨1, 0⟩ 3

/-- Boolean test that `b` is one of the four neighbours of `a`. -/
def adjacent4 (a b : Cell) : Bool := decide (b ∈ neighbours a)

/-- Boolean check that consecutive cells of a list are 4-adjacent. -/
def isWalk : List Cell → Bool
  | a :: b :: l => adjacent4 a b && isWalk (b :: l)
  | _ => true

/-- Cell `b` is one of the four neighbours of `a`. -/
def Adjacent (a b : Cell) : Prop := b ∈ neighbours a

/-- The relation of claim C2: `chain` leads from `start` to `c` through
4-adjacent in-bounds cells that, `start` apart, are not `GRASS`. -/
def JoinedBy (tiles : Grid) (start c : Cell) (chain : List Cell) : Prop :=
  List.Chain' Adjacent (start :: chain) ∧ (start :: chain).getLast? = some c ∧
    ∀ x ∈ chain, InBounds x TILE_COUNT TILE_COUNT = true ∧ (x = start ∨ tiles.at x ≠ GRASS)

/-- Cells the traversal can reach: `start`, and every in-bounds neighbour with
a positive tile of a reached cell. -/
inductive Reach (tiles : Grid) (start : Cell) : Cell → Prop
  | start : Reach tiles start start
  | step (c adj : Cell) : Reach tiles start c → adj ∈ neighbours c →
      InBounds adj TILE_COUNT TILE_COUNT = true → tiles.at adj > 0 → Reach tiles start adj

/-- Loop invariant of `FloodFill` used for the reachability claims. -/
structure FillInv (tiles : Grid) (searchValue : Int) (start : Cell) (s : FillState) : Prop where
  open_ok : ∀ c ∈ s.open_, InBounds c TILE_COUNT TILE_COUNT = true ∧ Reach tiles start c
  trace_ok : ∀ c ∈ s.trace, InBounds c TILE_COUNT TILE_COUNT = true ∧ Reach tiles start c
  closed_iff : ∀ c, InBounds c TILE_COUNT TILE_COUNT = true →
    (s.closed.at c = true ↔ tiles.at c = 0 ∨ c ∈ s.trace)
  frontier : ∀ c ∈ s.trace, ∀ adj ∈ neighbours c, InBounds adj TILE_COUNT TILE_COUNT = true →
    tiles.at adj > 0 → adj ∈ s.trace ∨ adj ∈ s.open_
  start_seen : start ∈ s.trace ∨ start ∈ s.open_
  result_eq : s.result = s.trace.filter (fun c => decide (tiles.at c = searchValue))

/-- The array `closed` after every cell of `seg` was marked. -/
def closeAll (closed : Arr2 Bool) (seg : List Cell) : Arr2 Bool :=
  seg.foldl (fun cl c => cl.set c true) closed

/-- The loop, popping the cells of the list in order, pushes after each of
them exactly the next one (and nothing after the last). -/
def WalkOK (tiles : Grid) : Arr2 Bool → List Cell → Prop
  | _, [] => True
  | closed, c :: seg =>
    InBounds c TILE_COUNT TILE_COUNT = true ∧
      (neighbours c).filter (pushable tiles (closed.set c true)) = seg.head?.toList ∧
      WalkOK tiles (closed.set c true) seg

/-- The hypothesis of claim C3 on a grid: `path` lists, without repetition,
in-bounds cells that are not `GRASS`, consecutive ones being 4-adjacent, and
a non-`GRASS` in-bounds neighbour of a cell of `path` is always the cell
right before or right after it in `path`.  So the non-`GRASS` cells reachable
from a cell of `path` are those of `path`, none has more than two
non-`GRASS` neighbours, and there is no cycle. -/
structure IsSimplePath (tiles : Grid) (path : List Cell) : Prop where
  nodup : path.Nodup
  chain : List.Chain' Adjacent path
  nonEmpty : ∀ c ∈ path, InBounds c TILE_COUNT TILE_COUNT = true ∧ tiles.at c ≠ GRASS
  consecutive : ∀ c ∈ path, ∀ n ∈ neighbours c, InBounds n TILE_COUNT TILE_COUNT = true →
    tiles.at n ≠ GRASS → [c, n] <:+: path ∨ [n, c] <:+: path

/-- Internal form of `IsSimplePath`, with the code's test `> 0` and an
adjacency that reads the same in both directions. -/
structure Line (tiles : Grid) (q : List Cell) : Prop where
  nodup : q.Nodup
  adj : ∀ a b, [a, b] <:+: q → b ∈ neighbours a ∧ a ∈ neighbours b
  pos : ∀ c ∈ q, InBounds c TILE_COUNT TILE_COUNT = true ∧ tiles.at c > 0
  nbr : ∀ c ∈ q, ∀ n ∈ neighbours c, InBounds n TILE_COUNT TILE_COUNT = true →
    tiles.at n > 0 → [c, n] <:+: q ∨ [n, c] <:+: q

section
variable {R : Type} [LinearOrder R] (E : Env R)

/-- Distance from a turret to an enemy, as the targeting scan computes it. -/
def turretDistance (turret : Turret R) (enemy : Enemy R) : R :=
  Vector2Distance E turret.position enemy.position

/-- An enemy the scan may select: active and not farther than the range. -/
def InRange (turret : Turret R) (enemy : Enemy R) : Prop :=
  enemy.active = true ∧ turretDistance E turret enemy ≤ turret.range

end

/-- Every element of `l` has, at the same index of `l'`, an element related
to it by `Q`. -/
def Pointwise {α : Type} (Q : α → α → Prop) (l l' : List α) : Prop :=
  ∀ (i : Nat) (e : α), l[i]? = some e → ∃ e', l'[i]? = some e' ∧ Q e e'

section
variable {R : Type} (E : Env R)

/-- The waypoint index of an active enemy allows both look-ups of the
movement loop. -/
def EnemyOK (waypoints : List Cell) (enemy : Enemy R) : Prop :=
  enemy.active = true →
    0 ≤ enemy.currentWaypoint ∧ enemy.currentWaypoint + 2 ≤ (waypoints.length : Int)

/-- The invariant of the frame loop: indices of active enemies in range, the
tracer's `next` one past `curr` and in range until `atEnd`, and the spawn
counter equal to the number of enemies and at most `maxEnemies`. -/
structure GameInv (waypoints : List Cell) (s : GameState R) : Prop where
  enemies_ok : ∀ e ∈ s.enemies, EnemyOK waypoints e
  tracer_next : s.next = s.curr + 1
  tracer_ok : s.atEnd = false → s.next < waypoints.length
  count_eq : (s.enemies.length : Int) = s.enemyCount
  count_le : s.enemyCount ≤ maxEnemies

end

section
variable {R : Type} [LinearOrder R] (E : Env R)

/-- Enemy `e'` is `e` after being hit by zero or more turrets, each hit
taken while active. -/
inductive Damaged : Enemy R → Enemy R → Prop
  | refl (e : Enemy R) : Damaged e e
  | hit (turret : Turret R) (e e' : Enemy R) : e.active = true →
      Damaged (damageEnemy E turret e) e' → Damaged e e'

end

/-- The measure that decreases at every iteration of the loop of `FloodFill`:
the number of unclosed array entries, then the number of stack entries that
are already closed. -/
def fillMeasure (s : FillState) : Nat × Nat :=
  (unclosedCount s.closed, staleCount s.closed s.open_)

/-- The cells of the grid whose tile is `TURRET`, in row-major order. -/
def turretCells (tiles : Grid) : List (Nat × Nat) :=
  allIndices.filter (fun p => decide (tiles p.1 p.2 = TURRET))

/-- The scalar arithmetic and the literals of an environment over the
rationals are exact. -/
structure ExactArith (E : Env ℚ) : Prop where
  add : ∀ a b, E.add a b = a + b
  sub : ∀ a b, E.sub a b = a - b
  mul : ∀ a b, E.mul a b = a * b
  div : ∀ a b, E.div a b = a / b
  lit : ∀ q, E.lit q = q

section
variable {R : Type} (E : Env R)

/-- The invariant of the single tracer: `next` is one past `curr` and at
most the number of waypoints, and `atEnd` holds exactly when `next` is that
number. -/
structure TracerInv (waypoints : List Cell) (s : GameState R) : Prop where
  next_eq : s.next = s.curr + 1
  next_le : s.next ≤ waypoints.length
  atEnd_iff : s.atEnd = true ↔ s.next = waypoints.length

end

/-- The health of an enemy is 150 minus a number of hits of 15, at most ten
of them, and fewer than ten while the enemy is active. -/
def HealthOK (enemy : Enemy ℚ) : Prop :=
  ∃ k : Nat, k ≤ 10 ∧ enemy.health = 150 - 15 * k ∧ (enemy.active = true → k < 10)

/-! ## Lemmas on `FloodFill` -/

theorem FloodFillState_of_fuel (start : Cell) (tiles : Grid) (searchValue : Int) (fuel : Nat)
    (res tr : List Cell)
    (h : (fillLoopFuel tiles searchValue fuel
        { result := [], open_ := [start], closed := initClosed tiles, trace := [] }).map
          (fun s => (s.result, s.trace)) = some (res, tr)) :
    FloodFill start tiles searchValue = some res ∧
      FloodFillTrace start tiles searchValue = some tr := by
  obtain ⟨r, hr, hres⟩ := Option.map_eq_some'.1 h
  have := fillLoop_of_fuel _ _ _ _ _ hr
  simp only [Prod.mk.injEq] at hres
  simp [FloodFill, FloodFillTrace, FloodFillState, this, hres.1, hres.2]

theorem chain_of_isWalk (l : List Cell) (h : isWalk l = true) :
    l.Chain' (fun a b => adjacent4 a b = true) := by
  induction l with
  | nil => simp
  | cons a l ih =>
    cases l with
    | nil => simp
    | cons b l =>
      simp only [isWalk, Bool.and_eq_true] at h
      exact List.Chain'.cons h.1 (ih h.2)

theorem fillLoop_inv (tiles : Grid) (searchValue : Int) (P : FillState → Prop)
    (hin : ∀ s, P s → ∀ c ∈ s.open_, InBounds c TILE_COUNT TILE_COUNT = true)
    (hP : ∀ s cell rest, s.open_ = cell :: rest → InBounds cell TILE_COUNT TILE_COUNT = true →
      P s → P (fillBody tiles searchValue s cell rest))
    (s : FillState) (h : P s) :
    ∃ r, fillLoop tiles searchValue s = some r ∧ P r ∧ r.open_ = [] := by
  induction s using fillLoop.induct tiles searchValue with
  | case1 s hnil =>
    refine ⟨s, ?_, h, hnil⟩
    rw [fillLoop]; split
    · rfl
    · next heq => rw [hnil] at heq; cases heq
  | case2 s cell rest heq hb ih =>
    obtain ⟨r, hr, hPr, hro⟩ := ih (hP s cell rest heq hb h)
    refine ⟨r, ?_, hPr, hro⟩
    rw [fillLoop]; split
    · next heq2 => rw [heq] at heq2; cases heq2
    · next c2 r2 heq2 =>
      rw [heq] at heq2
      cases heq2
      simp only [hb, dif_pos]
      exact hr
  | case3 s cell rest heq hb =>
    exact absurd (hin s h cell (by rw [heq]; exact List.mem_cons_self _ _)) hb

theorem Arr2.set_at {α : Type} (a : Arr2 α) (cell c : Cell) (v : α)
    (hcell : InBounds cell TILE_COUNT TILE_COUNT = true)
    (hc : InBounds c TILE_COUNT TILE_COUNT = true) :
    (a.set cell v).at c = if c = cell then v else a.at c := by
  rw [InBounds_iff] at hcell hc
  simp only [Arr2.set, Arr2.at]
  have : (c.row.toNat = cell.row.toNat ∧ c.col.toNat = cell.col.toNat) ↔ c = cell := by
    constructor
    · intro h
      cases c; cases cell
      simp only [Cell.mk.injEq] at *
      omega
    · rintro rfl; exact ⟨rfl, rfl⟩
  simp only [this]

theorem mem_pushNeighbours (tiles : Grid) (closed : Arr2 Bool) (cell : Cell) (rest : List Cell)
    (c : Cell) :
    c ∈ pushNeighbours tiles closed cell rest
      ↔ (c ∈ neighbours cell ∧ pushable tiles closed c = true) ∨ c ∈ rest := by
  rw [pushNeighbours_eq]
  simp [List.mem_filter]

theorem FillInv.init (tiles : Grid) (searchValue : Int) (start : Cell)
    (hstart : InBounds start TILE_COUNT TILE_COUNT = true) :
    FillInv tiles searchValue start
      { result := [], open_ := [start], closed := initClosed tiles, trace := [] } where
  open_ok := by
    intro c hc
    simp only [List.mem_singleton] at hc
    subst hc
    exact ⟨hstart, Reach.start⟩
  trace_ok := by simp
  closed_iff := by intro c _; simp [initClosed, Arr2.at]
  frontier := by simp
  start_seen := by simp
  result_eq := by simp

theorem FillInv.body (tiles : Grid) (searchValue : Int) (start : Cell) (s : FillState)
    (cell : Cell) (rest : List Cell) (heq : s.open_ = cell :: rest)
    (hb : InBounds cell TILE_COUNT TILE_COUNT = true) (h : FillInv tiles searchValue start s) :
    FillInv tiles searchValue start (fillBody tiles searchValue s cell rest) := by
  have hcell := h.open_ok cell (by rw [heq]; exact List.mem_cons_self _ _)
  have hclosed : ∀ c, InBounds c TILE_COUNT TILE_COUNT = true →
      ((s.closed.set cell true).at c = true ↔ tiles.at c = 0 ∨ c ∈ s.trace ++ [cell]) := by
    intro c hc
    rw [Arr2.set_at _ _ _ _ hb hc]
    by_cases hcc : c = cell
    · simp [hcc]
    · simp [hcc, h.closed_iff c hc]
  constructor
  · intro c hc
    simp only [fillBody, mem_pushNeighbours] at hc
    rcases hc with ⟨hn, hp⟩ | hr
    · simp only [pushable, Bool.and_eq_true, decide_eq_true_eq] at hp
      exact ⟨hp.1.1, Reach.step cell c hcell.2 hn hp.1.1 hp.2⟩
    · exact h.open_ok c (by rw [heq]; exact List.mem_cons_of_mem _ hr)
  · intro c hc
    simp only [fillBody, List.mem_append, List.mem_singleton] at hc
    rcases hc with hc | rfl
    · exact h.trace_ok c hc
    · exact hcell
  · exact hclosed
  · intro c hc adj hadj hin hpos
    simp only [fillBody, List.mem_append, List.mem_singleton, mem_pushNeighbours] at hc ⊢
    rcases hc with hc | rfl
    · rcases h.frontier c hc adj hadj hin hpos with ht | ho
      · exact Or.inl (Or.inl ht)
      · rw [heq] at ho
        rcases List.mem_cons.1 ho with rfl | hr
        · exact Or.inl (Or.inr rfl)
        · exact Or.inr (Or.inr hr)
    · by_cases hcl : (s.closed.set c true).at adj = true
      · rcases (hclosed adj hin).1 hcl with h0 | ht
        · omega
        · left; simpa using ht
      · right; left
        refine ⟨hadj, ?_⟩
        simp only [pushable, Bool.and_eq_true, decide_eq_true_eq, Bool.not_eq_true']
        exact ⟨⟨hin, by simpa using hcl⟩, hpos⟩
  · rcases h.start_seen with ht | ho
    · left; simp [fillBody, ht]
    · rw [heq] at ho
      rcases List.mem_cons.1 ho with rfl | hr
      · left; simp [fillBody]
      · right; simp only [fillBody, mem_pushNeighbours]; exact Or.inr hr
  · simp only [fillBody, h.result_eq, List.filter_append]
    by_cases hsv : tiles.at cell = searchValue <;> simp [hsv, List.filter_cons]

theorem FloodFillState_spec (tiles : Grid) (searchValue : Int) (start : Cell)
    (hstart : InBounds start TILE_COUNT TILE_COUNT = true) :
    ∃ s, FloodFillState start tiles searchValue = some s ∧
      FillInv tiles searchValue start s ∧ s.open_ = [] :=
  fillLoop_inv tiles searchValue (FillInv tiles searchValue start)
    (fun _ h c hc => (h.open_ok c hc).1)
    (fun s cell rest heq hb h => FillInv.body tiles searchValue start s cell rest heq hb h)
    _ (FillInv.init tiles searchValue start hstart)

theorem FillInv.mem_trace_iff {tiles : Grid} {searchValue : Int} {start : Cell} {s : FillState}
    (h : FillInv tiles searchValue start s) (hopen : s.open_ = []) (c : Cell) :
    c ∈ s.trace ↔ Reach tiles start c := by
  constructor
  · intro hc; exact (h.trace_ok c hc).2
  · intro hr
    induction hr with
    | start =>
      rcases h.start_seen with ht | ho
      · exact ht
      · rw [hopen] at ho; cases ho
    | step c adj _ hadj hin hpos ih =>
      rcases h.frontier c ih adj hadj hin hpos with ht | ho
      · exact ht
      · rw [hopen] at ho; cases ho

theorem Reach.of_chain (tiles : Grid) (start c : Cell) (chain : List Cell) :
    ∀ a, Reach tiles start a → List.Chain' Adjacent (a :: chain) →
      (∀ x ∈ chain, InBounds x TILE_COUNT TILE_COUNT = true ∧ (x = start ∨ tiles.at x > 0)) →
      (a :: chain).getLast? = some c → Reach tiles start c := by
  induction chain with
  | nil => intro a ha _ _ hl; simp at hl; exact hl ▸ ha
  | cons b chain ih =>
    intro a ha hch hall hl
    rw [List.getLast?_cons_cons] at hl
    have hb := hall b (List.mem_cons_self _ _)
    have hab : b ∈ neighbours a := hch.rel_head
    apply ih b _ hch.tail (fun x hx => hall x (List.mem_cons_of_mem _ hx)) hl
    rcases hb.2 with rfl | hpos
    · exact Reach.start
    · exact Reach.step a b ha hab hb.1 hpos

theorem Reach.exists_chain (tiles : Grid) (start c : Cell) (h : Reach tiles start c) :
    ∃ chain, List.Chain' Adjacent (start :: chain) ∧ (start :: chain).getLast? = some c ∧
      ∀ x ∈ chain, InBounds x TILE_COUNT TILE_COUNT = true ∧ tiles.at x > 0 := by
  induction h with
  | start => exact ⟨[], List.chain'_singleton _, rfl, by simp⟩
  | step c adj _ hadj hin hpos ih =>
    obtain ⟨chain, hch, hl, hall⟩ := ih
    refine ⟨chain ++ [adj], ?_, ?_, ?_⟩
    · rw [← List.cons_append]
      refine List.Chain'.append hch (List.chain'_singleton _) ?_
      intro x hx y hy
      rw [hl] at hx
      simp only [Option.mem_def, Option.some.injEq, List.head?_cons] at hx hy
      subst hx; subst hy
      exact hadj
    · rw [← List.cons_append, List.getLast?_concat]
    · intro x hx
      rcases List.mem_append.1 hx with hx | hx
      · exact hall x hx
      · simp only [List.mem_singleton] at hx; subst hx; exact ⟨hin, hpos⟩

/-- With no negative tile value, the cells the traversal can reach are those
joined to `start` by a chain as in claim C2. -/
theorem Reach_iff_joined (tiles : Grid) (start c : Cell)
    (hvalid : ∀ r c : Nat, r < 20 → c < 20 → 0 ≤ tiles r c) :
    Reach tiles start c ↔ ∃ chain, JoinedBy tiles start c chain := by
  have hpos : ∀ x, InBounds x TILE_COUNT TILE_COUNT = true → tiles.at x ≠ GRASS →
      tiles.at x > 0 := by
    intro x hx hne
    have h0 := (InBounds_iff x).1 hx
    have := hvalid x.row.toNat x.col.toNat (by omega) (by omega)
    simp only [Arr2.at, GRASS] at hne ⊢
    omega
  constructor
  · intro hr
    obtain ⟨chain, h1, h2, h3⟩ := hr.exists_chain
    refine ⟨chain, h1, h2, fun x hx => ⟨(h3 x hx).1, Or.inr ?_⟩⟩
    have := (h3 x hx).2
    simp only [GRASS]; omega
  · rintro ⟨chain, h1, h2, h3⟩
    refine Reach.of_chain tiles start c chain start Reach.start h1 ?_ h2
    intro x hx
    exact ⟨(h3 x hx).1, (h3 x hx).2.imp id (hpos x (h3 x hx).1)⟩

theorem Reach.inBounds {tiles : Grid} {start c : Cell}
    (hstart : InBounds start TILE_COUNT TILE_COUNT = true) (h : Reach tiles start c) :
    InBounds c TILE_COUNT TILE_COUNT = true := by
  cases h with
  | start => exact hstart
  | step _ _ _ _ hin _ => exact hin

theorem fillLoop_cons (tiles : Grid) (searchValue : Int) (s : FillState) (cell : Cell)
    (rest : List Cell) (heq : s.open_ = cell :: rest)
    (hb : InBounds cell TILE_COUNT TILE_COUNT = true) :
    fillLoop tiles searchValue s
      = fillLoop tiles searchValue (fillBody tiles searchValue s cell rest) := by
  rw [fillLoop]; split
  · next h => rw [heq] at h; cases h
  · next c r h =>
    rw [heq] at h; cases h
    simp only [hb, dif_pos]

theorem fillLoop_nil (tiles : Grid) (searchValue : Int) (s : FillState) (heq : s.open_ = []) :
    fillLoop tiles searchValue s = some s := by
  rw [fillLoop]; split
  · rfl
  · next c r h => rw [heq] at h; cases h

theorem fillLoop_walk (tiles : Grid) (searchValue : Int) :
    ∀ (seg : List Cell) (s : FillState) (rest : List Cell),
      s.open_ = seg.head?.toList ++ rest → WalkOK tiles s.closed seg →
      fillLoop tiles searchValue s = fillLoop tiles searchValue
        { result := s.result ++ seg.filter (fun c => decide (tiles.at c = searchValue))
          open_ := rest
          closed := closeAll s.closed seg
          trace := s.trace ++ seg } := by
  intro seg
  induction seg with
  | nil =>
    intro s rest ho _
    congr 1
    cases s
    simp only [List.head?_nil, Option.toList_none, List.nil_append] at ho
    simp [closeAll, ho]
  | cons c seg ih =>
    intro s rest ho hw
    simp only [List.head?_cons, Option.toList_some, List.singleton_append] at ho
    obtain ⟨hb, hpush, hw'⟩ := hw
    rw [fillLoop_cons tiles searchValue s c rest ho hb]
    have hopen : (fillBody tiles searchValue s c rest).open_ = seg.head?.toList ++ rest := by
      simp only [fillBody, pushNeighbours_eq, hpush]
      cases seg <;> simp
    rw [ih _ rest hopen hw']
    congr 1
    simp only [fillBody, closeAll, List.foldl_cons, List.filter_cons, FillState.mk.injEq,
      and_true, true_and]
    constructor
    · by_cases h : tiles.at c = searchValue <;> simp [h]
    · simp
theorem mem_neighbours (c n : Cell) :
    n ∈ neighbours c ↔ n = ⟨c.row + -1, c.col + 0⟩ ∨ n = ⟨c.row + 1, c.col + 0⟩ ∨
      n = ⟨c.row + 0, c.col + -1⟩ ∨ n = ⟨c.row + 0, c.col + 1⟩ := by
  simp [neighbours, DIRECTIONS]

theorem neighbours_symm (a b : Cell) (h : b ∈ neighbours a) : a ∈ neighbours b := by
  rw [mem_neighbours] at h ⊢
  cases a; cases b
  simp only [Cell.mk.injEq] at h ⊢
  omega

theorem neighbours_nodup (c : Cell) : (neighbours c).Nodup := by
  cases c
  simp only [neighbours, DIRECTIONS, List.map_cons, List.map_nil, List.nodup_cons,
    List.mem_cons, Cell.mk.injEq, List.mem_singleton, List.not_mem_nil, not_false_eq_true,
    List.nodup_nil, and_true, not_or]
  omega

theorem filter_eq_singleton {α : Type} (p : α → Bool) (l : List α) (a : α) (hl : l.Nodup)
    (ha : a ∈ l) (hp : p a = true) (huniq : ∀ x ∈ l, p x = true → x = a) :
    l.filter p = [a] := by
  induction l with
  | nil => simp at ha
  | cons x l ih =>
    rw [List.nodup_cons] at hl
    by_cases hx : x = a
    · subst hx
      rw [List.filter_cons_of_pos hp]
      congr 1
      rw [List.filter_eq_nil_iff]
      intro y hy hpy
      have := huniq y (List.mem_cons_of_mem _ hy) hpy
      subst this
      exact hl.1 hy
    · have hpx : ¬ p x = true := fun h => hx (huniq x (List.mem_cons_self _ _) h)
      rw [List.filter_cons_of_neg hpx]
      refine ih hl.2 ?_ (fun y hy => huniq y (List.mem_cons_of_mem _ hy))
      rcases List.mem_cons.1 ha with h | h
      · exact absurd h.symm hx
      · exact h

theorem nodup_split_unique {α : Type} {c : α} {A B A' B' : List α}
    (hn : (A ++ c :: B).Nodup) (h : A ++ c :: B = A' ++ c :: B') : A = A' ∧ B = B' := by
  have hA : c ∉ A := by
    intro hc
    have := (List.nodup_append.1 hn).2.2 hc (List.mem_cons_self _ _)
    exact this
  have hB : c ∉ B := by
    have := (List.nodup_append.1 hn).2.1
    exact (List.nodup_cons.1 this).1
  have := (List.append_cons_inj_of_not_mem hA hB).1 h
  exact ⟨this.1, this.2.2⟩

/-- In a list without repetition, the element right after `c` is unique. -/
theorem next_unique {α : Type} {c n : α} {q A B : List α} (hn : q.Nodup)
    (hq : q = A ++ c :: B) (h : [c, n] <:+: q) : B.head? = some n := by
  obtain ⟨l1, l2, h⟩ := h
  subst hq
  have h' : A ++ c :: B = l1 ++ c :: (n :: l2) := by simpa using h.symm
  have := (nodup_split_unique hn h').2
  rw [this]; rfl

/-- In a list without repetition, the element right before `c` is unique. -/
theorem prev_unique {α : Type} {c n : α} {q A B : List α} (hn : q.Nodup)
    (hq : q = A ++ c :: B) (h : [n, c] <:+: q) : A.getLast? = some n := by
  obtain ⟨l1, l2, h⟩ := h
  subst hq
  have h' : A ++ c :: B = (l1 ++ [n]) ++ c :: l2 := by simpa using h.symm
  have := (nodup_split_unique hn h').1
  rw [this, List.getLast?_concat]

theorem Arr2.set_true_at_mono (closed : Arr2 Bool) (cell c : Cell) (h : closed.at c = true) :
    (closed.set cell true).at c = true :=
  Arr2.set_true_mono closed cell _ _ h

theorem WalkOK_of_line (tiles : Grid) (q : List Cell) (hq : Line tiles q) :
    ∀ (seg pre : List Cell) (p : Cell) (closed : Arr2 Bool), q = pre ++ p :: seg →
      closed.at p = true → (∀ c ∈ seg, closed.at c = false) → WalkOK tiles closed seg := by
  intro seg
  induction seg with
  | nil => intro _ _ _ _ _ _; trivial
  | cons c seg ih =>
    intro pre p closed hsplit hp hseg
    have hsplit' : q = (pre ++ [p]) ++ c :: seg := by simp [hsplit]
    have hcq : c ∈ q := by rw [hsplit']; simp
    have hcb := (hq.pos c hcq).1
    have hnd : (c :: seg).Nodup := by
      have := hq.nodup
      rw [hsplit'] at this
      exact (List.nodup_append.1 this).2.1
    have hpush : ∀ n ∈ neighbours c, pushable tiles (closed.set c true) n = true →
        seg.head? = some n := by
      intro n hn hpn
      simp only [pushable, Bool.and_eq_true, decide_eq_true_eq, Bool.not_eq_true'] at hpn
      rcases hq.nbr c hcq n hn hpn.1.1 hpn.2 with h | h
      · exact next_unique hq.nodup hsplit' h
      · have := prev_unique hq.nodup hsplit' h
        rw [List.getLast?_concat] at this
        cases this
        have := Arr2.set_true_at_mono closed c p hp
        rw [this] at hpn
        exact absurd hpn.1.2 (by simp)
    refine ⟨hcb, ?_, ?_⟩
    · cases seg with
      | nil =>
        simp only [List.head?_nil, Option.toList_none, List.filter_eq_nil_iff]
        intro n hn hpn
        have := hpush n hn hpn
        simp at this
      | cons c1 r =>
        simp only [List.head?_cons, Option.toList_some]
        have hc1q : c1 ∈ q := by rw [hsplit']; simp
        have hinf : [c, c1] <:+: q := ⟨pre ++ [p], r, by simp [hsplit]⟩
        refine filter_eq_singleton _ _ c1 (neighbours_nodup c) (hq.adj c c1 hinf).1 ?_ ?_
        · simp only [pushable, Bool.and_eq_true, decide_eq_true_eq, Bool.not_eq_true']
          refine ⟨⟨(hq.pos c1 hc1q).1, ?_⟩, (hq.pos c1 hc1q).2⟩
          rw [Arr2.set_at _ _ _ _ hcb (hq.pos c1 hc1q).1]
          have hne : c1 ≠ c := by
            intro h
            rw [List.nodup_cons] at hnd
            exact hnd.1 (h ▸ List.mem_cons_self _ _)
          simp only [hne, if_false]
          exact hseg c1 (by simp)
        · intro n hn hpn
          have := hpush n hn hpn
          simpa using this.symm
    · apply ih (pre ++ [p]) c (closed.set c true) hsplit' (Arr2.set_at_self _ _ _)
      intro x hx
      have hxq : x ∈ q := by rw [hsplit']; simp [hx]
      rw [Arr2.set_at _ _ _ _ hcb (hq.pos x hxq).1]
      have hne : x ≠ c := by
        intro h
        rw [List.nodup_cons] at hnd
        exact hnd.1 (h ▸ hx)
      simp only [hne, if_false]
      exact hseg x (List.mem_cons_of_mem _ hx)

theorem Line.reverse {tiles : Grid} {q : List Cell} (h : Line tiles q) : Line tiles q.reverse where
  nodup := List.nodup_reverse.2 h.nodup
  adj := by
    intro a b hab
    have : [b, a] <:+: q := by
      have := List.reverse_infix.2 hab
      simpa using this
    exact (h.adj b a this).symm
  pos := fun c hc => h.pos c (List.mem_reverse.1 hc)
  nbr := by
    intro c hc n hn hin hpos
    have flip : ∀ a b : Cell, [a, b] <:+: q → [b, a] <:+: q.reverse := by
      intro a b hab
      have := List.reverse_infix.2 hab
      simpa using this
    rcases h.nbr c (List.mem_reverse.1 hc) n hn hin hpos with h1 | h1
    · exact Or.inr (flip _ _ h1)
    · exact Or.inl (flip _ _ h1)

theorem IsSimplePath.line {tiles : Grid} {path : List Cell}
    (hvalid : ∀ r c : Nat, r < 20 → c < 20 → 0 ≤ tiles r c) (h : IsSimplePath tiles path) :
    Line tiles path where
  nodup := h.nodup
  adj := by
    intro a b hab
    have hpair : List.Chain' Adjacent [a, b] := List.Chain'.infix h.chain hab
    have : Adjacent a b := List.chain'_pair.1 hpair
    exact ⟨this, neighbours_symm a b this⟩
  pos := by
    intro c hc
    have hb := (h.nonEmpty c hc).1
    have hne := (h.nonEmpty c hc).2
    have h0 := (InBounds_iff c).1 hb
    have := hvalid c.row.toNat c.col.toNat (by omega) (by omega)
    refine ⟨hb, ?_⟩
    simp only [Arr2.at, GRASS] at hne ⊢
    omega
  nbr := by
    intro c hc n hn hin hpos
    refine h.consecutive c hc n hn hin ?_
    simp only [GRASS]; omega

theorem closeAll_at (closed : Arr2 Bool) (seg : List Cell) (c : Cell)
    (hseg : ∀ x ∈ seg, InBounds x TILE_COUNT TILE_COUNT = true)
    (hc : InBounds c TILE_COUNT TILE_COUNT = true) :
    (closeAll closed seg).at c = true ↔ closed.at c = true ∨ c ∈ seg := by
  induction seg generalizing closed with
  | nil => simp [closeAll]
  | cons x seg ih =>
    have hx := hseg x (List.mem_cons_self _ _)
    have := ih (closed.set x true) (fun y hy => hseg y (List.mem_cons_of_mem _ hy))
    simp only [closeAll, List.foldl_cons] at this ⊢
    rw [this, Arr2.set_at _ _ _ _ hx hc]
    by_cases hcx : c = x
    · simp [hcx]
    · simp [hcx]

theorem list_of_two_options {α : Type} (l : List α) (a b : Option α) (hl : l.Nodup)
    (hab : ∀ x, a = some x → b ≠ some x) (hmem : ∀ n, n ∈ l ↔ a = some n ∨ b = some n) :
    l = a.toList ++ b.toList ∨ l = b.toList ++ a.toList := by
  have hperm : l.Perm (a.toList ++ b.toList) := by
    refine (List.perm_ext_iff_of_nodup hl ?_).2 ?_
    · cases a <;> cases b <;> simp
      rename_i x y
      intro h; exact hab x rfl (by rw [h])
    · intro n
      rw [hmem]
      cases a <;> cases b <;> simp [eq_comm]
  cases a with
  | none =>
    cases b with
    | none => left; simpa using hperm
    | some y => left; simpa using hperm
  | some x =>
    cases b with
    | none => left; simpa using hperm
    | some y =>
      have hlen := hperm.length_eq
      simp only [Option.toList_some, List.singleton_append, List.length_cons,
        List.length_singleton] at hlen
      obtain ⟨u, v, rfl⟩ := List.length_eq_two.1 hlen
      have hx : x = u ∨ x = v := by simpa using (hmem x).2 (Or.inl rfl)
      have hy : y = u ∨ y = v := by simpa using (hmem y).2 (Or.inr rfl)
      have hxy : x ≠ y := fun h => hab x rfl (by rw [h])
      have huv : u ≠ v := by
        intro h; subst h
        simp at hl
      rcases hx with rfl | rfl <;> rcases hy with rfl | rfl
      · exact absurd rfl hxy
      · left; rfl
      · right; rfl
      · exact absurd rfl hxy

theorem fill_from_start (tiles : Grid) (searchValue : Int) (start : Cell) (X Y : List Cell)
    (hstart : InBounds start TILE_COUNT TILE_COUNT = true)
    (hP : ((neighbours start).filter
        (pushable tiles ((initClosed tiles).set start true))).reverse
          = X.head?.toList ++ Y.head?.toList)
    (hX : ∀ closed : Arr2 Bool, closed.at start = true → (∀ c ∈ X, closed.at c = false) →
      WalkOK tiles closed X)
    (hY : ∀ closed : Arr2 Bool, closed.at start = true → (∀ c ∈ Y, closed.at c = false) →
      WalkOK tiles closed Y)
    (hXpos : ∀ c ∈ X, InBounds c TILE_COUNT TILE_COUNT = true ∧ tiles.at c > 0 ∧ c ≠ start)
    (hYpos : ∀ c ∈ Y, InBounds c TILE_COUNT TILE_COUNT = true ∧ tiles.at c > 0 ∧ c ≠ start)
    (hdisj : ∀ c ∈ Y, c ∉ X) :
    ∃ s, FloodFillState start tiles searchValue = some s ∧ s.trace = start :: (X ++ Y) ∧
      s.result = s.trace.filter (fun c => decide (tiles.at c = searchValue)) := by
  have hinit : ∀ c, InBounds c TILE_COUNT TILE_COUNT = true → tiles.at c > 0 → c ≠ start →
      ((initClosed tiles).set start true).at c = false := by
    intro c hc hpos hne
    rw [Arr2.set_at _ _ _ _ hstart hc]
    simp only [hne, if_false, initClosed, Arr2.at, decide_eq_false_iff_not]
    simp only [Arr2.at] at hpos
    omega
  unfold FloodFillState
  rw [fillLoop_cons tiles searchValue _ start [] rfl hstart]
  have hopen1 : (fillBody tiles searchValue
      { result := [], open_ := [start], closed := initClosed tiles, trace := [] } start []).open_
        = X.head?.toList ++ Y.head?.toList := by
    simp only [fillBody, pushNeighbours_eq, List.append_nil]
    exact hP
  have hcl1 : (fillBody tiles searchValue
      { result := [], open_ := [start], closed := initClosed tiles, trace := [] } start []).closed
        = (initClosed tiles).set start true := rfl
  rw [fillLoop_walk tiles searchValue X _ _ hopen1
    (hX _ (by rw [hcl1]; exact Arr2.set_at_self _ _ _)
      (by rw [hcl1]; intro c hc; exact hinit c (hXpos c hc).1 (hXpos c hc).2.1 (hXpos c hc).2.2))]
  rw [fillLoop_walk tiles searchValue Y _ [] (by simp) (hY _ ?_ ?_)]
  · rw [fillLoop_nil _ _ _ rfl]
    refine ⟨_, rfl, ?_, ?_⟩
    · simp [fillBody]
    · simp only [fillBody, List.nil_append, List.filter_append, List.filter_cons,
        List.filter_nil, List.append_assoc]
      by_cases h : tiles.at start = searchValue <;> simp [h]
  · simp only [hcl1]
    rw [closeAll_at _ _ _ (fun x hx => (hXpos x hx).1) hstart]
    exact Or.inl (Arr2.set_at_self _ _ _)
  · intro c hc
    simp only [hcl1]
    have := closeAll_at ((initClosed tiles).set start true) X c
      (fun x hx => (hXpos x hx).1) (hYpos c hc).1
    rw [← Bool.not_eq_true, this]
    rintro (h | h)
    · rw [hinit c (hYpos c hc).1 (hYpos c hc).2.1 (hYpos c hc).2.2] at h
      cases h
    · exact hdisj c hc h

theorem FloodFillState_simple_path (tiles : Grid) (start : Cell) (searchValue : Int)
    (L Rt : List Cell) (hline : Line tiles (L ++ start :: Rt)) :
    ∃ s, FloodFillState start tiles searchValue = some s ∧
      s.trace.Perm (L ++ start :: Rt) ∧
      s.result = s.trace.filter (fun c => decide (tiles.at c = searchValue)) := by
  have hnd := hline.nodup
  have hstartq : start ∈ L ++ start :: Rt := by simp
  have hstart := (hline.pos start hstartq).1
  have hndL : start ∉ L := fun h => (List.nodup_append.1 hnd).2.2 h (List.mem_cons_self _ _)
  have hndR : start ∉ Rt := (List.nodup_cons.1 (List.nodup_append.1 hnd).2.1).1
  have hLR : ∀ c ∈ L, c ∉ Rt := fun c hc hr =>
    (List.nodup_append.1 hnd).2.2 hc (List.mem_cons_of_mem _ hr)
  have hRpos : ∀ c ∈ Rt, InBounds c TILE_COUNT TILE_COUNT = true ∧ tiles.at c > 0 ∧ c ≠ start := by
    intro c hc
    have := hline.pos c (by simp [hc])
    exact ⟨this.1, this.2, fun h => hndR (h ▸ hc)⟩
  have hLpos : ∀ c ∈ L.reverse,
      InBounds c TILE_COUNT TILE_COUNT = true ∧ tiles.at c > 0 ∧ c ≠ start := by
    intro c hc
    rw [List.mem_reverse] at hc
    have := hline.pos c (by simp [hc])
    exact ⟨this.1, this.2, fun h => hndL (h ▸ hc)⟩
  have hWR : ∀ closed : Arr2 Bool, closed.at start = true → (∀ c ∈ Rt, closed.at c = false) →
      WalkOK tiles closed Rt :=
    fun closed => WalkOK_of_line tiles _ hline Rt L start closed rfl
  have hWL : ∀ closed : Arr2 Bool, closed.at start = true →
      (∀ c ∈ L.reverse, closed.at c = false) → WalkOK tiles closed L.reverse :=
    fun closed => WalkOK_of_line tiles _ hline.reverse L.reverse Rt.reverse start closed
      (by simp)
  have hmem : ∀ n, n ∈ (neighbours start).filter
      (pushable tiles ((initClosed tiles).set start true))
        ↔ L.getLast? = some n ∨ Rt.head? = some n := by
    intro n
    rw [List.mem_filter]
    constructor
    · rintro ⟨hn, hp⟩
      simp only [pushable, Bool.and_eq_true, decide_eq_true_eq, Bool.not_eq_true'] at hp
      rcases hline.nbr start hstartq n hn hp.1.1 hp.2 with h | h
      · exact Or.inr (next_unique hnd rfl h)
      · exact Or.inl (prev_unique hnd rfl h)
    · intro h
      have key : n ∈ neighbours start ∧ n ∈ L ++ start :: Rt ∧ n ≠ start := by
        rcases h with h | h
        · obtain ⟨l1, rfl⟩ : ∃ l1, L = l1 ++ [n] := by
            rcases List.eq_nil_or_concat L with h0 | ⟨l1, b, h1⟩
            · rw [h0] at h; cases h
            · rw [h1, List.concat_eq_append, List.getLast?_concat] at h
              cases h
              exact ⟨l1, by rw [h1, List.concat_eq_append]⟩
          have hinf : [n, start] <:+: (l1 ++ [n]) ++ start :: Rt := ⟨l1, Rt, by simp⟩
          exact ⟨(hline.adj n start hinf).2, by simp, fun h => hndL (h ▸ by simp)⟩
        · obtain ⟨r, rfl⟩ : ∃ r, Rt = n :: r := by
            cases Rt with
            | nil => cases h
            | cons x r => simp only [List.head?_cons, Option.some.injEq] at h; exact ⟨r, by rw [h]⟩
          have hinf : [start, n] <:+: L ++ start :: n :: r := ⟨L, r, by simp⟩
          exact ⟨(hline.adj start n hinf).1, by simp, fun h => hndR (h ▸ by simp)⟩
      refine ⟨key.1, ?_⟩
      have hp := hline.pos n key.2.1
      simp only [pushable, Bool.and_eq_true, decide_eq_true_eq, Bool.not_eq_true']
      refine ⟨⟨hp.1, ?_⟩, hp.2⟩
      rw [Arr2.set_at _ _ _ _ hstart hp.1]
      simp only [key.2.2, if_false, initClosed, Arr2.at, decide_eq_false_iff_not]
      have := hp.2
      simp only [Arr2.at] at this
      omega
  have hab : ∀ x, L.getLast? = some x → Rt.head? ≠ some x := by
    intro x hx hx'
    exact hLR x (List.mem_of_getLast?_eq_some hx) (List.mem_of_mem_head? hx')
  have hrev : ∀ a b : Option Cell, (a.toList ++ b.toList).reverse = b.toList ++ a.toList := by
    intro a b; cases a <;> cases b <;> rfl
  rcases list_of_two_options _ _ _ ((neighbours_nodup start).filter _) hab hmem with hP | hP
  · obtain ⟨s, hs, htr, hres⟩ := fill_from_start tiles searchValue start Rt L.reverse hstart
      (by rw [hP, hrev, List.head?_reverse]) hWR hWL hRpos hLpos
      (fun c hc hr => hLR c (List.mem_reverse.1 hc) hr)
    refine ⟨s, hs, ?_, hres⟩
    rw [htr]
    refine (List.perm_ext_iff_of_nodup ?_ hnd).2 ?_
    · rw [List.nodup_cons, List.nodup_append]
      refine ⟨by simp [hndL, hndR], (List.nodup_cons.1 (List.nodup_append.1 hnd).2.1).2,
        List.nodup_reverse.2 (List.nodup_append.1 hnd).1, ?_⟩
      intro a ha hb
      exact hLR a (List.mem_reverse.1 hb) ha
    · intro a; simp only [List.mem_cons, List.mem_append, List.mem_reverse]; tauto
  · obtain ⟨s, hs, htr, hres⟩ := fill_from_start tiles searchValue start L.reverse Rt hstart
      (by rw [hP, hrev, List.head?_reverse]) hWL hWR hLpos hRpos
      (fun c hc hr => hLR c (List.mem_reverse.1 hr) hc)
    refine ⟨s, hs, ?_, hres⟩
    rw [htr]
    refine (List.perm_ext_iff_of_nodup ?_ hnd).2 ?_
    · rw [List.nodup_cons, List.nodup_append]
      refine ⟨by simp [hndL, hndR], List.nodup_reverse.2 (List.nodup_append.1 hnd).1,
        (List.nodup_cons.1 (List.nodup_append.1 hnd).2.1).2, ?_⟩
      intro a ha hb
      exact hLR a (List.mem_reverse.1 ha) hb
    · intro a; simp only [List.mem_cons, List.mem_append, List.mem_reverse]; tauto

set_option maxRecDepth 100000 in
/-- The walk `builtinPath` is a simple path of the built-in grid. -/
theorem builtinPath_simple : IsSimplePath tiles builtinPath where
  nodup := by decide!
  chain := (chain_of_isWalk _ (by decide!)).imp (fun _ _ h => of_decide_eq_true h)
  nonEmpty := by decide!
  consecutive := by decide!

theorem tiles_nonneg : ∀ r c : Nat, r < 20 → c < 20 → 0 ≤ tiles r c := fun r c hr hc =>
  (by decide! : ∀ r c : Fin 20, 0 ≤ tiles r c) ⟨r, hr⟩ ⟨c, hc⟩

/-! ## Lemmas on the frame step -/

section
variable {R : Type} [LinearOrder R] (E : Env R)

theorem scanLoop_spec (turret : Turret R) :
    ∀ (enemies : List (Enemy R)) (k : Nat) (acc : Option Nat × R),
      (scanLoop E turret enemies k acc = acc ∧
        ∀ (j : Nat) (e : Enemy R), enemies[j]? = some e → InRange E turret e →
          ¬ turretDistance E turret e < acc.2) ∨
      (∃ (j : Nat) (e : Enemy R), enemies[j]? = some e ∧
        scanLoop E turret enemies k acc = (some (k + j), turretDistance E turret e) ∧
        InRange E turret e ∧ turretDistance E turret e < acc.2 ∧
        ∀ (j' : Nat) (e' : Enemy R), enemies[j']? = some e' → InRange E turret e' →
          turretDistance E turret e ≤ turretDistance E turret e' ∧
            (turretDistance E turret e' = turretDistance E turret e → j ≤ j')) := by
  intro enemies
  induction enemies with
  | nil => intro k acc; left; simp [scanLoop]
  | cons en rest ih =>
    intro k acc
    simp only [scanLoop]
    by_cases hsel : en.active = true ∧
        (Vector2Distance E turret.position en.position < acc.2 ∧
          Vector2Distance E turret.position en.position ≤ turret.range)
    · have hacc : (if en.active = true then
            if Vector2Distance E turret.position en.position < acc.2 ∧
              Vector2Distance E turret.position en.position ≤ turret.range
            then (some k, Vector2Distance E turret.position en.position) else acc
          else acc) = (some k, turretDistance E turret en) := by
        simp [hsel.1, hsel.2, turretDistance]
      rw [hacc]
      right
      rcases ih (k + 1) (some k, turretDistance E turret en) with ⟨heq, hno⟩ | ⟨j, e, hj, heq, hin, hlt, hmin⟩
      · refine ⟨0, en, by simp, by simpa using heq, ⟨hsel.1, hsel.2.2⟩, hsel.2.1, ?_⟩
        intro j' e' hj' hin'
        cases j' with
        | zero =>
          simp only [List.getElem?_cons_zero, Option.some.injEq] at hj'
          subst hj'
          exact ⟨le_refl _, fun _ => le_refl _⟩
        | succ j' =>
          simp only [List.getElem?_cons_succ] at hj'
          exact ⟨not_lt.1 (hno j' e' hj' hin'), fun _ => Nat.zero_le _⟩
      · refine ⟨j + 1, e, by simpa using hj, by rw [heq]; congr 2; omega, hin,
          lt_trans hlt hsel.2.1, ?_⟩
        intro j' e' hj' hin'
        cases j' with
        | zero =>
          simp only [List.getElem?_cons_zero, Option.some.injEq] at hj'
          subst hj'
          exact ⟨le_of_lt hlt, fun h => absurd h.symm (ne_of_lt hlt)⟩
        | succ j' =>
          simp only [List.getElem?_cons_succ] at hj'
          have := hmin j' e' hj' hin'
          exact ⟨this.1, fun h => Nat.succ_le_succ (this.2 h)⟩
    · have hacc : (if en.active = true then
            if Vector2Distance E turret.position en.position < acc.2 ∧
              Vector2Distance E turret.position en.position ≤ turret.range
            then (some k, Vector2Distance E turret.position en.position) else acc
          else acc) = acc := by
        by_cases ha : en.active = true
        · simp only [ha, if_true]
          rw [if_neg (fun h => hsel ⟨ha, h⟩)]
        · simp [ha]
      rw [hacc]
      have hen : InRange E turret en → ¬ turretDistance E turret en < acc.2 := by
        intro hin hlt
        exact hsel ⟨hin.1, hlt, hin.2⟩
      rcases ih (k + 1) acc with ⟨heq, hno⟩ | ⟨j, e, hj, heq, hin, hlt, hmin⟩
      · left
        refine ⟨heq, ?_⟩
        intro j' e' hj' hin'
        cases j' with
        | zero =>
          simp only [List.getElem?_cons_zero, Option.some.injEq] at hj'
          subst hj'
          exact hen hin'
        | succ j' =>
          simp only [List.getElem?_cons_succ] at hj'
          exact hno j' e' hj' hin'
      · right
        refine ⟨j + 1, e, by simpa using hj, by rw [heq]; congr 2; omega, hin, hlt, ?_⟩
        intro j' e' hj' hin'
        cases j' with
        | zero =>
          simp only [List.getElem?_cons_zero, Option.some.injEq] at hj'
          subst hj'
          have h1 := not_lt.1 (hen hin')
          have h2 := lt_of_lt_of_le hlt h1
          exact ⟨le_of_lt h2, fun h => absurd h.symm (ne_of_lt h2)⟩
        | succ j' =>
          simp only [List.getElem?_cons_succ] at hj'
          have := hmin j' e' hj' hin'
          exact ⟨this.1, fun h => Nat.succ_le_succ (this.2 h)⟩

/-- What the scan returns when it selects index `i`, without any assumption. -/
theorem findTarget_some (turret : Turret R) (enemies : List (Enemy R)) (i : Nat)
    (h : findTarget E turret enemies = some i) :
    ∃ e, enemies[i]? = some e ∧ InRange E turret e ∧
      ∀ (j : Nat) (e' : Enemy R), enemies[j]? = some e' → InRange E turret e' →
        turretDistance E turret e ≤ turretDistance E turret e' ∧
          (turretDistance E turret e' = turretDistance E turret e → i ≤ j) := by
  unfold findTarget at h
  rcases scanLoop_spec E turret enemies 0 (none, E.FLT_MAX) with ⟨heq, _⟩ | ⟨j, e, hj, heq, hin, _, hmin⟩
  · rw [heq] at h; cases h
  · rw [heq] at h
    simp only [Nat.zero_add, Option.some.injEq] at h
    subst h
    exact ⟨e, hj, hin, hmin⟩

end

theorem Pointwise.refl {α : Type} {Q : α → α → Prop} (hrefl : ∀ e, Q e e) (l : List α) :
    Pointwise Q l l :=
  fun _ e h => ⟨e, h, hrefl e⟩

theorem Pointwise.chain_rel {α : Type} {Q : α → α → Prop} (htrans : ∀ a b c, Q a b → Q b c → Q a c)
    {l1 l2 l3 : List α} (h12 : Pointwise Q l1 l2) (h23 : Pointwise Q l2 l3) :
    Pointwise Q l1 l3 := by
  intro i e he
  obtain ⟨e2, he2, hq2⟩ := h12 i e he
  obtain ⟨e3, he3, hq3⟩ := h23 i e2 he2
  exact ⟨e3, he3, htrans _ _ _ hq2 hq3⟩

theorem Pointwise.append {α : Type} {Q : α → α → Prop} (hrefl : ∀ e, Q e e) (l l2 : List α) :
    Pointwise Q l (l ++ l2) := by
  intro i e he
  have hi : i < l.length := (List.getElem?_eq_some.1 he).1
  exact ⟨e, by rw [List.getElem?_append_left hi]; exact he, hrefl e⟩

theorem Pointwise.set {α : Type} {Q : α → α → Prop} (hrefl : ∀ e, Q e e) (l : List α)
    (i : Nat) (a b : α) (ha : l[i]? = some a) (hab : Q a b) : Pointwise Q l (l.set i b) := by
  intro j e he
  rw [List.getElem?_set]
  by_cases hij : i = j
  · subst hij
    have hi : i < l.length := (List.getElem?_eq_some.1 ha).1
    rw [ha] at he
    cases he
    exact ⟨b, by simp [hi], hab⟩
  · exact ⟨e, by simp [hij, he], hrefl e⟩

theorem Pointwise.cons {α : Type} {Q : α → α → Prop} {a b : α} {l l' : List α}
    (hab : Q a b) (h : Pointwise Q l l') : Pointwise Q (a :: l) (b :: l') := by
  intro i e he
  cases i with
  | zero =>
    simp only [List.getElem?_cons_zero, Option.some.injEq] at he
    subst he
    exact ⟨b, by simp, hab⟩
  | succ i =>
    simp only [List.getElem?_cons_succ] at he ⊢
    exact h i e he

section
variable {R : Type} (E : Env R)

theorem toSizeT_le (i : Int) (h : 0 ≤ i) : (toSizeT i : Int) ≤ i := by
  unfold toSizeT
  have h2 : (2 : Int) ^ 64 = 18446744073709551616 := by norm_num
  rw [h2]
  omega

theorem toSizeT_lt_length (waypoints : List Cell) (i : Int) (h0 : 0 ≤ i)
    (h : i < (waypoints.length : Int)) : toSizeT i < waypoints.length := by
  have := toSizeT_le i h0
  omega

/-- What the movement of one enemy returns, when it returns: an enemy whose
index has not decreased and whose health is the same; an inactive enemy is
returned as it is, and no enemy becomes active. -/
theorem moveEnemy_some (waypoints : List Cell) (dt : R) (enemy enemy' : Enemy R)
    (h : moveEnemy E waypoints dt enemy = some enemy') :
    enemy.currentWaypoint ≤ enemy'.currentWaypoint ∧
      (enemy.active = false → enemy' = enemy) ∧
      (enemy'.active = true → enemy.active = true) ∧
      enemy'.health = enemy.health ∧
      (enemy.active = true → waypoints[toSizeT enemy.currentWaypoint]? ≠ none ∧
        waypoints[toSizeT (enemy.currentWaypoint + 1)]? ≠ none) := by
  obtain ⟨position, speed, cw, health, radius, active⟩ := enemy
  cases active with
  | false =>
    simp only [moveEnemy, Bool.false_eq_true, if_false, Option.some.injEq] at h
    subst h
    exact ⟨le_refl _, fun _ => rfl, fun h => h, rfl, (by intro h; cases h)⟩
  | true =>
    simp only [moveEnemy, if_true] at h
    split at h
    · next wf wt hwf hwt =>
      have hlook : waypoints[toSizeT cw]? ≠ none ∧ waypoints[toSizeT (cw + 1)]? ≠ none := by
        rw [hwf, hwt]; simp
      split at h
      · split at h
        · cases h
          exact ⟨by show cw ≤ cw + 1; omega, (by intro h; cases h), fun _ => rfl, rfl,
            fun _ => hlook⟩
        · cases h
          exact ⟨by show cw ≤ cw + 1; omega, (by intro h; cases h), fun _ => rfl, rfl,
            fun _ => hlook⟩
      · cases h
        exact ⟨le_refl _, (by intro h; cases h), fun _ => rfl, rfl, fun _ => hlook⟩
    · cases h

/-- The movement of one enemy whose index is in range returns an enemy whose
index is again in range. -/
theorem moveEnemy_ok (waypoints : List Cell) (dt : R) (enemy : Enemy R)
    (hok : EnemyOK waypoints enemy) :
    ∃ enemy', moveEnemy E waypoints dt enemy = some enemy' ∧ EnemyOK waypoints enemy' := by
  obtain ⟨position, speed, cw, health, radius, active⟩ := enemy
  cases active with
  | false => exact ⟨_, by simp [moveEnemy], hok⟩
  | true =>
    obtain ⟨h0, h2⟩ := hok rfl
    simp only at h0 h2
    have hl1 := toSizeT_lt_length waypoints cw h0 (by omega)
    have hl2 := toSizeT_lt_length waypoints (cw + 1) (by omega) (by omega)
    obtain ⟨wf, hwf⟩ : ∃ w, waypoints[toSizeT cw]? = some w :=
      ⟨_, List.getElem?_eq_getElem hl1⟩
    obtain ⟨wt, hwt⟩ : ∃ w, waypoints[toSizeT (cw + 1)]? = some w :=
      ⟨_, List.getElem?_eq_getElem hl2⟩
    simp only [moveEnemy, if_true, hwf, hwt]
    split
    · split
      · exact ⟨_, rfl, fun h => by cases h⟩
      · next hge =>
        refine ⟨_, rfl, fun _ => ?_⟩
        show 0 ≤ cw + 1 ∧ cw + 1 + 2 ≤ (waypoints.length : Int)
        refine ⟨by omega, ?_⟩
        by_contra hcon
        have heq : cw + 1 = (waypoints.length : Int) - 1 := by omega
        rw [heq] at hge
        exact hge (le_refl _)
    · exact ⟨_, rfl, fun _ => ⟨h0, h2⟩⟩

theorem moveEnemies_some (waypoints : List Cell) (dt : R) :
    ∀ (enemies enemies' : List (Enemy R)), moveEnemies E waypoints dt enemies = some enemies' →
      enemies'.length = enemies.length ∧
        Pointwise (fun e e' => moveEnemy E waypoints dt e = some e') enemies enemies' := by
  intro enemies
  induction enemies with
  | nil =>
    intro enemies' h
    simp only [moveEnemies, Option.some.injEq] at h
    subst h
    exact ⟨rfl, fun i e he => by simp at he⟩
  | cons en rest ih =>
    intro enemies' h
    simp only [moveEnemies] at h
    split at h
    · cases h
    · next en' hen =>
      split at h
      · cases h
      · next rest' hrest =>
        cases h
        obtain ⟨hl, hp⟩ := ih rest' hrest
        exact ⟨by simp [hl], Pointwise.cons hen hp⟩

theorem moveEnemies_ok (waypoints : List Cell) (dt : R) :
    ∀ (enemies : List (Enemy R)), (∀ e ∈ enemies, EnemyOK waypoints e) →
      ∃ enemies', moveEnemies E waypoints dt enemies = some enemies' ∧
        ∀ e ∈ enemies', EnemyOK waypoints e := by
  intro enemies
  induction enemies with
  | nil => intro _; exact ⟨[], rfl, by simp⟩
  | cons en rest ih =>
    intro hok
    obtain ⟨en', hen, hok'⟩ := moveEnemy_ok E waypoints dt en (hok en (List.mem_cons_self _ _))
    obtain ⟨rest', hrest, hokr⟩ := ih (fun e he => hok e (List.mem_cons_of_mem _ he))
    refine ⟨en' :: rest', by simp [moveEnemies, hen, hrest], ?_⟩
    intro e he
    rcases List.mem_cons.1 he with rfl | he
    · exact hok'
    · exact hokr e he

/-- The tracer block on a state whose tracer indices are in range. -/
theorem tracerStep_ok (waypoints : List Cell) (dt : R) (s : GameState R)
    (hnext : s.next = s.curr + 1) (hok : s.atEnd = false → s.next < waypoints.length) :
    ∃ s', tracerStep E waypoints dt s = some s' ∧ s'.next = s'.curr + 1 ∧
      (s'.atEnd = false → s'.next < waypoints.length) ∧
      s'.enemies = s.enemies ∧ s'.turrets = s.turrets ∧ s'.bullets = s.bullets ∧
      s'.spawnTimer = s.spawnTimer ∧ s'.enemyCount = s.enemyCount := by
  unfold tracerStep
  cases hat : s.atEnd with
  | true => exact ⟨s, by simp, hnext, hok, rfl, rfl, rfl, rfl, rfl⟩
  | false =>
    have hn := hok hat
    have hc : s.curr < waypoints.length := by omega
    obtain ⟨wc, hwc⟩ : ∃ w, waypoints[s.curr]? = some w := ⟨_, List.getElem?_eq_getElem hc⟩
    obtain ⟨wn, hwn⟩ : ∃ w, waypoints[s.next]? = some w := ⟨_, List.getElem?_eq_getElem hn⟩
    have hwc1 : waypoints[s.curr + 1]? = some wn := by rw [← hnext]; exact hwn
    simp only [Bool.not_false, if_true, hwc, hwn, hwc1]
    split
    · refine ⟨_, rfl, ?_, ?_, rfl, rfl, rfl, rfl, rfl⟩
      · show s.next + 1 = s.curr + 1 + 1
        omega
      · intro h
        simp only [decide_eq_false_iff_not] at h
        show s.next + 1 < waypoints.length
        omega
    · exact ⟨_, rfl, hnext, fun _ => hn, rfl, rfl, rfl, rfl, rfl⟩

theorem tracerStep_some (waypoints : List Cell) (dt : R) (s s' : GameState R)
    (h : tracerStep E waypoints dt s = some s') :
    s'.enemies = s.enemies ∧ s'.turrets = s.turrets ∧ s'.bullets = s.bullets ∧
      s'.spawnTimer = s.spawnTimer ∧ s'.enemyCount = s.enemyCount := by
  unfold tracerStep at h
  split at h
  · split at h
    · simp only at h
      split at h
      · split at h
        · cases h
        · cases h; exact ⟨rfl, rfl, rfl, rfl, rfl⟩
      · cases h; exact ⟨rfl, rfl, rfl, rfl, rfl⟩
    · cases h
  · cases h; exact ⟨rfl, rfl, rfl, rfl, rfl⟩

end

section
variable {R : Type} [LinearOrder R] (E : Env R)

theorem Damaged.append_hits {a b c : Enemy R} (hab : Damaged E a b) (hbc : Damaged E b c) :
    Damaged E a c := by
  induction hab with
  | refl _ => exact hbc
  | hit turret e e' hact _ ih => exact Damaged.hit turret e c hact (ih hbc)

/-- A hit changes only health and the active flag, never activates, and an
inactive enemy is never hit. -/
theorem Damaged.spec {e e' : Enemy R} (h : Damaged E e e') :
    e'.currentWaypoint = e.currentWaypoint ∧ e'.position = e.position ∧ e'.speed = e.speed ∧
      e'.radius = e.radius ∧ (e'.active = true → e.active = true) ∧
      (e.active = false → e' = e) := by
  induction h with
  | refl _ => exact ⟨rfl, rfl, rfl, rfl, fun h => h, fun _ => rfl⟩
  | hit turret e e' hact _ ih =>
    obtain ⟨h1, h2, h3, h4, _, _⟩ := ih
    refine ⟨h1, h2, h3, h4, fun _ => hact, ?_⟩
    intro h; rw [hact] at h; cases h

theorem Damaged.ok {waypoints : List Cell} {e e' : Enemy R} (h : Damaged E e e')
    (hok : EnemyOK waypoints e) : EnemyOK waypoints e' := by
  intro ha
  have hs := Damaged.spec E h
  rw [hs.1]
  exact hok (hs.2.2.2.2.1 ha)

theorem scanLoop_reload (turret : Turret R) (x : R) :
    ∀ (enemies : List (Enemy R)) (k : Nat) (acc : Option Nat × R),
      scanLoop E { turret with reloadTime := x } enemies k acc
        = scanLoop E turret enemies k acc := by
  intro enemies
  induction enemies with
  | nil => intro k acc; rfl
  | cons en rest ih =>
    intro k acc
    simp only [scanLoop]
    exact ih _ _

theorem findTarget_reload (turret : Turret R) (x : R) (enemies : List (Enemy R)) :
    findTarget E { turret with reloadTime := x } enemies = findTarget E turret enemies := by
  simp only [findTarget, scanLoop_reload]

/-- The turret fires: the scan found index `i` and the timer has reached the
fire rate. -/
theorem turretStep_fire (dt : R) (turret : Turret R) (enemies : List (Enemy R))
    (bullets : List (Bullet R)) (i : Nat) (hi : findTarget E turret enemies = some i)
    (hr : E.add turret.reloadTime dt ≥ turret.fireRate) :
    ∃ target, enemies[i]? = some target ∧ target.active = true ∧
      turretStep E dt turret enemies bullets
        = ({ turret with reloadTime := E.lit 0 }, enemies.set i (damageEnemy E turret target),
            bullets ++ [newBullet E turret target]) := by
  obtain ⟨target, ht, hin, _⟩ := findTarget_some E turret enemies i hi
  refine ⟨target, ht, hin.1, ?_⟩
  simp only [turretStep, findTarget_reload, hi, ht]
  rw [if_pos hr]
  rfl

/-- The turret does not fire: no target, or the timer is below the fire rate. -/
theorem turretStep_hold (dt : R) (turret : Turret R) (enemies : List (Enemy R))
    (bullets : List (Bullet R))
    (h : findTarget E turret enemies = none ∨ ¬ E.add turret.reloadTime dt ≥ turret.fireRate) :
    turretStep E dt turret enemies bullets
      = ({ turret with reloadTime := E.add turret.reloadTime dt }, enemies, bullets) := by
  simp only [turretStep, findTarget_reload]
  cases hf : findTarget E turret enemies with
  | none => rfl
  | some i =>
    rcases h with h | h
    · rw [hf] at h; cases h
    · simp only
      split
      · rfl
      · rw [if_neg h]

theorem turretStep_cases (dt : R) (turret : Turret R) (enemies : List (Enemy R))
    (bullets : List (Bullet R)) :
    (turretStep E dt turret enemies bullets).2 = (enemies, bullets) ∨
      ∃ i target, enemies[i]? = some target ∧ target.active = true ∧
        (turretStep E dt turret enemies bullets).2
          = (enemies.set i (damageEnemy E turret target),
              bullets ++ [newBullet E turret target]) := by
  by_cases h : (∃ i, findTarget E turret enemies = some i) ∧
      E.add turret.reloadTime dt ≥ turret.fireRate
  · obtain ⟨⟨i, hi⟩, hr⟩ := h
    obtain ⟨target, ht, ha, heq⟩ := turretStep_fire E dt turret enemies bullets i hi hr
    exact Or.inr ⟨i, target, ht, ha, by rw [heq]⟩
  · left
    rw [turretStep_hold E dt turret enemies bullets]
    by_cases hr : E.add turret.reloadTime dt ≥ turret.fireRate
    · left
      cases hf : findTarget E turret enemies with
      | none => rfl
      | some i => exact absurd ⟨⟨i, hf⟩, hr⟩ h
    · exact Or.inr hr

/-- The turret loop keeps the number of enemies, changes enemies only by
hits, and appends to the bullets only bullets with time 0 that are enabled. -/
theorem turretsLoop_spec (dt : R) :
    ∀ (turrets : List (Turret R)) (enemies : List (Enemy R)) (bullets : List (Bullet R)),
      (turretsLoop E dt turrets enemies bullets).2.1.length = enemies.length ∧
        Pointwise (Damaged E) enemies (turretsLoop E dt turrets enemies bullets).2.1 ∧
        ∃ fired, (turretsLoop E dt turrets enemies bullets).2.2 = bullets ++ fired ∧
          ∀ b ∈ fired, b.time = E.lit 0 ∧ b.enabled = true := by
  intro turrets
  induction turrets with
  | nil =>
    intro enemies bullets
    exact ⟨rfl, Pointwise.refl Damaged.refl _, [], by simp [turretsLoop], by simp⟩
  | cons t rest ih =>
    intro enemies bullets
    simp only [turretsLoop]
    rcases turretStep_cases E dt t enemies bullets with h | ⟨i, target, ht, ha, h⟩
    · have h1 : (turretStep E dt t enemies bullets).2.1 = enemies := by rw [h]
      have h2 : (turretStep E dt t enemies bullets).2.2 = bullets := by rw [h]
      rw [h1, h2]
      exact ih enemies bullets
    · have h1 : (turretStep E dt t enemies bullets).2.1
          = enemies.set i (damageEnemy E t target) := by rw [h]
      have h2 : (turretStep E dt t enemies bullets).2.2
          = bullets ++ [newBullet E t target] := by rw [h]
      rw [h1, h2]
      obtain ⟨hl, hp, fired, hf, hfired⟩ :=
        ih (enemies.set i (damageEnemy E t target)) (bullets ++ [newBullet E t target])
      refine ⟨by rw [hl, List.length_set], ?_, newBullet E t target :: fired, ?_, ?_⟩
      · have htr : ∀ a b c : Enemy R, Damaged E a b → Damaged E b c → Damaged E a c :=
          fun a b c hab hbc => Damaged.append_hits E hab hbc
        refine Pointwise.chain_rel htr ?_ hp
        exact Pointwise.set Damaged.refl enemies i target _ ht
          (Damaged.hit t target _ ha (Damaged.refl _))
      · rw [hf]; simp
      · intro b hb
        rcases List.mem_cons.1 hb with rfl | hb
        · exact ⟨rfl, rfl⟩
        · exact hfired b hb

theorem Pointwise.forall_of {α : Type} {Q : α → α → Prop} {P : α → Prop} {l l' : List α}
    (hp : Pointwise Q l l') (hlen : l'.length = l.length) (hl : ∀ e ∈ l, P e)
    (hQ : ∀ a b, Q a b → P a → P b) : ∀ e ∈ l', P e := by
  intro e' he'
  obtain ⟨i, hi⟩ := List.mem_iff_getElem?.1 he'
  have hi' : i < l.length := by
    have := (List.getElem?_eq_some.1 hi).1
    omega
  obtain ⟨e2, he2, hq⟩ := hp i l[i] (List.getElem?_eq_getElem hi')
  rw [hi] at he2
  cases he2
  exact hQ _ _ hq (hl _ (List.getElem_mem _))

/-- What the spawn block returns, when it returns. -/
theorem spawnStep_some (waypoints : List Cell) (dt : R) (s s1 : GameState R)
    (h : spawnStep E waypoints dt s = some s1) :
    ((s1.enemies = s.enemies ∧ s1.enemyCount = s.enemyCount) ∨
        ∃ w, waypoints[0]? = some w ∧ s.enemyCount < maxEnemies ∧
          E.add s.spawnTimer dt ≥ spawnInterval E ∧
          s1.enemies = s.enemies ++ [newEnemy E w] ∧ s1.enemyCount = s.enemyCount + 1) ∧
      s1.turrets = s.turrets ∧ s1.bullets = s.bullets ∧ s1.curr = s.curr ∧ s1.next = s.next ∧
      s1.atEnd = s.atEnd ∧ s1.enemyPosition = s.enemyPosition := by
  unfold spawnStep at h
  simp only at h
  split at h
  · next hc =>
    split at h
    · cases h
    · next w hw =>
      cases h
      exact ⟨Or.inr ⟨w, hw, hc.2, hc.1, rfl, rfl⟩, rfl, rfl, rfl, rfl, rfl, rfl⟩
  · cases h
    exact ⟨Or.inl ⟨rfl, rfl⟩, rfl, rfl, rfl, rfl, rfl, rfl⟩

theorem spawnStep_ok (waypoints : List Cell) (dt : R) (s : GameState R)
    (hlen : 1 ≤ waypoints.length) : ∃ s1, spawnStep E waypoints dt s = some s1 := by
  obtain ⟨w, hw⟩ : ∃ w, waypoints[0]? = some w :=
    ⟨_, List.getElem?_eq_getElem (by omega)⟩
  unfold spawnStep
  simp only [hw]
  split
  · exact ⟨_, rfl⟩
  · exact ⟨_, rfl⟩

end

theorem Pointwise.comp {α : Type} {Q1 Q2 : α → α → Prop} {l1 l2 l3 : List α}
    (h12 : Pointwise Q1 l1 l2) (h23 : Pointwise Q2 l2 l3) :
    Pointwise (fun a c => ∃ b, Q1 a b ∧ Q2 b c) l1 l3 := by
  intro i e he
  obtain ⟨e2, he2, hq2⟩ := h12 i e he
  obtain ⟨e3, he3, hq3⟩ := h23 i e2 he2
  exact ⟨e3, he3, e2, hq2, hq3⟩

theorem Pointwise.mono {α : Type} {Q1 Q2 : α → α → Prop} {l1 l2 : List α}
    (h : Pointwise Q1 l1 l2) (himp : ∀ a b, Q1 a b → Q2 a b) : Pointwise Q2 l1 l2 := by
  intro i e he
  obtain ⟨e2, he2, hq2⟩ := h i e he
  exact ⟨e2, he2, himp _ _ hq2⟩

section
variable {R : Type} [LinearOrder R] (E : Env R)

/-- The stages of a frame that returns: the spawn block, the movement loop,
the turret loop (appending the bullets `fired`), and the bullet loop run with
the tracer position of the end of the frame. -/
theorem frame_some (waypoints : List Cell) (dt : R) (s s' : GameState R)
    (h : frame E waypoints dt s = some s') :
    ∃ s1 enemies2 fired, spawnStep E waypoints dt s = some s1 ∧
      moveEnemies E waypoints dt s1.enemies = some enemies2 ∧
      s'.enemies = (turretsLoop E dt s1.turrets enemies2 s1.bullets).2.1 ∧
      (turretsLoop E dt s1.turrets enemies2 s1.bullets).2.2 = s.bullets ++ fired ∧
      (∀ b ∈ fired, b.time = E.lit 0 ∧ b.enabled = true) ∧
      s'.bullets = bulletsStep E dt s'.enemyPosition (s.bullets ++ fired) ∧
      s'.enemyCount = s1.enemyCount := by
  unfold frame at h
  split at h
  · cases h
  · next s1 hs1 =>
    split at h
    · cases h
    · next enemies2 hmove =>
      simp only at h
      split at h
      · cases h
      · next s4 hs4 =>
        cases h
        obtain ⟨he, _, hb, _, hc⟩ := tracerStep_some E waypoints dt _ s4 hs4
        obtain ⟨_, _, fired, hf, hfired⟩ := turretsLoop_spec E dt s1.turrets enemies2 s1.bullets
        have hsb := (spawnStep_some E waypoints dt s s1 hs1).2.2.1
        have hf2 : (turretsLoop E dt s1.turrets enemies2 s1.bullets).2.2 = s.bullets ++ fired := by
          rw [hf, hsb]
        refine ⟨s1, enemies2, fired, hs1, hmove, ?_, hf2, hfired, ?_, ?_⟩
        · simp only [he, turretsStep]
        · simp only [hb, turretsStep]
          rw [hf2]
        · simp only [hc, turretsStep]

/-- Enemies across a frame that returns: every enemy present before is still
there, at the same index, as the result of its movement followed by hits; at
most one enemy is added. -/
theorem frame_enemies (waypoints : List Cell) (dt : R) (s s' : GameState R)
    (h : frame E waypoints dt s = some s') :
    (s'.enemies.length = s.enemies.length ∨ s'.enemies.length = s.enemies.length + 1) ∧
      Pointwise (fun e e' => ∃ e1, moveEnemy E waypoints dt e = some e1 ∧ Damaged E e1 e')
        s.enemies s'.enemies := by
  obtain ⟨s1, enemies2, fired, hs1, hmove, he, _, _, _, _⟩ := frame_some E waypoints dt s s' h
  obtain ⟨hl2, hp2⟩ := moveEnemies_some E waypoints dt _ _ hmove
  obtain ⟨hl3, hp3, _⟩ := turretsLoop_spec E dt s1.turrets enemies2 s1.bullets
  have hcomp := Pointwise.comp hp2 hp3
  rw [← he] at hl3 hcomp
  rcases (spawnStep_some E waypoints dt s s1 hs1).1 with ⟨h1, _⟩ | ⟨w, _, _, _, h1, _⟩
  · rw [h1] at hl2 hcomp
    exact ⟨Or.inl (by omega), hcomp⟩
  · rw [h1] at hl2 hcomp
    refine ⟨Or.inr (by rw [hl3, hl2]; simp), ?_⟩
    intro i e hi
    have hi' : i < s.enemies.length := (List.getElem?_eq_some.1 hi).1
    exact hcomp i e (by rw [List.getElem?_append_left hi']; exact hi)

omit [LinearOrder R] in
theorem newEnemy_ok (waypoints : List Cell) (w : Cell) (hlen : 2 ≤ waypoints.length) :
    EnemyOK waypoints (newEnemy E w) := by
  intro _
  show (0 : Int) ≤ 0 ∧ (0 : Int) + 2 ≤ (waypoints.length : Int)
  omega

/-- A frame from a state satisfying the invariant returns, and the invariant
holds again. -/
theorem frame_ok (waypoints : List Cell) (hlen : 2 ≤ waypoints.length) (dt : R)
    (s : GameState R) (hinv : GameInv waypoints s) :
    ∃ s', frame E waypoints dt s = some s' ∧ GameInv waypoints s' := by
  obtain ⟨s1, hs1⟩ := spawnStep_ok E waypoints dt s (by omega)
  obtain ⟨hsp, hst, hsb, hsc, hsn, hsa, hse⟩ := spawnStep_some E waypoints dt s s1 hs1
  have hok1 : ∀ e ∈ s1.enemies, EnemyOK waypoints e := by
    rcases hsp with ⟨h1, _⟩ | ⟨w, _, _, _, h1, _⟩
    · rw [h1]; exact hinv.enemies_ok
    · rw [h1]
      intro e he
      rcases List.mem_append.1 he with he | he
      · exact hinv.enemies_ok e he
      · simp only [List.mem_singleton] at he
        subst he
        exact newEnemy_ok E waypoints w hlen
  have hcount1 : (s1.enemies.length : Int) = s1.enemyCount ∧ s1.enemyCount ≤ maxEnemies := by
    rcases hsp with ⟨h1, h2⟩ | ⟨w, _, hlt, _, h1, h2⟩
    · rw [h1, h2]; exact ⟨hinv.count_eq, hinv.count_le⟩
    · rw [h1, h2]
      have := hinv.count_eq
      simp only [List.length_append, List.length_singleton, Nat.cast_add, Nat.cast_one]
      omega
  obtain ⟨enemies2, hmove, hok2⟩ := moveEnemies_ok E waypoints dt s1.enemies hok1
  obtain ⟨hl2, _⟩ := moveEnemies_some E waypoints dt _ _ hmove
  obtain ⟨hl3, hp3, _⟩ := turretsLoop_spec E dt s1.turrets enemies2 s1.bullets
  have hok3 : ∀ e ∈ (turretsLoop E dt s1.turrets enemies2 s1.bullets).2.1,
      EnemyOK waypoints e :=
    hp3.forall_of hl3 hok2 (fun a b hab ha => Damaged.ok E hab ha)
  obtain ⟨s4, hs4, hn4, hok4, he4, _, _, _, hc4⟩ := tracerStep_ok E waypoints dt
    (turretsStep E dt { s1 with enemies := enemies2 })
    (by simp only [turretsStep, hsn, hsc]; exact hinv.tracer_next)
    (by simp only [turretsStep, hsn, hsa]; exact hinv.tracer_ok)
  refine ⟨{ s4 with bullets := bulletsStep E dt s4.enemyPosition s4.bullets }, ?_, ?_⟩
  · simp only [frame, hs1, hmove, hs4]
  · constructor
    · simp only [he4, turretsStep]; exact hok3
    · exact hn4
    · exact hok4
    · simp only [he4, hc4, turretsStep]
      rw [hl3, hl2]; exact hcount1.1
    · simp only [hc4, turretsStep]; exact hcount1.2

omit [LinearOrder R] in
theorem initState_ok (tiles : Grid) (waypoints : List Cell) (hlen : 2 ≤ waypoints.length) :
    ∃ s, initState E tiles waypoints = some s ∧ GameInv waypoints s := by
  obtain ⟨w, hw⟩ : ∃ w, waypoints[0]? = some w :=
    ⟨_, List.getElem?_eq_getElem (by omega)⟩
  have h0 : initState E tiles waypoints = some
      { enemies := [], turrets := makeTurrets E tiles, bullets := [], spawnTimer := E.lit 0,
        enemyCount := 0, curr := 0, next := 0 + 1, atEnd := false,
        enemyPosition := TileCenter E w.row w.col } := by
    simp only [initState, hw]
  refine ⟨_, h0, ?_⟩
  constructor
  · intro e he; simp at he
  · rfl
  · intro _; show 0 + 1 < waypoints.length; omega
  · rfl
  · show (0 : Int) ≤ 10; omega

theorem runFrames_ok (waypoints : List Cell) (hlen : 2 ≤ waypoints.length) :
    ∀ (dts : List R) (s : GameState R), GameInv waypoints s →
      ∃ s', runFrames E waypoints dts s = some s' ∧ GameInv waypoints s' := by
  intro dts
  induction dts with
  | nil => intro s hs; exact ⟨s, rfl, hs⟩
  | cons dt dts ih =>
    intro s hs
    obtain ⟨s1, h1, hinv1⟩ := frame_ok E waypoints hlen dt s hs
    obtain ⟨s', h', hinv'⟩ := ih s1 hinv1
    exact ⟨s', by simp only [runFrames, h1, h'], hinv'⟩

/-- With at least two waypoints the game runs through any sequence of frames
without an out-of-range look-up, and the state reached satisfies the
invariant. -/
theorem runGame_ok (tiles : Grid) (waypoints : List Cell) (hlen : 2 ≤ waypoints.length)
    (dts : List R) :
    ∃ s, runGame E tiles waypoints dts = some s ∧ GameInv waypoints s := by
  obtain ⟨s0, h0, hinv0⟩ := initState_ok E tiles waypoints hlen
  obtain ⟨s, hs, hinv⟩ := runFrames_ok E waypoints hlen dts s0 hinv0
  exact ⟨s, by simp only [runGame, h0, hs], hinv⟩

end

section
variable {R : Type} [LinearOrder R] (E : Env R)

/-- What the bullet loop does to one bullet. -/
theorem updateBullet_spec (dt : R) (enemyPosition : Vector2 R) (bullet : Bullet R) :
    (updateBullet E dt enemyPosition bullet).time = E.add bullet.time dt ∧
      ((updateBullet E dt enemyPosition bullet).enabled = true ↔
        E.add bullet.time dt < bulletTime E ∧
          E.CheckCollisionCircles enemyPosition (enemyRadius E)
            (updateBullet E dt enemyPosition bullet).position (bulletRadius E) = false) := by
  refine ⟨rfl, ?_⟩
  simp only [updateBullet, Bool.and_eq_true, Bool.not_eq_true', decide_eq_false_iff_not,
    ge_iff_le, not_le]

end

theorem fillBody_measure_lt (tiles : Grid) (searchValue : Int) (s : FillState) (cell : Cell)
    (rest : List Cell) (heq : s.open_ = cell :: rest)
    (hb : InBounds cell TILE_COUNT TILE_COUNT = true) :
    Prod.Lex (fun a b => a < b) (fun a b => a < b)
      (fillMeasure (fillBody tiles searchValue s cell rest)) (fillMeasure s) := by
  simp only [fillMeasure, fillBody]
  by_cases hc : s.closed.at cell = true
  · rw [Arr2.set_true_of_at _ _ hc, staleCount_pushNeighbours, heq]
    apply Prod.Lex.right
    simp [staleCount, hc]
  · apply Prod.Lex.left
    exact unclosedCount_set_lt _ _ hb (by simpa using hc)

theorem fillLoop_fuel_exists (tiles : Grid) (searchValue : Int) (s r : FillState)
    (h : fillLoop tiles searchValue s = some r) :
    ∃ fuel, fillLoopFuel tiles searchValue fuel s = some r := by
  induction s using fillLoop.induct tiles searchValue with
  | case1 s hnil =>
    rw [fillLoop_nil _ _ _ hnil] at h
    exact ⟨1, by simp only [fillLoopFuel, hnil]; exact h⟩
  | case2 s cell rest heq hb ih =>
    rw [fillLoop_cons _ _ _ cell rest heq hb] at h
    obtain ⟨fuel, hf⟩ := ih h
    exact ⟨fuel + 1, by simp only [fillLoopFuel, heq, hb, if_true]; exact hf⟩
  | case3 s cell rest heq hb =>
    rw [fillLoop] at h
    split at h
    · next h2 => rw [heq] at h2; cases h2
    · next c2 r2 h2 =>
      rw [heq] at h2; cases h2
      simp only [hb, dif_neg, not_false_eq_true] at h
      cases h

theorem foldl_append_if {α β : Type} (p : β → Prop) [DecidablePred p] (f : β → α) (l : List β)
    (init : List α) :
    l.foldl (fun acc x => if p x then acc ++ [f x] else acc) init
      = init ++ (l.filter (fun x => decide (p x))).map f := by
  induction l generalizing init with
  | nil => simp
  | cons x l ih =>
    simp only [List.foldl_cons, ih, List.filter_cons]
    by_cases h : p x <;> simp [h]

section
variable {R : Type} (E : Env R)

theorem makeTurrets_rows (tiles : Grid) (cols : List Nat) (rows : List Nat)
    (init : List (Turret R)) :
    rows.foldl
        (fun turrets row =>
          cols.foldl
            (fun turrets col =>
              if tiles row col = TURRET then turrets ++ [newTurret E row col] else turrets)
            turrets)
        init
      = init ++ ((rows.flatMap (fun r => cols.map (fun c => (r, c)))).filter
          (fun p => decide (tiles p.1 p.2 = TURRET))).map
            (fun p => newTurret E (p.1 : Int) (p.2 : Int)) := by
  induction rows generalizing init with
  | nil => simp
  | cons r rows ih =>
    simp only [List.foldl_cons, List.flatMap_cons, List.filter_append, List.map_append]
    rw [ih]
    rw [foldl_append_if (fun col => tiles r col = TURRET) (fun col => newTurret E (r : Int) (col : Int))]
    simp only [List.append_assoc, List.filter_map, List.map_map]
    rfl

theorem allIndices_sorted :
    allIndices.Pairwise (fun p q => p.1 < q.1 ∨ (p.1 = q.1 ∧ p.2 < q.2)) := by
  unfold allIndices
  rw [List.pairwise_flatMap]
  constructor
  · intro r _
    rw [List.pairwise_map]
    exact (List.pairwise_lt_range 20).imp (fun h => Or.inr ⟨rfl, h⟩)
  · refine (List.pairwise_lt_range 20).imp ?_
    intro a b hab x hx y hy
    simp only [List.mem_map] at hx hy
    obtain ⟨_, _, rfl⟩ := hx
    obtain ⟨_, _, rfl⟩ := hy
    exact Or.inl hab

theorem turretCells_builtin :
    turretCells tiles
      = [(7, 1), (9, 12), (10, 5), (13, 18), (15, 3), (15, 14), (17, 7), (19, 16)] := by
  decide!

end

theorem exactEnv_exact : ExactArith exactEnv :=
  ⟨fun _ _ => rfl, fun _ _ => rfl, fun _ _ => rfl, fun _ _ => rfl, fun _ => rfl⟩

theorem TILE_SIZE_exact (E : Env ℚ) (hE : ExactArith E) : TILE_SIZE E = 40 := by
  simp only [TILE_SIZE, SCREEN_SIZE, hE.div, hE.lit, TILE_COUNT]
  norm_num

theorem TileCenter_exact (E : Env ℚ) (hE : ExactArith E) (row col : Int) :
    TileCenter E row col = ⟨col * 40 + 20, row * 40 + 20⟩ := by
  simp only [TileCenter, TILE_SIZE_exact E hE, hE.add, hE.mul, hE.lit]
  norm_num

theorem TileCorner_exact (E : Env ℚ) (hE : ExactArith E) (row col : Int) :
    TileCorner E row col = ⟨col * 40, row * 40⟩ := by
  simp only [TileCorner, TILE_SIZE_exact E hE, hE.mul, hE.lit]

/-- The value of `log2Fuel` is below every exponent whose power of two exceeds `n`. -/
theorem log2Fuel_lt (fuel : Nat) : ∀ n j : Nat, 0 < j → n < 2 ^ j → log2Fuel fuel n < j := by
  induction fuel with
  | zero => intro n j hj _; simpa [log2Fuel] using hj
  | succ f ih =>
    intro n j hj h
    unfold log2Fuel
    split
    · rename_i h2
      obtain ⟨j, rfl⟩ : ∃ i, j = i + 1 := ⟨j - 1, by omega⟩
      have hj1 : 0 < j := by
        rcases Nat.eq_zero_or_pos j with h0 | h0
        · subst h0; simp at h; omega
        · exact h0
      have : n / 2 < 2 ^ j := by
        rw [pow_succ] at h
        omega
      have := ih (n / 2) j hj1 this
      omega
    · exact hj

theorem pow2_eq (e : Int) : pow2 e = (2 : ℚ) ^ e := by
  unfold pow2
  split
  · rename_i h
    obtain ⟨n, rfl⟩ := Int.eq_ofNat_of_zero_le h
    simp
  · rename_i h
    obtain ⟨n, hn⟩ := Int.eq_ofNat_of_zero_le (show 0 ≤ -e by omega)
    have he : e = -(n : Int) := by omega
    subst he
    simp

theorem roundHalfEven_intCast (n : Int) : roundHalfEven (n : ℚ) = n := by
  have hf : Rat.floor (n : ℚ) = n := Int.floor_intCast (α := ℚ) n
  simp only [roundHalfEven, hf, sub_self]
  norm_num

/-- A value `m * 2 ^ k` with `|m| < 2 ^ 24` is a binary32 value: rounding
leaves it as it is. -/
theorem roundF32_exact (m : Int) (k : Nat) (hm : |m| < 2 ^ 24) :
    roundF32 ((m : ℚ) * 2 ^ k) = (m : ℚ) * 2 ^ k := by
  by_cases h0 : m = 0
  · subst h0; simp [roundF32]
  have hq : (m : ℚ) * 2 ^ k ≠ 0 := by
    have : (m : ℚ) ≠ 0 := by exact_mod_cast h0
    positivity
  have habs : |(m : ℚ) * 2 ^ k| = ((m.natAbs * 2 ^ k : Nat) : ℚ) := by
    rw [abs_mul, abs_of_pos (by positivity : (0 : ℚ) < 2 ^ k)]
    push_cast
    rw [Nat.cast_natAbs]
    push_cast
    rfl
  have hmn : m.natAbs < 2 ^ 24 := by
    have := Int.natCast_natAbs m
    have h24 : ((2 : Int) ^ 24) = 16777216 := by norm_num
    rw [h24] at hm
    have h24n : ((2 : Nat) ^ 24) = 16777216 := by norm_num
    rw [h24n]
    omega
  have hN1 : 1 ≤ m.natAbs * 2 ^ k := by
    have : 1 ≤ m.natAbs := by omega
    exact Nat.one_le_iff_ne_zero.mpr (by positivity)
  have hfl : Rat.floor (((m.natAbs * 2 ^ k : Nat) : ℚ)) = ((m.natAbs * 2 ^ k : Nat) : Int) :=
    Int.floor_natCast (α := ℚ) _
  have hL : floorLog2 ((m : ℚ) * 2 ^ k) < 24 + k := by
    unfold floorLog2
    rw [habs, if_pos (by exact_mod_cast hN1), hfl, Int.toNat_natCast]
    have : m.natAbs * 2 ^ k < 2 ^ (24 + k) := by
      rw [pow_add]
      exact Nat.mul_lt_mul_of_lt_of_le hmn le_rfl (by positivity)
    exact_mod_cast log2Fuel_lt _ _ (24 + k) (by omega) this
  unfold roundF32
  rw [if_neg hq]
  simp only []
  generalize floorLog2 ((m : ℚ) * 2 ^ k) = L at hL
  obtain ⟨d, hd⟩ : ∃ d : Nat, (k : Int) = max (L - 23) (-149) + d :=
    ⟨((k : Int) - max (L - 23) (-149)).toNat, by omega⟩
  generalize max (L - 23) (-149) = e at hd
  rw [pow2_eq]
  have h2 : (2 : ℚ) ^ k = 2 ^ e * 2 ^ d := by
    rw [← zpow_natCast, hd, zpow_add₀ (by norm_num), zpow_natCast]
  have hdiv : (m : ℚ) * 2 ^ k / 2 ^ e = ((m * 2 ^ d : Int) : ℚ) := by
    rw [h2]
    push_cast
    field_simp
    ring
  rw [hdiv, roundHalfEven_intCast, h2]
  push_cast
  ring

/-- For `|n| ≤ 1677721` the values `n`, `n * 40` and `n * 40 + 20` are binary32
values (`10 * n + 5` has fewer than 24 bits). -/
theorem roundF32_tile (n : Int) (hn : |n| ≤ 1677721) :
    roundF32 (n : ℚ) = n ∧ roundF32 ((n : ℚ) * 40) = (n : ℚ) * 40 ∧
      roundF32 ((n : ℚ) * 40 + 20) = (n : ℚ) * 40 + 20 := by
  have hb := abs_le.mp hn
  refine ⟨?_, ?_, ?_⟩
  · have h := roundF32_exact n 0 (abs_lt.mpr ⟨by norm_num; omega, by norm_num; omega⟩)
    simpa using h
  · have h := roundF32_exact (10 * n) 2 (abs_lt.mpr ⟨by norm_num; omega, by norm_num; omega⟩)
    have e : (((10 * n : Int) : ℚ)) * 2 ^ 2 = (n : ℚ) * 40 := by push_cast; ring
    rwa [e] at h
  · have h := roundF32_exact (10 * n + 5) 2 (abs_lt.mpr ⟨by norm_num; omega, by norm_num; omega⟩)
    have e : (((10 * n + 5 : Int) : ℚ)) * 2 ^ 2 = (n : ℚ) * 40 + 20 := by push_cast; ring
    rwa [e] at h

theorem TILE_SIZE_f32 : TILE_SIZE f32Env = 40 := by decide!

theorem half_tile_f32 : f32Env.mul 40 (f32Env.lit 0.5) = 20 := by decide!

theorem TileCorner_f32 (row col : Int) (hrow : |row| ≤ 1677721) (hcol : |col| ≤ 1677721) :
    TileCorner f32Env row col = ⟨col * 40, row * 40⟩ := by
  obtain ⟨hr1, hr2, -⟩ := roundF32_tile row hrow
  obtain ⟨hc1, hc2, -⟩ := roundF32_tile col hcol
  simp only [TileCorner, TILE_SIZE_f32]
  show (⟨roundF32 (roundF32 (col : ℚ) * 40), roundF32 (roundF32 (row : ℚ) * 40)⟩ : Vector2 ℚ) = _
  rw [hr1, hr2, hc1, hc2]

theorem TileCenter_f32 (row col : Int) (hrow : |row| ≤ 1677721) (hcol : |col| ≤ 1677721) :
    TileCenter f32Env row col = ⟨col * 40 + 20, row * 40 + 20⟩ := by
  obtain ⟨hr1, hr2, hr3⟩ := roundF32_tile row hrow
  obtain ⟨hc1, hc2, hc3⟩ := roundF32_tile col hcol
  simp only [TileCenter, TILE_SIZE_f32, half_tile_f32]
  show (⟨roundF32 (roundF32 (roundF32 (col : ℚ) * 40) + 20),
    roundF32 (roundF32 (roundF32 (row : ℚ) * 40) + 20)⟩ : Vector2 ℚ) = _
  rw [hr1, hr2, hr3, hc1, hc2, hc3]

section
variable {R : Type} (E : Env R)

/-- What the tracer block returns, when it returns: at the end nothing
changes; otherwise both look-ups succeeded and either the tracer only moved,
or `curr` and `next` went up by one, `atEnd` was set by comparing the new
`next` with the number of waypoints, and the tracer was put on
`waypoints[curr]`. -/
theorem tracerStep_cases (waypoints : List Cell) (dt : R) (s s' : GameState R)
    (h : tracerStep E waypoints dt s = some s') :
    (s.atEnd = true ∧ s' = s) ∨
      (s.atEnd = false ∧ (∃ w, waypoints[s.curr]? = some w) ∧
        (∃ w, waypoints[s.next]? = some w) ∧
        ((s'.curr = s.curr ∧ s'.next = s.next ∧ s'.atEnd = false) ∨
          (s'.curr = s.curr + 1 ∧ s'.next = s.next + 1 ∧
            s'.atEnd = decide (s.next + 1 = waypoints.length) ∧
            ∃ w, waypoints[s.curr + 1]? = some w ∧
              s'.enemyPosition = TileCenter E w.row w.col))) := by
  unfold tracerStep at h
  cases hat : s.atEnd with
  | true =>
    simp only [hat, Bool.not_true, Bool.false_eq_true, if_false, Option.some.injEq] at h
    exact Or.inl ⟨rfl, h.symm⟩
  | false =>
    right
    simp only [hat, Bool.not_false, if_true] at h
    split at h
    · next wc wn hwc hwn =>
      refine ⟨rfl, ⟨wc, hwc⟩, ⟨wn, hwn⟩, ?_⟩
      split at h
      · split at h
        · cases h
        · next w hw =>
          cases h
          exact Or.inr ⟨rfl, rfl, rfl, w, hw, rfl⟩
      · cases h
        exact Or.inl ⟨rfl, rfl, rfl⟩
    · cases h

theorem tracerStep_inv (waypoints : List Cell) (dt : R) (s s' : GameState R)
    (h : tracerStep E waypoints dt s = some s') (hinv : TracerInv waypoints s) :
    TracerInv waypoints s' := by
  rcases tracerStep_cases E waypoints dt s s' h with ⟨_, rfl⟩ | ⟨hat, _, ⟨w, hw⟩, hc⟩
  · exact hinv
  · have hlt : s.next < waypoints.length := (List.getElem?_eq_some.1 hw).1
    rcases hc with ⟨h1, h2, h3⟩ | ⟨h1, h2, h3, _⟩
    · refine ⟨by rw [h1, h2]; exact hinv.next_eq, by rw [h2]; exact hinv.next_le, ?_⟩
      rw [h2, h3]
      constructor
      · intro h; cases h
      · intro h; omega
    · refine ⟨by rw [h1, h2, hinv.next_eq], by rw [h2]; omega, ?_⟩
      rw [h2, h3]
      simp

end

section
variable {R : Type} [LinearOrder R] (E : Env R)

/-- The tracer across a frame that returns: the tracer block runs on a state
with the tracer variables of the start of the frame, and its result gives the
tracer variables of the end of the frame. -/
theorem frame_tracer (waypoints : List Cell) (dt : R) (s s' : GameState R)
    (h : frame E waypoints dt s = some s') :
    ∃ s3 s4, tracerStep E waypoints dt s3 = some s4 ∧
      s3.curr = s.curr ∧ s3.next = s.next ∧ s3.atEnd = s.atEnd ∧
      s3.enemyPosition = s.enemyPosition ∧
      s'.curr = s4.curr ∧ s'.next = s4.next ∧ s'.atEnd = s4.atEnd ∧
      s'.enemyPosition = s4.enemyPosition := by
  unfold frame at h
  split at h
  · cases h
  · next s1 hs1 =>
    split at h
    · cases h
    · next enemies2 hmove =>
      simp only at h
      split at h
      · cases h
      · next s4 hs4 =>
        cases h
        obtain ⟨_, _, _, hc, hn, ha, hp⟩ := spawnStep_some E waypoints dt s s1 hs1
        exact ⟨_, s4, hs4, by simp only [turretsStep, hc], by simp only [turretsStep, hn],
          by simp only [turretsStep, ha], by simp only [turretsStep, hp], rfl, rfl, rfl, rfl⟩

theorem frame_tracerInv (waypoints : List Cell) (dt : R) (s s' : GameState R)
    (hinv : TracerInv waypoints s) (h : frame E waypoints dt s = some s') :
    TracerInv waypoints s' := by
  obtain ⟨s3, s4, hs4, hc, hn, ha, _, hc', hn', ha', _⟩ := frame_tracer E waypoints dt s s' h
  have h3 : TracerInv waypoints s3 :=
    ⟨by rw [hc, hn]; exact hinv.next_eq, by rw [hn]; exact hinv.next_le,
      by rw [hn, ha]; exact hinv.atEnd_iff⟩
  have h4 := tracerStep_inv E waypoints dt s3 s4 hs4 h3
  exact ⟨by rw [hc', hn']; exact h4.next_eq, by rw [hn']; exact h4.next_le,
    by rw [hn', ha']; exact h4.atEnd_iff⟩

/-- A property of the state kept by every frame that returns holds after any
run of frames that returns. -/
theorem runFrames_preserves (waypoints : List Cell) (P : GameState R → Prop)
    (hP : ∀ dt s s', P s → frame E waypoints dt s = some s' → P s') :
    ∀ (dts : List R) (s s' : GameState R), runFrames E waypoints dts s = some s' → P s → P s' := by
  intro dts
  induction dts with
  | nil =>
    intro s s' h hs
    simp only [runFrames, Option.some.injEq] at h
    exact h ▸ hs
  | cons dt dts ih =>
    intro s s' h hs
    simp only [runFrames] at h
    split at h
    · cases h
    · next s1 h1 => exact ih s1 s' h (hP dt s s1 hs h1)

theorem runGame_preserves (tiles : Grid) (waypoints : List Cell) (P : GameState R → Prop)
    (hinit : ∀ s, initState E tiles waypoints = some s → P s)
    (hP : ∀ dt s s', P s → frame E waypoints dt s = some s' → P s')
    (dts : List R) (s : GameState R) (h : runGame E tiles waypoints dts = some s) : P s := by
  simp only [runGame] at h
  split at h
  · cases h
  · next s0 h0 => exact runFrames_preserves E waypoints P hP dts s0 s h (hinit s0 h0)

omit [LinearOrder R] in
theorem initState_tracerInv (tiles : Grid) (waypoints : List Cell)
    (hlen : 2 ≤ waypoints.length) (s : GameState R)
    (h : initState E tiles waypoints = some s) : TracerInv waypoints s := by
  simp only [initState] at h
  split at h
  · cases h
  · cases h
    exact ⟨rfl, by show 0 + 1 ≤ waypoints.length; omega,
      by show false = true ↔ 0 + 1 = waypoints.length; constructor <;> intro h <;> [cases h; omega]⟩

end

section
variable {R : Type} [LinearOrder R] (E : Env R)

/-- The turret loop body changes only the reload timer of the turret. -/
theorem turretStep_turret (dt : R) (turret : Turret R) (enemies : List (Enemy R))
    (bullets : List (Bullet R)) :
    (turretStep E dt turret enemies bullets).1
      = { turret with reloadTime := (turretStep E dt turret enemies bullets).1.reloadTime } := by
  by_cases h : (∃ i, findTarget E turret enemies = some i) ∧
      E.add turret.reloadTime dt ≥ turret.fireRate
  · obtain ⟨⟨i, hi⟩, hr⟩ := h
    obtain ⟨target, _, _, heq⟩ := turretStep_fire E dt turret enemies bullets i hi hr
    rw [heq]
  · have : turretStep E dt turret enemies bullets
        = ({ turret with reloadTime := E.add turret.reloadTime dt }, enemies, bullets) := by
      apply turretStep_hold
      by_cases hr : E.add turret.reloadTime dt ≥ turret.fireRate
      · left
        cases hf : findTarget E turret enemies with
        | none => rfl
        | some i => exact absurd ⟨⟨i, hf⟩, hr⟩ h
      · exact Or.inr hr
    rw [this]

/-- Across the turret loop, a property `T` of turrets that does not depend on
the reload timer is kept, and a property `Q` of enemies kept by every hit of
a turret with `T` is kept. -/
theorem turretsLoop_forall (dt : R) (T : Turret R → Prop) (Q : Enemy R → Prop)
    (hT : ∀ (t : Turret R) (x : R), T t → T { t with reloadTime := x })
    (hQ : ∀ (t : Turret R) (e : Enemy R), T t → e.active = true → Q e →
      Q (damageEnemy E t e)) :
    ∀ (turrets : List (Turret R)) (enemies : List (Enemy R)) (bullets : List (Bullet R)),
      (∀ t ∈ turrets, T t) → (∀ e ∈ enemies, Q e) →
      (∀ t ∈ (turretsLoop E dt turrets enemies bullets).1, T t) ∧
        ∀ e ∈ (turretsLoop E dt turrets enemies bullets).2.1, Q e := by
  intro turrets
  induction turrets with
  | nil =>
    intro enemies bullets _ hes
    exact ⟨by simp [turretsLoop], hes⟩
  | cons t rest ih =>
    intro enemies bullets hts hes
    have ht := hts t (List.mem_cons_self _ _)
    have hrest : ∀ t' ∈ rest, T t' := fun t' h => hts t' (List.mem_cons_of_mem _ h)
    have hes1 : ∀ e ∈ (turretStep E dt t enemies bullets).2.1, Q e := by
      rcases turretStep_cases E dt t enemies bullets with h | ⟨i, target, hi, ha, h⟩
      · have : (turretStep E dt t enemies bullets).2.1 = enemies := by rw [h]
        rw [this]; exact hes
      · have : (turretStep E dt t enemies bullets).2.1
            = enemies.set i (damageEnemy E t target) := by rw [h]
        rw [this]
        intro e he
        rcases List.mem_or_eq_of_mem_set he with he | rfl
        · exact hes e he
        · exact hQ t target ht ha (hes target (List.getElem?_mem hi))
    obtain ⟨ih1, ih2⟩ := ih (turretStep E dt t enemies bullets).2.1
      (turretStep E dt t enemies bullets).2.2 hrest hes1
    simp only [turretsLoop]
    refine ⟨?_, ih2⟩
    intro t' ht'
    rcases List.mem_cons.1 ht' with rfl | h
    · rw [turretStep_turret]
      exact hT t _ ht
    · exact ih1 t' h

/-- The turrets and enemies of the end of a frame that returns, from the
spawn block, the movement loop and the turret loop. -/
theorem frame_turrets (waypoints : List Cell) (dt : R) (s s' : GameState R)
    (h : frame E waypoints dt s = some s') :
    ∃ s1 enemies2, spawnStep E waypoints dt s = some s1 ∧
      moveEnemies E waypoints dt s1.enemies = some enemies2 ∧
      s'.turrets = (turretsLoop E dt s.turrets enemies2 s1.bullets).1 ∧
      s'.enemies = (turretsLoop E dt s.turrets enemies2 s1.bullets).2.1 := by
  unfold frame at h
  split at h
  · cases h
  · next s1 hs1 =>
    split at h
    · cases h
    · next enemies2 hmove =>
      simp only at h
      split at h
      · cases h
      · next s4 hs4 =>
        cases h
        obtain ⟨he, ht, _, _, _⟩ := tracerStep_some E waypoints dt _ s4 hs4
        have hst := (spawnStep_some E waypoints dt s s1 hs1).2.1
        refine ⟨s1, enemies2, hs1, hmove, ?_, ?_⟩
        · simp only [ht, turretsStep, hst]
        · simp only [he, turretsStep, hst]

end

section
variable {R : Type} (E : Env R)

/-- The turrets built at load: one `newTurret` per cell of `turretCells`, in
that order. -/
theorem makeTurrets_map (grid : Grid) :
    makeTurrets E grid
      = (turretCells grid).map (fun p => newTurret E (p.1 : Int) (p.2 : Int)) := by
  have := makeTurrets_rows E grid (List.range 20) (List.range 20) []
  simpa [makeTurrets, turretCells, allIndices] using this

end

section
variable (E : Env ℚ)

theorem HealthOK.bounds {enemy : Enemy ℚ} (h : HealthOK enemy) :
    0 ≤ enemy.health ∧ enemy.health ≤ 150 ∧ (enemy.active = true → 0 < enemy.health) := by
  obtain ⟨k, hk, hh, ha⟩ := h
  have hk' : (k : ℚ) ≤ 10 := by exact_mod_cast hk
  have hk0 : (0 : ℚ) ≤ k := by exact_mod_cast Nat.zero_le k
  refine ⟨by rw [hh]; linarith, by rw [hh]; linarith, ?_⟩
  intro hact
  have : (k : ℚ) + 1 ≤ 10 := by exact_mod_cast ha hact
  rw [hh]; linarith

theorem damageEnemy_healthOK (hE : ExactArith E) (turret : Turret ℚ) (enemy : Enemy ℚ)
    (ht : turret.damage = 15) (ha : enemy.active = true) (h : HealthOK enemy) :
    HealthOK (damageEnemy E turret enemy) := by
  obtain ⟨k, _, hh, hact⟩ := h
  have hk := hact ha
  refine ⟨k + 1, by omega, ?_, ?_⟩
  · simp only [damageEnemy, hE.sub, ht, hh]
    push_cast; ring
  · simp only [damageEnemy, hE.sub, hE.lit, ht, hh, ha]
    intro hact'
    by_contra hcon
    have hk10 : k + 1 = 10 := by omega
    have : (k : ℚ) = 9 := by
      have : ((k + 1 : Nat) : ℚ) = 10 := by exact_mod_cast hk10
      push_cast at this; linarith
    rw [this] at hact'
    norm_num at hact'

theorem newEnemy_healthOK (hE : ExactArith E) (w : Cell) : HealthOK (newEnemy E w) :=
  ⟨0, by omega, by simp only [newEnemy, hE.lit]; norm_num, fun _ => by omega⟩

theorem moveEnemy_healthOK (waypoints : List Cell) (dt : ℚ) (enemy enemy' : Enemy ℚ)
    (h : moveEnemy E waypoints dt enemy = some enemy') (hok : HealthOK enemy) :
    HealthOK enemy' := by
  obtain ⟨_, _, hact, hh, _⟩ := moveEnemy_some E waypoints dt enemy enemy' h
  obtain ⟨k, hk, hhk, ha⟩ := hok
  exact ⟨k, hk, by rw [hh, hhk], fun h' => ha (hact h')⟩

/-- Every frame that returns keeps: all turrets have damage 15 and every
enemy satisfies `HealthOK`. -/
theorem frame_healthOK (hE : ExactArith E) (waypoints : List Cell) (dt : ℚ)
    (s s' : GameState ℚ)
    (hinv : (∀ t ∈ s.turrets, t.damage = 15) ∧ ∀ e ∈ s.enemies, HealthOK e)
    (h : frame E waypoints dt s = some s') :
    (∀ t ∈ s'.turrets, t.damage = 15) ∧ ∀ e ∈ s'.enemies, HealthOK e := by
  obtain ⟨s1, enemies2, hs1, hmove, ht, he⟩ := frame_turrets E waypoints dt s s' h
  have h1 : ∀ e ∈ s1.enemies, HealthOK e := by
    rcases (spawnStep_some E waypoints dt s s1 hs1).1 with ⟨h1, _⟩ | ⟨w, _, _, _, h1, _⟩
    · rw [h1]; exact hinv.2
    · rw [h1]
      intro e hmem
      rcases List.mem_append.1 hmem with hmem | hmem
      · exact hinv.2 e hmem
      · simp only [List.mem_singleton] at hmem
        subst hmem
        exact newEnemy_healthOK E hE w
  obtain ⟨hl2, hp2⟩ := moveEnemies_some E waypoints dt _ _ hmove
  have h2 : ∀ e ∈ enemies2, HealthOK e :=
    hp2.forall_of hl2 h1 (fun a b hab ha => moveEnemy_healthOK E waypoints dt a b hab ha)
  have h3 := turretsLoop_forall E dt (fun t => t.damage = 15) HealthOK
    (fun t x ht => ht)
    (fun t e ht ha hq => damageEnemy_healthOK E hE t e ht ha hq)
    s.turrets enemies2 s1.bullets hinv.1 h2
  rw [ht, he]
  exact h3

theorem initState_healthOK (hE : ExactArith E) (tiles : Grid) (waypoints : List Cell)
    (s : GameState ℚ) (h : initState E tiles waypoints = some s) :
    (∀ t ∈ s.turrets, t.damage = 15) ∧ ∀ e ∈ s.enemies, HealthOK e := by
  simp only [initState] at h
  split at h
  · cases h
  · cases h
    refine ⟨?_, by simp⟩
    intro t ht
    simp only [makeTurrets_map, List.mem_map] at ht
    obtain ⟨p, _, rfl⟩ := ht
    simp only [newTurret, hE.lit]

end

/-! ## The claims -/

set_option maxRecDepth 100000 in
/-- C1: on the built-in grid, `FloodFill` from `(0,12)` with `WAYPOINT` returns
exactly the eight waypoint cells `builtinWaypoints`.  The cells it pops are
`builtinPath`, a walk through 4-adjacent cells, and the result is the
waypoint cells of that walk in walking order; the result has no repetition,
contains every `WAYPOINT` tile of the grid and has length at least 2. -/
theorem FloodFill_builtin :
    FloodFill ⟨0, 12⟩ tiles WAYPOINT
        = some [⟨0, 12⟩, ⟨7, 12⟩, ⟨7, 3⟩, ⟨13, 3⟩, ⟨13, 16⟩, ⟨17, 16⟩, ⟨17, 9⟩, ⟨19, 9⟩]
      ∧ FloodFillTrace ⟨0, 12⟩ tiles WAYPOINT = some builtinPath
      ∧ builtinPath.Chain' (fun a b => adjacent4 a b = true)
      ∧ builtinWaypoints = builtinPath.filter (fun c => decide (tiles.at c = WAYPOINT))
      ∧ builtinWaypoints.Nodup
      ∧ (∀ r c : Fin 20, tiles r c = WAYPOINT ↔ (⟨r, c⟩ : Cell) ∈ builtinWaypoints)
      ∧ 2 ≤ builtinWaypoints.length := by
  have h := FloodFillState_of_fuel ⟨0, 12⟩ tiles WAYPOINT 100 builtinWaypoints builtinPath
    (by decide!)
  exact ⟨h.1, h.2, chain_of_isWalk _ (by decide!), by decide!, by decide!, by decide!,
    by decide!⟩

/-- C2: for every grid without negative tile values, every in-bounds start
cell and every search value, `FloodFill` returns a list, and a cell occurs in
it if and only if its tile equals the search value and some chain of
4-adjacent in-bounds cells, all of them except possibly `start` not `GRASS`,
joins `start` to it.  The start cell is popped, and it is not in the result
when its tile does not match. -/
theorem FloodFill_result_iff_joined (tiles : Grid) (start : Cell) (searchValue : Int)
    (hvalid : ∀ r c : Nat, r < 20 → c < 20 → 0 ≤ tiles r c)
    (hstart : InBounds start TILE_COUNT TILE_COUNT = true) :
    ∃ result trace, FloodFill start tiles searchValue = some result ∧
      FloodFillTrace start tiles searchValue = some trace ∧
      (∀ c, c ∈ result ↔ tiles.at c = searchValue ∧ ∃ chain, JoinedBy tiles start c chain) ∧
      start ∈ trace ∧ (tiles.at start ≠ searchValue → start ∉ result) := by
  obtain ⟨s, hs, hinv, hopen⟩ := FloodFillState_spec tiles searchValue start hstart
  have hres : ∀ c, c ∈ s.result ↔
      tiles.at c = searchValue ∧ ∃ chain, JoinedBy tiles start c chain := by
    intro c
    rw [hinv.result_eq, List.mem_filter, hinv.mem_trace_iff hopen,
      Reach_iff_joined tiles start c hvalid]
    simp [and_comm]
  refine ⟨s.result, s.trace, by simp [FloodFill, hs], by simp [FloodFillTrace, hs], hres, ?_, ?_⟩
  · exact (hinv.mem_trace_iff hopen start).2 Reach.start
  · intro hne hmem
    exact hne ((hres start).1 hmem).1

/-- Witness for C2: the built-in grid, start `(0,12)`, search value `WAYPOINT`. -/
theorem FloodFill_result_iff_joined_witness :
    (∀ r c : Nat, r < 20 → c < 20 → 0 ≤ tiles r c) ∧
      InBounds ⟨0, 12⟩ TILE_COUNT TILE_COUNT = true ∧
      ∃ result trace, FloodFill ⟨0, 12⟩ tiles WAYPOINT = some result ∧
        FloodFillTrace ⟨0, 12⟩ tiles WAYPOINT = some trace ∧
        (∀ c, c ∈ result ↔
          tiles.at c = WAYPOINT ∧ ∃ chain, JoinedBy tiles ⟨0, 12⟩ c chain) ∧
        (⟨0, 12⟩ : Cell) ∈ trace ∧ (tiles.at ⟨0, 12⟩ ≠ WAYPOINT → (⟨0, 12⟩ : Cell) ∉ result) :=
  ⟨tiles_nonneg, by decide!,
    FloodFill_result_iff_joined tiles ⟨0, 12⟩ WAYPOINT tiles_nonneg (by decide!)⟩

/-- C3: on a grid without negative tile values whose non-`GRASS` cells
reachable from `start` form a simple path `path` (see `IsSimplePath`) that
contains `start`, `FloodFill` returns a list; the cells of `path` are exactly
the cells joined to `start` by a chain as in C2; the cells popped are the
cells of `path`, each exactly once, and the result holds the `WAYPOINT` cells
of `path`, each exactly once. -/
theorem FloodFill_simple_path (tiles : Grid) (start : Cell) (path : List Cell)
    (hvalid : ∀ r c : Nat, r < 20 → c < 20 → 0 ≤ tiles r c)
    (hpath : IsSimplePath tiles path) (hstart : start ∈ path) :
    ∃ result trace, FloodFill start tiles WAYPOINT = some result ∧
      FloodFillTrace start tiles WAYPOINT = some trace ∧
      (∀ c, c ∈ path ↔ ∃ chain, JoinedBy tiles start c chain) ∧
      trace.Perm path ∧ (∀ c ∈ path, trace.count c = 1) ∧
      result.Perm (path.filter (fun c => decide (tiles.at c = WAYPOINT))) ∧
      (∀ c ∈ path, tiles.at c = WAYPOINT → result.count c = 1) := by
  obtain ⟨L, Rt, hsplit⟩ := List.append_of_mem hstart
  have hline := hpath.line hvalid
  rw [hsplit] at hline
  obtain ⟨s, hs, hperm, hres⟩ := FloodFillState_simple_path tiles start WAYPOINT L Rt hline
  rw [← hsplit] at hperm
  obtain ⟨s2, hs2, hinv, hopen⟩ :=
    FloodFillState_spec tiles WAYPOINT start (hpath.nonEmpty start hstart).1
  rw [hs] at hs2
  cases hs2
  have hperm2 : s.result.Perm (path.filter (fun c => decide (tiles.at c = WAYPOINT))) := by
    rw [hres]; exact hperm.filter _
  refine ⟨s.result, s.trace, by simp [FloodFill, hs], by simp [FloodFillTrace, hs], ?_, hperm, ?_,
    hperm2, ?_⟩
  · intro c
    rw [← hperm.mem_iff, hinv.mem_trace_iff hopen, Reach_iff_joined tiles start c hvalid]
  · intro c hc
    rw [hperm.count_eq]
    exact List.count_eq_one_of_mem hpath.nodup hc
  · intro c hc hw
    rw [hperm2.count_eq]
    exact List.count_eq_one_of_mem (hpath.nodup.filter _)
      (List.mem_filter.2 ⟨hc, by simpa using hw⟩)

/-- Witness for C3: the built-in grid with its path, from start `(0,12)`. -/
theorem FloodFill_simple_path_witness :
    (∀ r c : Nat, r < 20 → c < 20 → 0 ≤ tiles r c) ∧ IsSimplePath tiles builtinPath ∧
      (⟨0, 12⟩ : Cell) ∈ builtinPath ∧
      ∃ result trace, FloodFill ⟨0, 12⟩ tiles WAYPOINT = some result ∧
        FloodFillTrace ⟨0, 12⟩ tiles WAYPOINT = some trace ∧
        (∀ c, c ∈ builtinPath ↔ ∃ chain, JoinedBy tiles ⟨0, 12⟩ c chain) ∧
        trace.Perm builtinPath ∧ (∀ c ∈ builtinPath, trace.count c = 1) ∧
        result.Perm (builtinPath.filter (fun c => decide (tiles.at c = WAYPOINT))) ∧
        (∀ c ∈ builtinPath, tiles.at c = WAYPOINT → result.count c = 1) :=
  ⟨tiles_nonneg, builtinPath_simple, by decide!,
    FloodFill_simple_path tiles ⟨0, 12⟩ builtinPath tiles_nonneg builtinPath_simple
      (by decide!)⟩

/-- C4, evaluated on a grid whose only non-`GRASS` tiles are the 2x2 block of
`WAYPOINT` tiles at rows 0-1, columns 0-1: from `(0,0)` the cell `(1,0)` is
popped twice and occurs twice in the returned list. -/
theorem FloodFill_block_revisits :
    FloodFill ⟨0, 0⟩ (gridOfRows [[2, 2], [2, 2]]) WAYPOINT
        = some [⟨0, 0⟩, ⟨0, 1⟩, ⟨1, 1⟩, ⟨1, 0⟩, ⟨1, 0⟩]
      ∧ FloodFillTrace ⟨0, 0⟩ (gridOfRows [[2, 2], [2, 2]]) WAYPOINT
        = some [⟨0, 0⟩, ⟨0, 1⟩, ⟨1, 1⟩, ⟨1, 0⟩, ⟨1, 0⟩]
      ∧ ¬ ([⟨0, 0⟩, ⟨0, 1⟩, ⟨1, 1⟩, ⟨1, 0⟩, ⟨1, 0⟩] : List Cell).Nodup := by
  have h := FloodFillState_of_fuel ⟨0, 0⟩ (gridOfRows [[2, 2], [2, 2]]) WAYPOINT 10
    [⟨0, 0⟩, ⟨0, 1⟩, ⟨1, 1⟩, ⟨1, 0⟩, ⟨1, 0⟩] [⟨0, 0⟩, ⟨0, 1⟩, ⟨1, 1⟩, ⟨1, 0⟩, ⟨1, 0⟩] (by decide!)
  exact ⟨h.1, h.2, by decide!⟩

section
variable {R : Type} [LinearOrder R] (E : Env R)

/-- C5: with at least two waypoints, after any sequence of frames `dts` the
game is in a state `s` (no look-up was out of range) from which a further
frame with any `dt` leads to a state `s'`; every active enemy of `s` has
`0 <= currentWaypoint <= len(waypoints) - 2`, so `waypoints[currentWaypoint]`
and `waypoints[currentWaypoint + 1]` exist, and every enemy of `s` is in `s'`
at the same place in the list with a `currentWaypoint` that is not smaller. -/
theorem enemy_waypoint_index (tiles : Grid) (waypoints : List Cell)
    (hlen : 2 ≤ waypoints.length) (dts : List R) (dt : R) :
    ∃ s s', runGame E tiles waypoints dts = some s ∧ frame E waypoints dt s = some s' ∧
      (∀ e ∈ s.enemies, e.active = true →
        0 ≤ e.currentWaypoint ∧ e.currentWaypoint ≤ (waypoints.length : Int) - 2 ∧
          (∃ w, waypoints[toSizeT e.currentWaypoint]? = some w) ∧
          ∃ w, waypoints[toSizeT (e.currentWaypoint + 1)]? = some w) ∧
      Pointwise (fun e e' => e.currentWaypoint ≤ e'.currentWaypoint) s.enemies s'.enemies := by
  obtain ⟨s, hs, hinv⟩ := runGame_ok E tiles waypoints hlen dts
  obtain ⟨s', hs', _⟩ := frame_ok E waypoints hlen dt s hinv
  refine ⟨s, s', hs, hs', ?_, ?_⟩
  · intro e he ha
    obtain ⟨h0, h2⟩ := hinv.enemies_ok e he ha
    have hl1 := toSizeT_lt_length waypoints e.currentWaypoint h0 (by omega)
    have hl2 := toSizeT_lt_length waypoints (e.currentWaypoint + 1) (by omega) (by omega)
    exact ⟨h0, by omega, ⟨_, List.getElem?_eq_getElem hl1⟩, ⟨_, List.getElem?_eq_getElem hl2⟩⟩
  · refine (frame_enemies E waypoints dt s s' hs').2.mono ?_
    rintro a b ⟨e1, hmove, hdam⟩
    have h1 := (moveEnemy_some E waypoints dt a e1 hmove).1
    have h2 := (Damaged.spec E hdam).1
    omega

end

/-- Witness for C5: exact arithmetic, the built-in grid and waypoints, two
frames of one second and a third one. -/
theorem enemy_waypoint_index_witness :
    2 ≤ builtinWaypoints.length ∧
      ∃ s s', runGame exactEnv tiles builtinWaypoints [1, 1] = some s ∧
        frame exactEnv builtinWaypoints 1 s = some s' ∧
        (∀ e ∈ s.enemies, e.active = true →
          0 ≤ e.currentWaypoint ∧ e.currentWaypoint ≤ (builtinWaypoints.length : Int) - 2 ∧
            (∃ w, builtinWaypoints[toSizeT e.currentWaypoint]? = some w) ∧
            ∃ w, builtinWaypoints[toSizeT (e.currentWaypoint + 1)]? = some w) ∧
        Pointwise (fun e e' => e.currentWaypoint ≤ e'.currentWaypoint) s.enemies s'.enemies :=
  ⟨by decide, enemy_waypoint_index exactEnv tiles builtinWaypoints (by decide) [1, 1] 1⟩

section
variable {R : Type} [LinearOrder R] (E : Env R)

/-- C6: for a turret whose range is below `FLT_MAX` (every turret the game
builds has range 250) and every list of enemies, the targeting scan selects an
enemy if and only if some active enemy is at distance `<= range`; the enemy
selected is active, within range, not farther than any other active in-range
enemy, and has the least index among those at its distance. -/
theorem findTarget_nearest (turret : Turret R) (enemies : List (Enemy R))
    (hrange : turret.range < E.FLT_MAX) :
    ((∃ i, findTarget E turret enemies = some i) ↔
        ∃ (j : Nat) (e : Enemy R), enemies[j]? = some e ∧ InRange E turret e) ∧
      ∀ i, findTarget E turret enemies = some i →
        ∃ e, enemies[i]? = some e ∧ InRange E turret e ∧
          ∀ (j : Nat) (e' : Enemy R), enemies[j]? = some e' → InRange E turret e' →
            turretDistance E turret e ≤ turretDistance E turret e' ∧
              (turretDistance E turret e' = turretDistance E turret e → i ≤ j) := by
  refine ⟨⟨?_, ?_⟩, findTarget_some E turret enemies⟩
  · rintro ⟨i, hi⟩
    obtain ⟨e, he, hin, _⟩ := findTarget_some E turret enemies i hi
    exact ⟨i, e, he, hin⟩
  · rintro ⟨j, e, hj, hin⟩
    unfold findTarget
    rcases scanLoop_spec E turret enemies 0 (none, E.FLT_MAX) with ⟨_, hno⟩ | ⟨j', e', _, heq, _⟩
    · exact absurd (lt_of_le_of_lt hin.2 hrange) (hno j e hj hin)
    · exact ⟨0 + j', by rw [heq]⟩

end

/-- Witness for C6: a turret of the game on the tile `(7,1)`, exact
arithmetic, one enemy as spawned at `(0,12)`. -/
theorem findTarget_nearest_witness :
    (newTurret exactEnv 7 1).range < exactEnv.FLT_MAX ∧
      (((∃ i, findTarget exactEnv (newTurret exactEnv 7 1) [newEnemy exactEnv ⟨0, 12⟩] = some i) ↔
          ∃ (j : Nat) (e : Enemy ℚ), [newEnemy exactEnv ⟨0, 12⟩][j]? = some e ∧
            InRange exactEnv (newTurret exactEnv 7 1) e) ∧
        ∀ i, findTarget exactEnv (newTurret exactEnv 7 1) [newEnemy exactEnv ⟨0, 12⟩] = some i →
          ∃ e, [newEnemy exactEnv ⟨0, 12⟩][i]? = some e ∧
            InRange exactEnv (newTurret exactEnv 7 1) e ∧
            ∀ (j : Nat) (e' : Enemy ℚ), [newEnemy exactEnv ⟨0, 12⟩][j]? = some e' →
              InRange exactEnv (newTurret exactEnv 7 1) e' →
              turretDistance exactEnv (newTurret exactEnv 7 1) e
                  ≤ turretDistance exactEnv (newTurret exactEnv 7 1) e' ∧
                (turretDistance exactEnv (newTurret exactEnv 7 1) e'
                    = turretDistance exactEnv (newTurret exactEnv 7 1) e → i ≤ j)) :=
  ⟨by norm_num [newTurret, exactEnv],
    findTarget_nearest exactEnv (newTurret exactEnv 7 1) [newEnemy exactEnv ⟨0, 12⟩]
      (by norm_num [newTurret, exactEnv])⟩

section
variable {R : Type} [LinearOrder R] (E : Env R)

/-- C7: one pass of the turret loop body for a turret.  A bullet is added
(the turret fires) if and only if the scan found a target and the reload
timer plus `dt` is `>=` the fire rate.  When it fires, exactly one bullet is
appended, at the turret position, enabled, with time 0; the reload timer
becomes 0; the target, which was active, gets its health reduced by the
turret's damage and is inactive afterwards exactly when that health is
`<= 0`, its other fields staying as they were; every other enemy is
unchanged.  Otherwise bullets and enemies are unchanged and the reload timer
is the old one plus `dt`. -/
theorem turretStep_fires_iff (dt : R) (turret : Turret R) (enemies : List (Enemy R))
    (bullets : List (Bullet R)) :
    ((turretStep E dt turret enemies bullets).2.2.length = bullets.length + 1 ↔
        (∃ i, findTarget E turret enemies = some i) ∧
          E.add turret.reloadTime dt ≥ turret.fireRate) ∧
      (∀ i, findTarget E turret enemies = some i →
        E.add turret.reloadTime dt ≥ turret.fireRate →
        ∃ target bullet, enemies[i]? = some target ∧ target.active = true ∧
          (turretStep E dt turret enemies bullets).2.2 = bullets ++ [bullet] ∧
          bullet.position = turret.position ∧ bullet.enabled = true ∧ bullet.time = E.lit 0 ∧
          (turretStep E dt turret enemies bullets).1.reloadTime = E.lit 0 ∧
          (turretStep E dt turret enemies bullets).2.1
            = enemies.set i { target with
                health := E.sub target.health turret.damage
                active := !decide (E.sub target.health turret.damage ≤ E.lit 0) } ∧
          ∀ j, j ≠ i → (turretStep E dt turret enemies bullets).2.1[j]? = enemies[j]?) ∧
      (¬ ((∃ i, findTarget E turret enemies = some i) ∧
          E.add turret.reloadTime dt ≥ turret.fireRate) →
        (turretStep E dt turret enemies bullets).2.2 = bullets ∧
          (turretStep E dt turret enemies bullets).2.1 = enemies ∧
          (turretStep E dt turret enemies bullets).1.reloadTime
            = E.add turret.reloadTime dt) := by
  have hfire : ∀ i, findTarget E turret enemies = some i →
      E.add turret.reloadTime dt ≥ turret.fireRate →
      ∃ target bullet, enemies[i]? = some target ∧ target.active = true ∧
        (turretStep E dt turret enemies bullets).2.2 = bullets ++ [bullet] ∧
        bullet.position = turret.position ∧ bullet.enabled = true ∧ bullet.time = E.lit 0 ∧
        (turretStep E dt turret enemies bullets).1.reloadTime = E.lit 0 ∧
        (turretStep E dt turret enemies bullets).2.1
          = enemies.set i { target with
              health := E.sub target.health turret.damage
              active := !decide (E.sub target.health turret.damage ≤ E.lit 0) } ∧
        ∀ j, j ≠ i → (turretStep E dt turret enemies bullets).2.1[j]? = enemies[j]? := by
    intro i hi hr
    obtain ⟨target, ht, ha, heq⟩ := turretStep_fire E dt turret enemies bullets i hi hr
    have hd : damageEnemy E turret target = { target with
        health := E.sub target.health turret.damage
        active := !decide (E.sub target.health turret.damage ≤ E.lit 0) } := by
      simp only [damageEnemy, ha]
      by_cases h0 : E.sub target.health turret.damage ≤ E.lit 0 <;> simp [h0]
    refine ⟨target, newBullet E turret target, ht, ha, by rw [heq], rfl, rfl, rfl, by rw [heq],
      by rw [heq, hd], ?_⟩
    intro j hj
    rw [heq]
    exact List.getElem?_set_ne (Ne.symm hj)
  have hhold : ¬ ((∃ i, findTarget E turret enemies = some i) ∧
        E.add turret.reloadTime dt ≥ turret.fireRate) →
      turretStep E dt turret enemies bullets
        = ({ turret with reloadTime := E.add turret.reloadTime dt }, enemies, bullets) := by
    intro h
    apply turretStep_hold
    by_cases hr : E.add turret.reloadTime dt ≥ turret.fireRate
    · left
      cases hf : findTarget E turret enemies with
      | none => rfl
      | some i => exact absurd ⟨⟨i, hf⟩, hr⟩ h
    · exact Or.inr hr
  refine ⟨⟨?_, ?_⟩, hfire, ?_⟩
  · intro hlen
    by_contra hcon
    rw [hhold hcon] at hlen
    simp at hlen
  · rintro ⟨⟨i, hi⟩, hr⟩
    obtain ⟨_, _, _, _, hb, _⟩ := hfire i hi hr
    rw [hb]; simp
  · intro h
    rw [hhold h]
    exact ⟨rfl, rfl, rfl⟩

/-- C8: with at least two waypoints, after any sequence of frames `dts` the
state `s` has `enemyCount <= maxEnemies = 10` and as many enemies as
`enemyCount` says; a further frame adds no enemy or exactly one and removes
none; the spawn block of that frame leaves the list as it is or appends
`newEnemy waypoints[0]`, which is active, has waypoint index 0 and sits at
the center of `waypoints[0]`. -/
theorem spawn_cap (tiles : Grid) (waypoints : List Cell)
    (hlen : 2 ≤ waypoints.length) (dts : List R) (dt : R) :
    ∃ s s1 s', runGame E tiles waypoints dts = some s ∧
      spawnStep E waypoints dt s = some s1 ∧ frame E waypoints dt s = some s' ∧
      s.enemyCount ≤ maxEnemies ∧ (s.enemies.length : Int) = s.enemyCount ∧
      s.enemies.length ≤ 10 ∧
      (s'.enemies.length = s.enemies.length ∨ s'.enemies.length = s.enemies.length + 1) ∧
      (s1.enemies = s.enemies ∨
        ∃ w, waypoints[0]? = some w ∧ s1.enemies = s.enemies ++ [newEnemy E w] ∧
          (newEnemy E w).active = true ∧ (newEnemy E w).currentWaypoint = 0 ∧
          (newEnemy E w).position = TileCenter E w.row w.col) := by
  obtain ⟨s, hs, hinv⟩ := runGame_ok E tiles waypoints hlen dts
  obtain ⟨s', hs', _⟩ := frame_ok E waypoints hlen dt s hinv
  obtain ⟨s1, hs1⟩ := spawnStep_ok E waypoints dt s (by omega)
  refine ⟨s, s1, s', hs, hs1, hs', hinv.count_le, hinv.count_eq, ?_,
    (frame_enemies E waypoints dt s s' hs').1, ?_⟩
  · have h1 := hinv.count_le
    have h2 := hinv.count_eq
    simp only [maxEnemies] at h1
    omega
  · rcases (spawnStep_some E waypoints dt s s1 hs1).1 with ⟨h1, _⟩ | ⟨w, hw, _, _, h1, _⟩
    · exact Or.inl h1
    · exact Or.inr ⟨w, hw, h1, rfl, rfl, rfl⟩

end

/-- Witness for C8: exact arithmetic, the built-in grid and waypoints, two
frames of one second and a third one. -/
theorem spawn_cap_witness :
    2 ≤ builtinWaypoints.length ∧
      ∃ s s1 s', runGame exactEnv tiles builtinWaypoints [1, 1] = some s ∧
        spawnStep exactEnv builtinWaypoints 1 s = some s1 ∧
        frame exactEnv builtinWaypoints 1 s = some s' ∧
        s.enemyCount ≤ maxEnemies ∧ (s.enemies.length : Int) = s.enemyCount ∧
        s.enemies.length ≤ 10 ∧
        (s'.enemies.length = s.enemies.length ∨ s'.enemies.length = s.enemies.length + 1) ∧
        (s1.enemies = s.enemies ∨
          ∃ w, builtinWaypoints[0]? = some w ∧
            s1.enemies = s.enemies ++ [newEnemy exactEnv w] ∧
            (newEnemy exactEnv w).active = true ∧ (newEnemy exactEnv w).currentWaypoint = 0 ∧
            (newEnemy exactEnv w).position = TileCenter exactEnv w.row w.col) :=
  ⟨by decide, spawn_cap exactEnv tiles builtinWaypoints (by decide) [1, 1] 1⟩

section
variable {R : Type} [LinearOrder R] (E : Env R)

/-- C9: with at least two waypoints, for the state `s` after any frames
`dts` and a further frame with `dt` leading to `s'`: the bullets of `s'` are
the bullets of `s` and the bullets `fired` in this frame (time 0, enabled),
each updated, those not enabled removed.  Every bullet of `s'` is enabled,
has time `< bulletTime`, does not collide with the tracer position
`enemyPosition` of `s'`, and its time is the time of the bullet it comes from
plus `dt`.  A bullet whose time plus `dt` is `>= bulletTime`, or that
collides after its move, is disabled and is not in `s'`. -/
theorem bullets_after_frame (tiles : Grid) (waypoints : List Cell)
    (hlen : 2 ≤ waypoints.length) (dts : List R) (dt : R) :
    ∃ s s' fired, runGame E tiles waypoints dts = some s ∧
      frame E waypoints dt s = some s' ∧
      (∀ b ∈ fired, b.time = E.lit 0 ∧ b.enabled = true) ∧
      s'.bullets = ((s.bullets ++ fired).map (updateBullet E dt s'.enemyPosition)).filter
        (fun bullet => bullet.enabled) ∧
      (∀ b' ∈ s'.bullets, b'.enabled = true ∧ b'.time < bulletTime E ∧
        E.CheckCollisionCircles s'.enemyPosition (enemyRadius E) b'.position (bulletRadius E)
          = false ∧
        ∃ b ∈ s.bullets ++ fired, b' = updateBullet E dt s'.enemyPosition b ∧
          b'.time = E.add b.time dt) ∧
      (∀ b ∈ s.bullets ++ fired,
        (E.add b.time dt ≥ bulletTime E ∨
          E.CheckCollisionCircles s'.enemyPosition (enemyRadius E)
            (updateBullet E dt s'.enemyPosition b).position (bulletRadius E) = true) →
        (updateBullet E dt s'.enemyPosition b).enabled = false ∧
          updateBullet E dt s'.enemyPosition b ∉ s'.bullets) := by
  obtain ⟨s, hs, hinv⟩ := runGame_ok E tiles waypoints hlen dts
  obtain ⟨s', hs', _⟩ := frame_ok E waypoints hlen dt s hinv
  obtain ⟨_, _, fired, _, _, _, _, hfired, hb, _⟩ := frame_some E waypoints dt s s' hs'
  have hb' : s'.bullets = ((s.bullets ++ fired).map (updateBullet E dt s'.enemyPosition)).filter
      (fun bullet => bullet.enabled) := hb
  refine ⟨s, s', fired, hs, hs', hfired, hb', ?_, ?_⟩
  · intro b' hb'mem
    rw [hb', List.mem_filter, List.mem_map] at hb'mem
    obtain ⟨⟨b, hbmem, rfl⟩, hen⟩ := hb'mem
    have hspec := updateBullet_spec E dt s'.enemyPosition b
    have h2 := hspec.2.1 hen
    exact ⟨hen, by rw [hspec.1]; exact h2.1, h2.2, b, hbmem, rfl, hspec.1⟩
  · intro b _ hbad
    have hspec := updateBullet_spec E dt s'.enemyPosition b
    have hdis : (updateBullet E dt s'.enemyPosition b).enabled = false := by
      rw [← Bool.not_eq_true, hspec.2]
      rintro ⟨h1, h2⟩
      rcases hbad with h | h
      · exact absurd h1 (not_lt.2 h)
      · rw [h2] at h; cases h
    refine ⟨hdis, ?_⟩
    intro hmem
    rw [hb', List.mem_filter] at hmem
    rw [hdis] at hmem
    exact absurd hmem.2 (by simp)

end

/-- Witness for C9: exact arithmetic, the built-in grid and waypoints, two
frames of one second and a third one. -/
theorem bullets_after_frame_witness :
    2 ≤ builtinWaypoints.length ∧
      ∃ s s' fired, runGame exactEnv tiles builtinWaypoints [1, 1] = some s ∧
        frame exactEnv builtinWaypoints 1 s = some s' ∧
        (∀ b ∈ fired, b.time = exactEnv.lit 0 ∧ b.enabled = true) ∧
        s'.bullets = ((s.bullets ++ fired).map (updateBullet exactEnv 1 s'.enemyPosition)).filter
          (fun bullet => bullet.enabled) ∧
        (∀ b' ∈ s'.bullets, b'.enabled = true ∧ b'.time < bulletTime exactEnv ∧
          exactEnv.CheckCollisionCircles s'.enemyPosition (enemyRadius exactEnv) b'.position
            (bulletRadius exactEnv) = false ∧
          ∃ b ∈ s.bullets ++ fired, b' = updateBullet exactEnv 1 s'.enemyPosition b ∧
            b'.time = exactEnv.add b.time 1) ∧
        (∀ b ∈ s.bullets ++ fired,
          (exactEnv.add b.time 1 ≥ bulletTime exactEnv ∨
            exactEnv.CheckCollisionCircles s'.enemyPosition (enemyRadius exactEnv)
              (updateBullet exactEnv 1 s'.enemyPosition b).position (bulletRadius exactEnv)
                = true) →
          (updateBullet exactEnv 1 s'.enemyPosition b).enabled = false ∧
            updateBullet exactEnv 1 s'.enemyPosition b ∉ s'.bullets) :=
  ⟨by decide, bullets_after_frame exactEnv tiles builtinWaypoints (by decide) [1, 1] 1⟩

section
variable {R : Type} [LinearOrder R] (E : Env R)

/-- C10: with at least two waypoints, for the state `s` after any frames
`dts` and a further frame with `dt` leading to `s'`: every enemy inactive in
`s` is in `s'` at the same place, equal to itself in every field (so still
inactive).  The movement loop body returns an inactive enemy as it is, the
targeting scan only selects active enemies, and the turret loop body leaves
an inactive enemy as it is. -/
theorem inactive_terminal (tiles : Grid) (waypoints : List Cell)
    (hlen : 2 ≤ waypoints.length) (dts : List R) (dt : R) :
    ∃ s s', runGame E tiles waypoints dts = some s ∧ frame E waypoints dt s = some s' ∧
      Pointwise (fun e e' => e.active = false → e' = e) s.enemies s'.enemies ∧
      (∀ e : Enemy R, e.active = false → moveEnemy E waypoints dt e = some e) ∧
      (∀ (turret : Turret R) (enemies : List (Enemy R)) (i : Nat),
        findTarget E turret enemies = some i → ∃ e, enemies[i]? = some e ∧ e.active = true) ∧
      (∀ (turret : Turret R) (enemies : List (Enemy R)) (bullets : List (Bullet R)) (i : Nat)
        (e : Enemy R), enemies[i]? = some e → e.active = false →
          (turretStep E dt turret enemies bullets).2.1[i]? = some e) := by
  obtain ⟨s, hs, hinv⟩ := runGame_ok E tiles waypoints hlen dts
  obtain ⟨s', hs', _⟩ := frame_ok E waypoints hlen dt s hinv
  refine ⟨s, s', hs, hs', ?_, ?_, ?_, ?_⟩
  · refine (frame_enemies E waypoints dt s s' hs').2.mono ?_
    rintro a b ⟨e1, hmove, hdam⟩ ha
    have h1 := (moveEnemy_some E waypoints dt a e1 hmove).2.1 ha
    subst h1
    exact (Damaged.spec E hdam).2.2.2.2.2 ha
  · intro e he
    simp [moveEnemy, he]
  · intro turret enemies i hi
    obtain ⟨e, he, hin, _⟩ := findTarget_some E turret enemies i hi
    exact ⟨e, he, hin.1⟩
  · intro turret enemies bullets i e he ha
    rcases turretStep_cases E dt turret enemies bullets with h | ⟨j, target, ht, hta, h⟩
    · have : (turretStep E dt turret enemies bullets).2.1 = enemies := by rw [h]
      rw [this]; exact he
    · have : (turretStep E dt turret enemies bullets).2.1
          = enemies.set j (damageEnemy E turret target) := by rw [h]
      rw [this]
      have hne : j ≠ i := by
        intro hji
        subst hji
        rw [ht] at he
        cases he
        rw [hta] at ha
        cases ha
      rw [List.getElem?_set_ne hne]
      exact he

end

/-- Witness for C10: exact arithmetic, the built-in grid and waypoints, two
frames of one second and a third one. -/
theorem inactive_terminal_witness :
    2 ≤ builtinWaypoints.length ∧
      ∃ s s', runGame exactEnv tiles builtinWaypoints [1, 1] = some s ∧
        frame exactEnv builtinWaypoints 1 s = some s' ∧
        Pointwise (fun e e' => e.active = false → e' = e) s.enemies s'.enemies ∧
        (∀ e : Enemy ℚ, e.active = false → moveEnemy exactEnv builtinWaypoints 1 e = some e) ∧
        (∀ (turret : Turret ℚ) (enemies : List (Enemy ℚ)) (i : Nat),
          findTarget exactEnv turret enemies = some i →
            ∃ e, enemies[i]? = some e ∧ e.active = true) ∧
        (∀ (turret : Turret ℚ) (enemies : List (Enemy ℚ)) (bullets : List (Bullet ℚ)) (i : Nat)
          (e : Enemy ℚ), enemies[i]? = some e → e.active = false →
            (turretStep exactEnv 1 turret enemies bullets).2.1[i]? = some e) :=
  ⟨by decide, inactive_terminal exactEnv tiles builtinWaypoints (by decide) [1, 1] 1⟩

/-- C11: in exact arithmetic, with a waypoint list that starts `(0,12)`,
`(7,12)`: the centers of these cells are `(500,20)` and `(500,300)`, the
normalised direction from the first to the second is `(0,1)`, and one pass of
the movement loop body with `dt = 1` takes an active enemy at `(500,20)` with
waypoint index 0 and speed 250 (any health and radius) to `(500,270)`, that
is 250 units along that direction.  For the enemy as spawned (radius 20,
health 150) the position is the only field that changes. -/
theorem moveEnemy_first_step (rest : List Cell) (health radius : ℚ) :
    TileCenter exactEnv 0 12 = ⟨500, 20⟩ ∧ TileCenter exactEnv 7 12 = ⟨500, 300⟩ ∧
      exactEnv.Normalize (exactEnv.vsub (TileCenter exactEnv 7 12) (TileCenter exactEnv 0 12))
        = ⟨0, 1⟩ ∧
      (∃ enemy', moveEnemy exactEnv (⟨0, 12⟩ :: ⟨7, 12⟩ :: rest) 1
          { position := ⟨500, 20⟩, speed := 250, currentWaypoint := 0, health := health,
            radius := radius, active := true } = some enemy' ∧
        enemy'.position = ⟨500, 270⟩ ∧
        enemy'.position = ⟨500 + 250 * 0, 20 + 250 * 1⟩) ∧
      moveEnemy exactEnv (⟨0, 12⟩ :: ⟨7, 12⟩ :: rest) 1 (newEnemy exactEnv ⟨0, 12⟩)
        = some { newEnemy exactEnv ⟨0, 12⟩ with position := ⟨500, 270⟩ } := by
  have hfrom : TileCenter exactEnv 0 12 = ⟨500, 20⟩ := by
    rw [TileCenter_exact exactEnv exactEnv_exact]; norm_num
  have hto : TileCenter exactEnv 7 12 = ⟨500, 300⟩ := by
    rw [TileCenter_exact exactEnv exactEnv_exact]; norm_num
  have hsqrt : Rat.sqrt (0 * 0 + 280 * 280) = 280 := by
    have h := Rat.sqrt_eq 280
    rw [show (0 : ℚ) * 0 + 280 * 280 = 280 * 280 by norm_num, h]
    norm_num
  have hdir : exactEnv.Normalize
      (exactEnv.vsub (TileCenter exactEnv 7 12) (TileCenter exactEnv 0 12)) = ⟨0, 1⟩ := by
    rw [hfrom, hto]
    simp only [exactEnv]
    norm_num [hsqrt]
  have h0 : toSizeT 0 = 0 := by decide
  have h1 : toSizeT (0 + 1) = 1 := by decide
  have hpos : exactEnv.vadd ⟨500, 20⟩ (exactEnv.vscale (exactEnv.vscale ⟨0, 1⟩ 250) 1)
      = ⟨500, 270⟩ := by
    simp only [exactEnv]; norm_num
  refine ⟨hfrom, hto, hdir, ?_, ?_⟩
  · simp only [moveEnemy, if_true, h0, h1, List.getElem?_cons_zero, List.getElem?_cons_succ,
      hdir, hpos]
    split
    · split
      · exact ⟨_, rfl, rfl, by norm_num⟩
      · exact ⟨_, rfl, rfl, by norm_num⟩
    · exact ⟨_, rfl, rfl, by norm_num⟩
  · have hne : newEnemy exactEnv ⟨0, 12⟩
        = { position := ⟨500, 20⟩, speed := 250, currentWaypoint := 0, health := 150,
            radius := 20, active := true } := by
      simp only [newEnemy, hfrom]
      rfl
    have hcol : exactEnv.CheckCollisionPointCircle ⟨500, 270⟩ ⟨500, 300⟩ 20 = false := by
      simp only [exactEnv]; norm_num
    have hdir2 : exactEnv.Normalize (exactEnv.vsub ⟨500, 300⟩ ⟨500, 20⟩) = ⟨0, 1⟩ := by
      rw [← hfrom, ← hto]; exact hdir
    rw [hne]
    simp only [moveEnemy, if_true, h0, h1, List.getElem?_cons_zero, List.getElem?_cons_succ,
      hfrom, hto, hdir2, hpos, hcol, Bool.false_eq_true, if_false]

/-- C12: for every grid, every in-bounds start cell and every search value the
loop of `FloodFill` ends: some number `fuel` of iterations is enough to reach
a state with an empty stack, and the `result` of that state is what
`FloodFill` returns.  Every iteration strictly decreases, in lexicographic
order, the pair `fillMeasure` (number of array entries not yet closed, number
of stack entries already closed), which is why pushing a cell more than once
cannot keep the loop running. -/
theorem FloodFill_terminates (tiles : Grid) (start : Cell) (searchValue : Int)
    (hstart : InBounds start TILE_COUNT TILE_COUNT = true) :
    (∃ fuel r, fillLoopFuel tiles searchValue fuel
          { result := [], open_ := [start], closed := initClosed tiles, trace := [] } = some r ∧
        r.open_ = [] ∧ FloodFill start tiles searchValue = some r.result) ∧
      ∀ (s : FillState) (cell : Cell) (rest : List Cell), s.open_ = cell :: rest →
        InBounds cell TILE_COUNT TILE_COUNT = true →
        Prod.Lex (fun a b => a < b) (fun a b => a < b)
          (fillMeasure (fillBody tiles searchValue s cell rest)) (fillMeasure s) := by
  obtain ⟨s, hs, _, hopen⟩ := FloodFillState_spec tiles searchValue start hstart
  obtain ⟨fuel, hf⟩ := fillLoop_fuel_exists tiles searchValue _ s hs
  exact ⟨⟨fuel, s, hf, hopen, by simp [FloodFill, hs]⟩,
    fun s cell rest heq hb => fillBody_measure_lt tiles searchValue s cell rest heq hb⟩

/-- Witness for C12: the built-in grid, start `(0,12)`, search value
`WAYPOINT`. -/
theorem FloodFill_terminates_witness :
    InBounds ⟨0, 12⟩ TILE_COUNT TILE_COUNT = true ∧
      ((∃ fuel r, fillLoopFuel tiles WAYPOINT fuel
            { result := [], open_ := [⟨0, 12⟩], closed := initClosed tiles, trace := [] }
              = some r ∧
          r.open_ = [] ∧ FloodFill ⟨0, 12⟩ tiles WAYPOINT = some r.result) ∧
        ∀ (s : FillState) (cell : Cell) (rest : List Cell), s.open_ = cell :: rest →
          InBounds cell TILE_COUNT TILE_COUNT = true →
          Prod.Lex (fun a b => a < b) (fun a b => a < b)
            (fillMeasure (fillBody tiles WAYPOINT s cell rest)) (fillMeasure s)) :=
  ⟨by decide!, FloodFill_terminates tiles ⟨0, 12⟩ WAYPOINT (by decide!)⟩

/-- C13: for every grid, every in-bounds start cell and every search value,
`FloodFill` returns a list (no array access was out of range); every cell it
pops has `0 <= row, col < 20`, so the reads of `tiles[row][col]` and the
write of `closed[row][col]` for a popped cell are inside the arrays; every
cell of the result has `0 <= row, col < 20`; and the neighbour test, which
reads `closed` and `tiles` at `adj`, can only succeed for an `adj` with
`0 <= row, col < 20` (its `InBounds(adj)` comes first). -/
theorem FloodFill_in_bounds (tiles : Grid) (start : Cell) (searchValue : Int)
    (hstart : InBounds start TILE_COUNT TILE_COUNT = true) :
    ∃ result trace, FloodFill start tiles searchValue = some result ∧
      FloodFillTrace start tiles searchValue = some trace ∧
      (∀ c ∈ trace, 0 ≤ c.row ∧ c.row < 20 ∧ 0 ≤ c.col ∧ c.col < 20) ∧
      (∀ c ∈ result, 0 ≤ c.row ∧ c.row < 20 ∧ 0 ≤ c.col ∧ c.col < 20) ∧
      ∀ (closed : Arr2 Bool) (adj : Cell), pushable tiles closed adj = true →
        0 ≤ adj.row ∧ adj.row < 20 ∧ 0 ≤ adj.col ∧ adj.col < 20 := by
  obtain ⟨s, hs, hinv, _⟩ := FloodFillState_spec tiles searchValue start hstart
  refine ⟨s.result, s.trace, by simp [FloodFill, hs], by simp [FloodFillTrace, hs], ?_, ?_, ?_⟩
  · intro c hc
    exact (InBounds_iff c).1 (hinv.trace_ok c hc).1
  · intro c hc
    rw [hinv.result_eq] at hc
    exact (InBounds_iff c).1 (hinv.trace_ok c (List.mem_filter.1 hc).1).1
  · intro closed adj hp
    simp only [pushable, Bool.and_eq_true] at hp
    exact (InBounds_iff adj).1 hp.1.1

/-- Witness for C13: the built-in grid, start `(0,12)`, search value
`WAYPOINT`. -/
theorem FloodFill_in_bounds_witness :
    InBounds ⟨0, 12⟩ TILE_COUNT TILE_COUNT = true ∧
      ∃ result trace, FloodFill ⟨0, 12⟩ tiles WAYPOINT = some result ∧
        FloodFillTrace ⟨0, 12⟩ tiles WAYPOINT = some trace ∧
        (∀ c ∈ trace, 0 ≤ c.row ∧ c.row < 20 ∧ 0 ≤ c.col ∧ c.col < 20) ∧
        (∀ c ∈ result, 0 ≤ c.row ∧ c.row < 20 ∧ 0 ≤ c.col ∧ c.col < 20) ∧
        ∀ (closed : Arr2 Bool) (adj : Cell), pushable tiles closed adj = true →
          0 ≤ adj.row ∧ adj.row < 20 ∧ 0 ≤ adj.col ∧ adj.col < 20 :=
  ⟨by decide!, FloodFill_in_bounds tiles ⟨0, 12⟩ WAYPOINT (by decide!)⟩

section
variable (E : Env ℚ)

/-- C14: with exact arithmetic and at least two waypoints, in the state `s`
after any sequence of frames every enemy has health in `[0, 150]`, every
active enemy has health `> 0`, and every turret has damage 15.  A hit sets
the health to the old health minus the damage and, when that is `<= 0`,
makes the enemy inactive in the same step; across a further frame an
inactive enemy keeps its health and stays inactive. -/
theorem enemy_health_bounds (hE : ExactArith E) (tiles : Grid) (waypoints : List Cell)
    (hlen : 2 ≤ waypoints.length) (dts : List ℚ) (dt : ℚ) :
    ∃ s s', runGame E tiles waypoints dts = some s ∧ frame E waypoints dt s = some s' ∧
      (∀ e ∈ s.enemies, 0 ≤ e.health ∧ e.health ≤ 150 ∧ (e.active = true → 0 < e.health)) ∧
      (∀ t ∈ s.turrets, t.damage = 15) ∧
      (∀ (turret : Turret ℚ) (target : Enemy ℚ),
        (damageEnemy E turret target).health = target.health - turret.damage ∧
          ((damageEnemy E turret target).health ≤ 0 →
            (damageEnemy E turret target).active = false)) ∧
      Pointwise (fun e e' => e.active = false → e'.health = e.health ∧ e'.active = false)
        s.enemies s'.enemies := by
  obtain ⟨s, hs, hinv⟩ := runGame_ok E tiles waypoints hlen dts
  obtain ⟨s', hs', _⟩ := frame_ok E waypoints hlen dt s hinv
  have hh := runGame_preserves E tiles waypoints
    (fun s => (∀ t ∈ s.turrets, t.damage = 15) ∧ ∀ e ∈ s.enemies, HealthOK e)
    (initState_healthOK E hE tiles waypoints)
    (fun dt s s' => frame_healthOK E hE waypoints dt s s') dts s hs
  refine ⟨s, s', hs, hs', fun e he => (hh.2 e he).bounds, hh.1, ?_, ?_⟩
  · intro turret target
    refine ⟨by simp only [damageEnemy, hE.sub], ?_⟩
    intro hle
    simp only [damageEnemy, hE.sub, hE.lit] at hle ⊢
    rw [if_pos hle]
  · refine (frame_enemies E waypoints dt s s' hs').2.mono ?_
    rintro a b ⟨e1, hmove, hdam⟩ ha
    have h1 := (moveEnemy_some E waypoints dt a e1 hmove).2.1 ha
    subst h1
    have h2 := (Damaged.spec E hdam).2.2.2.2.2 ha
    subst h2
    exact ⟨rfl, ha⟩

end

/-- Witness for C14: exact arithmetic, the built-in grid and waypoints, two
frames of one second and a third one. -/
theorem enemy_health_bounds_witness :
    ExactArith exactEnv ∧ 2 ≤ builtinWaypoints.length ∧
      ∃ s s', runGame exactEnv tiles builtinWaypoints [1, 1] = some s ∧
        frame exactEnv builtinWaypoints 1 s = some s' ∧
        (∀ e ∈ s.enemies, 0 ≤ e.health ∧ e.health ≤ 150 ∧ (e.active = true → 0 < e.health)) ∧
        (∀ t ∈ s.turrets, t.damage = 15) ∧
        (∀ (turret : Turret ℚ) (target : Enemy ℚ),
          (damageEnemy exactEnv turret target).health = target.health - turret.damage ∧
            ((damageEnemy exactEnv turret target).health ≤ 0 →
              (damageEnemy exactEnv turret target).active = false)) ∧
        Pointwise (fun e e' => e.active = false → e'.health = e.health ∧ e'.active = false)
          s.enemies s'.enemies :=
  ⟨exactEnv_exact, by decide,
    enemy_health_bounds exactEnv exactEnv_exact tiles builtinWaypoints (by decide) [1, 1] 1⟩

section
variable {R : Type} [LinearOrder R] (E : Env R)

/-- C15: with at least two waypoints, in the state `s` after any sequence of
frames the tracer has `next = curr + 1`; while `atEnd` is false,
`next < len(waypoints)` and both `waypoints[curr]` and `waypoints[next]`
exist; `atEnd` is true exactly when `curr` is the last index; and once
`atEnd` is true a further frame leaves `atEnd`, `curr`, `next` and the
tracer position as they are. -/
theorem tracer_indices (tiles : Grid) (waypoints : List Cell)
    (hlen : 2 ≤ waypoints.length) (dts : List R) (dt : R) :
    ∃ s s', runGame E tiles waypoints dts = some s ∧ frame E waypoints dt s = some s' ∧
      s.next = s.curr + 1 ∧
      (s.atEnd = false → s.next < waypoints.length ∧
        (∃ w, waypoints[s.curr]? = some w) ∧ ∃ w, waypoints[s.next]? = some w) ∧
      (s.atEnd = true ↔ s.curr = waypoints.length - 1) ∧
      (s.atEnd = true → s'.atEnd = true ∧ s'.curr = s.curr ∧ s'.next = s.next ∧
        s'.enemyPosition = s.enemyPosition) := by
  obtain ⟨s, hs, hinv⟩ := runGame_ok E tiles waypoints hlen dts
  obtain ⟨s', hs', _⟩ := frame_ok E waypoints hlen dt s hinv
  have ht : TracerInv waypoints s :=
    runGame_preserves E tiles waypoints (TracerInv waypoints)
      (initState_tracerInv E tiles waypoints hlen)
      (fun dt s s' => frame_tracerInv E waypoints dt s s') dts s hs
  refine ⟨s, s', hs, hs', ht.next_eq, ?_, ?_, ?_⟩
  · intro hat
    have hne : s.next ≠ waypoints.length := by
      intro h
      rw [ht.atEnd_iff.2 h] at hat
      cases hat
    have h1 := ht.next_le
    have h2 := ht.next_eq
    have hlt : s.next < waypoints.length := by omega
    exact ⟨hlt, ⟨_, List.getElem?_eq_getElem (by omega)⟩, ⟨_, List.getElem?_eq_getElem hlt⟩⟩
  · rw [ht.atEnd_iff, ht.next_eq]
    omega
  · intro hat
    obtain ⟨s3, s4, hs4, hc, hn, ha, hp, hc', hn', ha', hp'⟩ :=
      frame_tracer E waypoints dt s s' hs'
    rcases tracerStep_cases E waypoints dt s3 s4 hs4 with ⟨_, rfl⟩ | ⟨hf, _⟩
    · exact ⟨by rw [ha', ha, hat], by rw [hc', hc], by rw [hn', hn], by rw [hp', hp]⟩
    · rw [ha, hat] at hf
      cases hf

end

/-- Witness for C15: exact arithmetic, the built-in grid and waypoints, two
frames of one second and a third one. -/
theorem tracer_indices_witness :
    2 ≤ builtinWaypoints.length ∧
      ∃ s s', runGame exactEnv tiles builtinWaypoints [1, 1] = some s ∧
        frame exactEnv builtinWaypoints 1 s = some s' ∧
        s.next = s.curr + 1 ∧
        (s.atEnd = false → s.next < builtinWaypoints.length ∧
          (∃ w, builtinWaypoints[s.curr]? = some w) ∧ ∃ w, builtinWaypoints[s.next]? = some w) ∧
        (s.atEnd = true ↔ s.curr = builtinWaypoints.length - 1) ∧
        (s.atEnd = true → s'.atEnd = true ∧ s'.curr = s.curr ∧ s'.next = s.next ∧
          s'.enemyPosition = s.enemyPosition) :=
  ⟨by decide, tracer_indices exactEnv tiles builtinWaypoints (by decide) [1, 1] 1⟩

section
variable {R : Type} (E : Env R)

/-- C16: for every grid the turret list built at load is the list of
`newTurret row col` over the cells `turretCells grid`; these are exactly the
cells with both indices below 20 whose tile is `TURRET`, each once, in
row-major order; `newTurret row col` sits at the center of its tile, has
reload timer 0 and is active.  For the built-in grid these are the 8 turrets
of the cells (7,1), (9,12), (10,5), (13,18), (15,3), (15,14), (17,7),
(19,16). -/
theorem makeTurrets_eq (grid : Grid) :
    makeTurrets E grid
        = (turretCells grid).map (fun p => newTurret E (p.1 : Int) (p.2 : Int)) ∧
      (∀ p, p ∈ turretCells grid ↔ p.1 < 20 ∧ p.2 < 20 ∧ grid p.1 p.2 = TURRET) ∧
      (turretCells grid).Nodup ∧
      (turretCells grid).Pairwise
        (fun p q => p.1 < q.1 ∨ (p.1 = q.1 ∧ p.2 < q.2)) ∧
      (∀ row col : Int, (newTurret E row col).position = TileCenter E row col ∧
        (newTurret E row col).reloadTime = E.lit 0 ∧ (newTurret E row col).active = true) ∧
      makeTurrets E tiles
        = [newTurret E 7 1, newTurret E 9 12, newTurret E 10 5, newTurret E 13 18,
            newTurret E 15 3, newTurret E 15 14, newTurret E 17 7, newTurret E 19 16] := by
  have hsorted := allIndices_sorted.filter (fun p => decide (grid p.1 p.2 = TURRET))
  refine ⟨makeTurrets_map E grid, ?_, ?_, hsorted, fun row col => ⟨rfl, rfl, rfl⟩, ?_⟩
  · intro p
    simp only [turretCells, List.mem_filter, decide_eq_true_eq]
    rw [show p = (p.1, p.2) from rfl, mem_allIndices]
    tauto
  · refine hsorted.imp ?_
    rintro p q h rfl
    omega
  · rw [makeTurrets_map, turretCells_builtin]
    simp
end

/-- C17 (amended): in binary32 arithmetic `TILE_SIZE = 800 / 20 = 40`, and for
every row and column between `-1677721` and `1677721`, which covers the cells
`0..19` of the grid, `TileCorner(row, col) = (col*40, row*40)` and
`TileCenter(row, col) = (col*40 + 20, row*40 + 20)`: `x` comes from the
column and `y` from the row, the center is the corner plus half a tile on
both axes, and a cell of that range with the same center is the same cell. -/
theorem tile_coordinates_binary32 (row col : Int)
    (hrow : |row| ≤ 1677721) (hcol : |col| ≤ 1677721) :
    TILE_SIZE f32Env = 800 / 20 ∧ TILE_SIZE f32Env = 40 ∧
      TileCorner f32Env row col = ⟨col * 40, row * 40⟩ ∧
      TileCenter f32Env row col = ⟨col * 40 + 20, row * 40 + 20⟩ ∧
      (TileCenter f32Env row col).x = (TileCorner f32Env row col).x + TILE_SIZE f32Env / 2 ∧
      (TileCenter f32Env row col).y = (TileCorner f32Env row col).y + TILE_SIZE f32Env / 2 ∧
      ∀ row' col' : Int, |row'| ≤ 1677721 → |col'| ≤ 1677721 →
        TileCenter f32Env row col = TileCenter f32Env row' col' → row = row' ∧ col = col' := by
  have hts := TILE_SIZE_f32
  have hcen := TileCenter_f32 row col hrow hcol
  have hcor := TileCorner_f32 row col hrow hcol
  refine ⟨by rw [hts]; norm_num, hts, hcor, hcen, ?_, ?_, ?_⟩
  · rw [hcen, hcor, hts]; norm_num
  · rw [hcen, hcor, hts]; norm_num
  · intro row' col' hrow' hcol' h
    rw [hcen, TileCenter_f32 row' col' hrow' hcol', Vector2.mk.injEq] at h
    obtain ⟨hx, hy⟩ := h
    have h1 : (col : ℚ) = col' := by linarith
    have h2 : (row : ℚ) = row' := by linarith
    exact ⟨by exact_mod_cast h2, by exact_mod_cast h1⟩

/-- Witness for C17: the grid cell in row 7, column 12. -/
theorem tile_coordinates_binary32_witness :
    |(7 : Int)| ≤ 1677721 ∧ |(12 : Int)| ≤ 1677721 ∧
      (TILE_SIZE f32Env = 800 / 20 ∧ TILE_SIZE f32Env = 40 ∧
        TileCorner f32Env 7 12 = ⟨(12 : Int) * 40, (7 : Int) * 40⟩ ∧
        TileCenter f32Env 7 12 = ⟨(12 : Int) * 40 + 20, (7 : Int) * 40 + 20⟩ ∧
        (TileCenter f32Env 7 12).x = (TileCorner f32Env 7 12).x + TILE_SIZE f32Env / 2 ∧
        (TileCenter f32Env 7 12).y = (TileCorner f32Env 7 12).y + TILE_SIZE f32Env / 2 ∧
        ∀ row' col' : Int, |row'| ≤ 1677721 → |col'| ≤ 1677721 →
          TileCenter f32Env 7 12 = TileCenter f32Env row' col' → 7 = row' ∧ 12 = col') :=
  ⟨by decide, by decide, tile_coordinates_binary32 7 12 (by decide) (by decide)⟩

/-- C17 as stated, for every row and column, fails in binary32 arithmetic.
`TileCenter(16777217, 3)` and `TileCenter(16777216, 3)` are both
`(140, 671088640)`: the row 16777217 has 25 significant bits and becomes the
`float` 16777216, and adding 20 to `671088640`, where consecutive `float`s
are 64 apart, changes nothing.  So the `y` of the center is not
`row*40 + 20`, it equals the `y` of the corner, and two cells share a
center.  The formula for the center first fails at row 1677722, where
`67108900` is rounded to `67108896`. -/
theorem tile_coordinates_unbounded_false :
    TileCenter f32Env 16777217 3 = ⟨140, 671088640⟩ ∧
      TileCenter f32Env 16777216 3 = ⟨140, 671088640⟩ ∧
      TileCorner f32Env 16777217 3 = ⟨120, 671088640⟩ ∧
      (TileCenter f32Env 16777217 3).y ≠ (16777217 : Int) * 40 + 20 ∧
      (TileCenter f32Env 16777217 3).y
        ≠ (TileCorner f32Env 16777217 3).y + TILE_SIZE f32Env / 2 ∧
      (TileCenter f32Env 1677722 3).y = 67108896 ∧
      (TileCenter f32Env 1677722 3).y ≠ (1677722 : Int) * 40 + 20 ∧
      ¬ (∀ row col : Int,
          TileCenter f32Env row col = ⟨col * 40 + 20, row * 40 + 20⟩ ∧
          (TileCenter f32Env row col).y
            = (TileCorner f32Env row col).y + TILE_SIZE f32Env / 2) ∧
      ¬ (∀ row col row' col' : Int,
          TileCenter f32Env row col = TileCenter f32Env row' col' →
            row = row' ∧ col = col') := by
  have h1 : TileCenter f32Env 16777217 3 = ⟨140, 671088640⟩ := by
    show Vector2.mk _ _ = Vector2.mk _ _
    congr 1 <;> decide!
  have h2 : TileCenter f32Env 16777216 3 = ⟨140, 671088640⟩ := by
    show Vector2.mk _ _ = Vector2.mk _ _
    congr 1 <;> decide!
  have h3 : TileCorner f32Env 16777217 3 = ⟨120, 671088640⟩ := by
    show Vector2.mk _ _ = Vector2.mk _ _
    congr 1 <;> decide!
  have h4 : (TileCenter f32Env 16777217 3).y ≠ (16777217 : Int) * 40 + 20 := by decide!
  have h5 : (TileCenter f32Env 16777217 3).y
      ≠ (TileCorner f32Env 16777217 3).y + TILE_SIZE f32Env / 2 := by decide!
  refine ⟨h1, h2, h3, h4, h5, by decide!, by decide!, ?_, ?_⟩
  · intro h
    exact h5 (h 16777217 3).2
  · intro h
    have := (h 16777217 3 16777216 3 (h1.trans h2.symm)).1
    omega

end TowerDefense
